import Mathlib

/-! # dupay: duplicate-payment finder

A shallow embedding of `finder.go`, `types.go`, `parser_mbank.go` and
`parser_optima.go` of the dupay repository, followed by theorems about the
deduplication pre-pass, the duplicate finder and the two statement parsers.

Modelling conventions.

* `time.Time` values are instants on the UTC time line, counted in
  nanoseconds since the Unix epoch (the parsers build every timestamp with
  `time.Parse` on a layout without a zone, which yields UTC and no monotonic
  clock reading).
* `time.Duration` is `int64` nanoseconds: `Time.Sub` saturates at the two ends
  of the range and the unary minus of Go wraps modulo `2^64`.
* `float64` amounts are idealised as exact rationals in the data model on which
  the record extraction of the parsers and the structure of the finder are
  stated. The sections on `float64` (type `F64`, namespace `IEEE`) model the
  values of `float64` themselves, with the two zeros, the infinities, NaN and the
  rounding to the nearest value, and a `time.Time` with the offset of its
  Location; the theorems whose content is the number computed, the comparison
  of two amounts or the rendering of the key are stated there.
* `fmt.Sprintf` and `Time.Format` are rendered character by character.
* Strings handled by the parsers are valid UTF-8 and are lists of code points;
  the two regular expressions of each parser are matched by hand-written
  functions; `strconv.ParseFloat` is modelled on plain decimal numerals.
* A loop of a parser whose cursor moves by data-dependent steps carries a fuel
  argument; the result `none` of such a loop means that the fuel ran out, and
  the theorems show that it does not with the fuel the entry points supply.
-/

namespace Dupay

/-! ## Data model (`types.go`) -/

/-- Transaction of `types.go`: one bank transaction. -/
structure Transaction where
  /-- Instant of the transaction, nanoseconds since the Unix epoch (UTC). -/
  DateTime : Int
  /-- Memo text. -/
  Description : String
  /-- Signed value, negative for debits. -/
  Amount : ℚ
  /-- Currency code. -/
  Currency : String
  /-- Name of the bank the record came from. -/
  Bank : String
  /-- Original text of the record. -/
  RawLine : String
deriving DecidableEq

/-- DuplicateMatch of `types.go`: a candidate pair with its two deltas. -/
structure DuplicateMatch where
  Transaction1 : Transaction
  Transaction2 : Transaction
  /-- A `time.Duration`, in nanoseconds. -/
  TimeDiff : Int
  AmountDiff : ℚ
deriving DecidableEq

/-! ## `time.Duration` arithmetic -/

/-- Smallest `time.Duration`, `-1 << 63` nanoseconds. -/
def minDuration : Int := -(2 ^ 63)

/-- Largest `time.Duration`, `1<<63 - 1` nanoseconds. -/
def maxDuration : Int := 2 ^ 63 - 1

/-- Two's complement reduction of an integer to the `int64` range. -/
def wrap64 (x : Int) : Int := (x + 2 ^ 63) % 2 ^ 64 - 2 ^ 63

/-- Method `t.Sub(u)` of package `time`: the duration `t - u`, replaced by
`minDuration` or `maxDuration` when the difference does not fit. -/
def Sub (t u : Int) : Int :=
  let d := t - u
  if d < minDuration then minDuration
  else if maxDuration < d then maxDuration
  else d

/-! ## Rendering of numbers, timestamps and amounts -/

/-- The character of a decimal digit. -/
def digitChar (d : Nat) : Char := Char.ofNat (48 + d)

/-- Decimal digits of `n`, most significant first, computed with `fuel`
division steps. -/
def decDigitsAux : Nat → Nat → List Char
  | 0, _ => []
  | fuel + 1, n =>
    if n < 10 then [digitChar n]
    else decDigitsAux fuel (n / 10) ++ [digitChar (n % 10)]

/-- Decimal digits of `n`, most significant first (`"0"` for zero). -/
def decDigits (n : Nat) : List Char := decDigitsAux (n + 1) n

/-- Decimal digits of `n`, left-padded with zeros to at least `width`
characters (`appendInt` of package `time` on a non-negative value). -/
def padDigits (width n : Nat) : List Char :=
  List.replicate (width - (decDigits n).length) '0' ++ decDigits n

/-- Signed, zero-padded rendering of an integer (`appendInt` of package
`time`). -/
def appendInt (x : Int) (width : Nat) : List Char :=
  if x < 0 then '-' :: padDigits width (-x).toNat else padDigits width x.toNat

/-- Proleptic Gregorian date `(year, month, day)` of the day that lies `z`
days after 1970-01-01. -/
def civilFromDays (z : Int) : Int × Int × Int :=
  let z1 := z + 719468
  let era := z1 / 146097
  let doe := z1 % 146097
  let yoe := (doe - doe / 1460 + doe / 36524 - doe / 146096) / 365
  let doy := doe - (365 * yoe + yoe / 4 - yoe / 100)
  let mp := (5 * doy + 2) / 153
  let d := doy - (153 * mp + 2) / 5 + 1
  let m := if mp < 10 then mp + 3 else mp - 9
  let y := yoe + era * 400
  (if m ≤ 2 then y + 1 else y, m, d)

/-- Nanoseconds in one second. -/
def nsPerSecond : Int := 1000000000

/-- Nanoseconds in one minute. -/
def nsPerMinute : Int := 60 * nsPerSecond

/-- Rendering `t.Format("2006-01-02 15:04")` of a UTC instant; for a time in
another Location, `IEEE.Time.Format` applies it to the wall clock. -/
def formatMinute (t : Int) : String :=
  let secs := t / nsPerSecond
  let days := secs / 86400
  let rem := secs % 86400
  let ymd := civilFromDays days
  String.mk (appendInt ymd.1 4 ++ '-' :: padDigits 2 ymd.2.1.toNat
    ++ '-' :: padDigits 2 ymd.2.2.toNat
    ++ ' ' :: padDigits 2 (rem / 3600).toNat
    ++ ':' :: padDigits 2 (rem % 3600 / 60).toNat)

/-- Nearest integer to a non-negative rational, ties to the even neighbour
(the rounding of `strconv` when it shortens a decimal expansion). -/
def roundHalfEven (q : ℚ) : Int :=
  let f := ⌊q⌋
  let r := q - f
  if r < 1 / 2 then f
  else if 1 / 2 < r then f + 1
  else if f % 2 = 0 then f else f + 1

/-- Hundredths in the magnitude of `x` after rounding to two decimals. -/
def hundredths (x : ℚ) : Nat := (roundHalfEven (|x| * 100)).toNat

/-- Rendering `fmt.Sprintf("%.2f", x)`: optional minus sign, integer part, a period and
exactly two decimals. The sign is that of `x`, also when the digits are all
zero. The rendering of a `float64` with its sign bit, of the infinities and of
NaN is `formatFloat2`. -/
def formatFixed2 (x : ℚ) : String :=
  String.mk ((if x < 0 then ['-'] else [])
    ++ decDigits (hundredths x / 100) ++ '.' :: padDigits 2 (hundredths x % 100))

/-! ## Deduplication pre-pass (`finder.go`) -/

/-- Key of the pre-pass:
`fmt.Sprintf("%s|%s|%.2f", t.Bank, t.DateTime.Format("2006-01-02 15:04"), t.Amount)`. -/
def key (t : Transaction) : String :=
  t.Bank ++ "|" ++ formatMinute t.DateTime ++ "|" ++ formatFixed2 t.Amount

/-- One iteration of the loop of `deduplicateTransactions`; the state is the
set of seen keys and the result built so far. -/
def dedupStep (st : List String × List Transaction) (t : Transaction) :
    List String × List Transaction :=
  if key t ∈ st.1 then st else (key t :: st.1, st.2 ++ [t])

/-- Function `deduplicateTransactions` of `finder.go`. -/
def deduplicateTransactions (transactions : List Transaction) : List Transaction :=
  (transactions.foldl dedupStep ([], [])).2

/-! ## Duplicate finder (`finder.go`) -/

/-- Body of the inner loop of `FindDuplicates` for the pair `t1`, `t2`:
returns the list of matches after the iteration. The amounts are compared as
exact rationals; the body on `float64` is `IEEE.pairStep`. -/
def pairStep (maxTimeDiff : Int) (maxAmountDiff : ℚ) (acc : List DuplicateMatch)
    (t1 t2 : Transaction) : List DuplicateMatch :=
  if t1.Bank = t2.Bank then acc
  else if t1.Currency ≠ t2.Currency then acc
  else if t1.Amount ≥ 0 ∨ t2.Amount ≥ 0 then acc
  else
    let timeDiff := Sub t1.DateTime t2.DateTime
    let timeDiff := if timeDiff < 0 then wrap64 (-timeDiff) else timeDiff
    if timeDiff > maxTimeDiff then acc
    else
      let amountDiff := |(|t1.Amount| - |t2.Amount|)|
      if amountDiff > maxAmountDiff then acc
      else acc ++ [⟨t1, t2, timeDiff, amountDiff⟩]

/-- Inner loop of `FindDuplicates`: `j` runs from `i + 1` to the end. -/
def innerLoop (maxTimeDiff : Int) (maxAmountDiff : ℚ) (transactions : List Transaction)
    (i : Nat) (acc : List DuplicateMatch) : List DuplicateMatch :=
  (List.range' (i + 1) (transactions.length - (i + 1))).foldl
    (fun acc j =>
      match transactions[i]?, transactions[j]? with
      | some t1, some t2 => pairStep maxTimeDiff maxAmountDiff acc t1 t2
      | _, _ => acc)
    acc

/-- Function `FindDuplicates` of `finder.go`. -/
def FindDuplicates (transactions : List Transaction) (maxTimeDiff : Int)
    (maxAmountDiff : ℚ) : List DuplicateMatch :=
  let transactions := deduplicateTransactions transactions
  (List.range transactions.length).foldl
    (fun acc i => innerLoop maxTimeDiff maxAmountDiff transactions i acc) []

/-! ## Specification-side definitions and proof devices -/

/-- Value of a string of decimal digits. -/
def digitsValue (l : List Char) : Nat :=
  l.foldl (fun acc c => 10 * acc + (c.toNat - 48)) 0

/-- Characters that are decimal digits. -/
def IsDigitChar (c : Char) : Prop := ∃ d, d < 10 ∧ c = digitChar d

/-- Days from 1970-01-01 to the proleptic Gregorian date `y`-`m`-`d`. -/
def daysFromCivil (y m d : Int) : Int :=
  let y1 := if m ≤ 2 then y - 1 else y
  let era := y1 / 400
  let yoe := y1 % 400
  let mp := if m > 2 then m - 3 else m + 9
  let doy := (153 * mp + 2) / 5 + d - 1
  let doe := yoe * 365 + yoe / 4 - yoe / 100 + doy
  era * 146097 + doe - 719468

/-- The timestamp truncated to the minute (start of its UTC minute). -/
def truncateMinute (t : Int) : Int := t / nsPerMinute * nsPerMinute

/-- The amount rounded to two decimal places (ties to even). -/
def round2 (x : ℚ) : ℚ := (if x < 0 then -1 else 1) * (hundredths x : ℚ) / 100

/-- Key of the pre-pass as the specification words it: bank, timestamp
truncated to the minute, amount rounded to two decimals. -/
def specKey (t : Transaction) : String × Int × ℚ :=
  (t.Bank, truncateMinute t.DateTime, round2 t.Amount)

/-- Key of the pre-pass with the sign of the amount kept apart from its rounded value. -/
def signedKey (t : Transaction) : String × Int × ℚ × Bool :=
  (t.Bank, truncateMinute t.DateTime, round2 t.Amount, decide (t.Amount < 0))

/-- The elements of `ts` whose key under `K` occurs at no earlier position, in
input order: position `i` is kept exactly when no `u` among the first `i`
elements has `K u = K ts[i]`. -/
def firstOccurrences {κ : Type} [DecidableEq κ] (K : Transaction → κ)
    (ts : List Transaction) : List Transaction :=
  (List.range ts.length).filterMap fun i =>
    match ts[i]? with
    | some t => if ∀ u ∈ ts.take i, K u ≠ K t then some t else none
    | none => none

/-- The five conditions of the duplicate finder, as the specification words
them: different banks, same currency, two debits, timestamps within
`maxTimeDiff`, magnitudes within `maxAmountDiff`. -/
def isDuplicatePair (maxTimeDiff : Int) (maxAmountDiff : ℚ) (t1 t2 : Transaction) : Prop :=
  t1.Bank ≠ t2.Bank ∧ t1.Currency = t2.Currency ∧ (t1.Amount < 0 ∧ t2.Amount < 0) ∧
    |t1.DateTime - t2.DateTime| ≤ maxTimeDiff ∧
    |(|t1.Amount| - |t2.Amount|)| ≤ maxAmountDiff

instance (maxTimeDiff : Int) (maxAmountDiff : ℚ) (t1 t2 : Transaction) :
    Decidable (isDuplicatePair maxTimeDiff maxAmountDiff t1 t2) := by
  unfold isDuplicatePair
  infer_instance

/-- All index pairs `(i, j)` with `i < j < n`, in increasing lexicographic order. -/
def orderedPairs (n : Nat) : List (Nat × Nat) :=
  (List.range n).flatMap fun i =>
    ((List.range n).filter fun j => i < j).map fun j => (i, j)

/-- The matches the specification asks for: one `DuplicateMatch` for each index
pair `i < j` of `d` that satisfies the five conditions, in increasing `(i, j)`
order, with the absolute time delta and the absolute delta of the magnitudes. -/
def specMatches (d : List Transaction) (maxTimeDiff : Int) (maxAmountDiff : ℚ) :
    List DuplicateMatch :=
  (orderedPairs d.length).filterMap fun p =>
    match d[p.1]?, d[p.2]? with
    | some t1, some t2 =>
      if isDuplicatePair maxTimeDiff maxAmountDiff t1 t2 then
        some ⟨t1, t2, |t1.DateTime - t2.DateTime|, |(|t1.Amount| - |t2.Amount|)|⟩
      else none
    | _, _ => none

/-- The `timeDiff` of `FindDuplicates` for a pair: `t1.DateTime.Sub(t2.DateTime)`,
negated in `int64` arithmetic when it is negative. -/
def timeDiffOf (t1 t2 : Transaction) : Int :=
  if Sub t1.DateTime t2.DateTime < 0 then wrap64 (-Sub t1.DateTime t2.DateTime)
  else Sub t1.DateTime t2.DateTime

/-- Matches contributed by the index pair `(i, j)` of the list `d`. -/
def cell (mt : Int) (ma : ℚ) (d : List Transaction) (i j : Nat) : List DuplicateMatch :=
  match d[i]?, d[j]? with
  | some t1, some t2 => pairStep mt ma [] t1 t2
  | _, _ => []

/-! ## Inputs used in worked examples -/

/-- Base time of the test-suite, 2025-01-15 10:30:00 UTC. -/
def baseTime : Int := 1736937000 * nsPerSecond

/-- One minute as a `time.Duration`. -/
def oneMinute : Int := 60 * nsPerSecond

/-- The four debits of the test "multiple potential duplicates". -/
def exMultiple : List Transaction :=
  [⟨baseTime, "", -100, "KGS", "BankA", ""⟩,
   ⟨baseTime, "", -100, "KGS", "BankB", ""⟩,
   ⟨baseTime + 3600 * nsPerSecond, "", -200, "KGS", "BankA", ""⟩,
   ⟨baseTime + 3600 * nsPerSecond, "", -200, "KGS", "BankB", ""⟩]

/-- A debit of 100 KGS at the base time, bank Optima. -/
def exNew : Transaction := ⟨baseTime, "Payment 1", -100, "KGS", "Optima Bank", ""⟩

/-- A debit of 100 KGS dated 1700-01-01 10:00 UTC, bank Mbank. -/
def exOld : Transaction := ⟨-8520300000 * nsPerSecond, "Payment 1", -100, "KGS", "Mbank", ""⟩

/-- A debit of 100.50 KGS thirty seconds after the base time, bank Mbank. -/
def exHalf : Transaction :=
  ⟨baseTime + 30 * nsPerSecond, "Payment 1", -100.5, "KGS", "Mbank", ""⟩

/-- A debit of 105 KGS at the base time, bank Mbank. -/
def exFive : Transaction := ⟨baseTime, "", -105, "KGS", "Mbank", ""⟩

/-- A debit of 100 USD at the base time, bank Mbank. -/
def exDollar : Transaction := ⟨baseTime, "", -100, "USD", "Mbank", ""⟩

/-- A debit of 100 KGS exactly one minute after the base time, bank Mbank. -/
def exMinuteLater : Transaction := ⟨baseTime + oneMinute, "", -100, "KGS", "Mbank", ""⟩

/-- A debit of 100 KGS one minute and one nanosecond after the base time. -/
def exMinuteLaterPlus : Transaction :=
  ⟨baseTime + oneMinute + 1, "", -100, "KGS", "Mbank", ""⟩

/-- A debit at the Unix epoch. -/
def exEpoch : Transaction := ⟨0, "", -100, "KGS", "BankB", ""⟩

/-- A debit `2^63` nanoseconds after the Unix epoch (2262-04-11 23:47:16.854775808 UTC). -/
def exFar : Transaction := ⟨2 ^ 63, "", -100, "KGS", "BankA", ""⟩

/-! ## Package `strings` and `unicode`

Go strings are taken to be valid UTF-8 and are modelled as lists of code
points; a byte offset into a string is modelled as a count of characters. -/

/-- Predicate `unicode.IsSpace`: the white space characters of Unicode. -/
def isSpace (c : Char) : Bool :=
  c = '\t' || c = '\n' || c = '\x0b' || c = '\x0c' || c = '\r' || c = ' ' ||
    c = '\u0085' || c = '\u00a0' || c = '\u1680' ||
    (0x2000 ≤ c.toNat && c.toNat ≤ 0x200a) ||
    c = '\u2028' || c = '\u2029' || c = '\u202f' || c = '\u205f' || c = '\u3000'

/-- Function `strings.TrimSpace`: leading and trailing white space removed. -/
def TrimSpace (s : List Char) : List Char :=
  (s.dropWhile isSpace).rdropWhile isSpace

/-- Function `strings.HasPrefix(s, p)`. -/
def startsWith (s p : List Char) : Bool := p.isPrefixOf s

/-- Function `strings.Contains(s, sub)`: `sub` occurs at some position of `s`. -/
def Contains (s sub : List Char) : Bool := s.tails.any fun t => sub.isPrefixOf t

/-- Function `strings.Split(s, "\n")`: the pieces between newlines; never empty. -/
def Split : List Char → List (List Char)
  | [] => [[]]
  | c :: cs =>
    if c = '\n' then [] :: Split cs
    else
      match Split cs with
      | [] => [[c]]
      | l :: ls => (c :: l) :: ls

/-- Worker of `ReplaceAll`: `skip` counts the characters of the occurrence of
`old` being replaced that are still to be dropped. -/
def replaceAllAux (old new : List Char) : Nat → List Char → List Char
  | _, [] => []
  | skip + 1, _ :: cs => replaceAllAux old new skip cs
  | 0, c :: cs =>
    if old.isPrefixOf (c :: cs) then new ++ replaceAllAux old new (old.length - 1) cs
    else c :: replaceAllAux old new 0 cs

/-- Function `strings.ReplaceAll(s, old, new)` for a non-empty `old`: the
non-overlapping occurrences of `old`, found from the left, replaced by `new`. -/
def ReplaceAll (s old new : List Char) : List Char := replaceAllAux old new 0 s

/-- Worker of `LastIndex`: the highest position at most `i` where `sub` starts. -/
def lastIndexAux (s sub : List Char) : Nat → Option Nat
  | 0 => if sub.isPrefixOf s then some 0 else none
  | i + 1 => if sub.isPrefixOf (s.drop (i + 1)) then some (i + 1) else lastIndexAux s sub i

/-- Function `strings.LastIndex(s, sub)`: the position of the last occurrence
of `sub` in `s`; `none` stands for `-1`. -/
def LastIndex (s sub : List Char) : Option Nat := lastIndexAux s sub s.length

/-- Function `strings.Join(parts, " ")`. -/
def Join (parts : List (List Char)) : List Char := List.intercalate [' '] parts

/-! ## Package `strconv` and package `time` -/

/-- Value of an unsigned plain decimal numeral (digits, optional period and
digits, at least one digit in all); `none` when the text is not one. -/
def parseUnsigned (body : List Char) : Option ℚ :=
  let intPart := body.takeWhile Char.isDigit
  match body.dropWhile Char.isDigit with
  | [] => if intPart = [] then none else some (digitsValue intPart)
  | '.' :: f =>
    if f.all Char.isDigit ∧ ¬ (intPart = [] ∧ f = []) then
      some ((digitsValue intPart : ℚ) + (digitsValue f : ℚ) / 10 ^ f.length)
    else none
  | _ => none

/-- Function `strconv.ParseFloat(s, 64)` with the error discarded, as both
callers do: the value of a plain decimal numeral with an optional sign, and
`0` for a malformed one. Only the plain decimal form is modelled: the callers
pass strings made of a minus sign, digits, periods and white space, so the
exponent, hexadecimal, infinity and NaN forms do not arise; the value is exact
(no rounding to `float64`). The function with its rounding, its infinities and
the sign of zero is `IEEE.ParseFloat`. -/
def ParseFloat (s : List Char) : ℚ :=
  match s with
  | '-' :: body => -(parseUnsigned body).getD 0
  | '+' :: body => (parseUnsigned body).getD 0
  | _ => (parseUnsigned s).getD 0

/-- Leap years of the Gregorian calendar. -/
def isLeap (year : Nat) : Bool := year % 4 = 0 && (year % 100 ≠ 0 || year % 400 = 0)

/-- Number of days of a month (`daysIn` of package `time`). -/
def daysIn (month year : Nat) : Nat :=
  if month = 2 then (if isLeap year then 29 else 28)
  else if month = 4 ∨ month = 6 ∨ month = 9 ∨ month = 11 then 30
  else 31

/-- Instant of `year`-`month`-`day` `hour`:`minute`:00 UTC, when the fields are
in range (`time.Date` after the range checks of `time.Parse`). -/
def dateTimeOf (year month day hour minute : Nat) : Option Int :=
  if 1 ≤ month ∧ month ≤ 12 ∧ 1 ≤ day ∧ day ≤ daysIn month year ∧ hour < 24 ∧ minute < 60 then
    some ((daysFromCivil year month day * 86400 + hour * 3600 + minute * 60) * nsPerSecond)
  else none

/-- Function `time.Parse("02.01.2006 15:04", value)` on a value of the form
`dd.dd.dddd dd:dd`, the only form its callers pass: `none` stands for an error. -/
def timeParse (value : List Char) : Option Int :=
  match value with
  | [d1, d2, '.', m1, m2, '.', y1, y2, y3, y4, ' ', h1, h2, ':', n1, n2] =>
    if [d1, d2, m1, m2, y1, y2, y3, y4, h1, h2, n1, n2].all Char.isDigit then
      dateTimeOf (digitsValue [y1, y2, y3, y4]) (digitsValue [m1, m2]) (digitsValue [d1, d2])
        (digitsValue [h1, h2]) (digitsValue [n1, n2])
    else none
  | _ => none

/-! ## Regular expressions of the parsers

Each pattern of package `regexp` is rendered by the function that computes
its leftmost match. -/

/-- Class `\s` of package `regexp`: tab, newline, form feed, carriage return,
space. -/
def reSpace (c : Char) : Bool :=
  c = '\t' || c = '\n' || c = '\x0c' || c = '\r' || c = ' '

/-- Pattern `\d{2}\.\d{2}\.\d{4}` at the start of `s`: the matched text and the
text after it. -/
def matchDate (s : List Char) : Option (List Char × List Char) :=
  match s with
  | d1 :: d2 :: '.' :: m1 :: m2 :: '.' :: y1 :: y2 :: y3 :: y4 :: rest =>
    if [d1, d2, m1, m2, y1, y2, y3, y4].all Char.isDigit then
      some ([d1, d2, '.', m1, m2, '.', y1, y2, y3, y4], rest)
    else none
  | _ => none

/-- Pattern `\d{2}:\d{2}` at the start of `s`: the matched text and the text
after it. -/
def matchClock (s : List Char) : Option (List Char × List Char) :=
  match s with
  | h1 :: h2 :: ':' :: n1 :: n2 :: rest =>
    if [h1, h2, n1, n2].all Char.isDigit then some ([h1, h2, ':', n1, n2], rest) else none
  | _ => none

/-- Pattern `^(\d{2}\.\d{2}\.\d{4})\s+(\d{2}:\d{2})` of the Mbank parser
(`dateTimePattern.FindStringSubmatch`): group 1, group 2 and the text after
the whole match. The run `\s+` is the maximal one, because a digit must
follow it. -/
def matchDateTime (line : List Char) : Option (List Char × List Char × List Char) :=
  match matchDate line with
  | none => none
  | some (dateStr, r1) =>
    if r1.takeWhile reSpace = [] then none
    else
      match matchClock (r1.dropWhile reSpace) with
      | none => none
      | some (timeStr, r2) => some (dateStr, timeStr, r2)

/-- Pattern `(-?\s*[\d\s]+,\d{2})$` of the Mbank parser
(`amountPattern.FindStringSubmatch`): the matched text, which is also group 1.
The match ends at the end of the text with a comma and two digits; leftmost,
it starts with the longest run of digits and white space before the comma,
and with the minus sign before that run when there is one. -/
def findAmount (text : List Char) : Option (List Char) :=
  match text.reverse with
  | d2 :: d1 :: ',' :: r =>
    if d1.isDigit && d2.isDigit then
      let run := r.takeWhile fun c => c.isDigit || reSpace c
      if run = [] then none
      else
        match r.dropWhile fun c => c.isDigit || reSpace c with
        | '-' :: _ => some ('-' :: (run.reverse ++ [',', d1, d2]))
        | _ => some (run.reverse ++ [',', d1, d2])
    else none
  | _ => none

/-- Pattern `^(\d{2}\.\d{2}\.\d{4})\s*$` of the Optima parser
(`datePattern.MatchString`). -/
def optimaDateMatch (line : List Char) : Bool :=
  match matchDate line with
  | none => false
  | some (_, rest) => rest.all reSpace

/-- Pattern `^(\d{2}:\d{2})$` of the Optima parser (`timePattern.MatchString`). -/
def optimaTimeMatch (line : List Char) : Bool :=
  match matchClock line with
  | none => false
  | some (_, rest) => rest = []

/-- Pattern `^(-?[\d\s]+(?:\.\d+)?)\s*$` of the Optima parser
(`amountPattern.MatchString`): an optional minus sign, a non-empty run of
digits and white space, then either the end or a period, digits and white
space up to the end. -/
def optimaAmountMatch (line : List Char) : Bool :=
  let body := if line.head? = some '-' then line.tail else line
  let run := body.takeWhile fun c => c.isDigit || reSpace c
  if run = [] then false
  else
    match body.dropWhile fun c => c.isDigit || reSpace c with
    | [] => true
    | '.' :: f =>
      f.takeWhile Char.isDigit ≠ [] && (f.dropWhile Char.isDigit).all reSpace
    | _ => false

/-! ## Mbank parser (`parser_mbank.go`) -/

/-- Method `MbankParser.BankName`. -/
def MbankParser.BankName : String := "Mbank"

/-- Method `MbankParser.CanParse`. -/
def MbankParser.CanParse (content : String) : Bool :=
  Contains content.data "mbank.kg".data || Contains content.data "Mbank".data ||
    Contains content.data "МБАНК".data

/-- Function `parseMbankAmount` of `parser_mbank.go`. -/
def parseMbankAmount (s : List Char) : ℚ :=
  let s := ReplaceAll s [' '] []
  let s := ReplaceAll s [','] ['.']
  let s := TrimSpace s
  let s := ReplaceAll s ['-', ' '] ['-']
  ParseFloat s

/-- The header and footer test at the top of the loop of `MbankParser.Parse`. -/
def mbankIsBoilerplate (line : List Char) : Bool :=
  line = [] ||
    startsWith line "Выписка по счету".data ||
    startsWith line "За период".data ||
    startsWith line "Дата формирования".data ||
    startsWith line "Клиент".data ||
    startsWith line "Баланс".data ||
    line = "Дата операции".data ||
    line = "Описание операции".data ||
    line = "Сумма операции".data ||
    startsWith line "Всего списаний".data ||
    startsWith line "Всего пополнений".data ||
    startsWith line "Для проверки".data ||
    startsWith line "Данная информация".data ||
    startsWith line "С0082".data ||
    startsWith line "Телефон".data ||
    startsWith line "Факс".data ||
    startsWith line "E-mail".data ||
    startsWith line "www.".data ||
    Contains line "РАСУЛОВ".data ||
    Contains line "KGS KGS".data

/-- The header and footer test of the look-ahead loop of `MbankParser.Parse`. -/
def mbankIsFooter (nextLine : List Char) : Bool :=
  startsWith nextLine "Всего".data ||
    startsWith nextLine "Для проверки".data ||
    startsWith nextLine "Данная информация".data

/-- The look-ahead loop of `MbankParser.Parse`, `for j := i + 1; j < len(lines); j++`:
the first argument is `lines[j:]`; the result is `fullText` and the cursor `i`
of the main loop after the loop. -/
def mbankLookAhead : List (List Char) → Nat → List Char → Nat → List Char × Nat
  | [], _, fullText, i => (fullText, i)
  | l :: rest, j, fullText, i =>
    let nextLine := TrimSpace l
    if nextLine = [] then mbankLookAhead rest (j + 1) fullText i
    else if (matchDateTime nextLine).isSome then (fullText, i)
    else if mbankIsFooter nextLine then (fullText, i)
    else mbankLookAhead rest (j + 1) (fullText ++ ' ' :: nextLine) j

/-- The body of the main loop of `MbankParser.Parse` at cursor `i`, where `line`
is the trimmed line `lines[i]`: the cursor at the end of the iteration and the
transactions appended by it. The result is `none` when a slice bound is
negative (a run-time panic). -/
def mbankBody (lines : List (List Char)) (i : Nat) (line : List Char) :
    Option (Nat × List Transaction) :=
  if mbankIsBoilerplate line then some (i, [])
  else
    match matchDateTime line with
    | none => some (i, [])
    | some (dateStr, timeStr, rest) =>
      let restOfLine := TrimSpace rest
      let ahead := mbankLookAhead (lines.drop (i + 1)) (i + 1) restOfLine i
      let fullText := ahead.1
      match findAmount fullText with
      | none => some (ahead.2, [])
      | some amountStr =>
        let amount := parseMbankAmount amountStr
        if amount = 0 then some (ahead.2, [])
        else
          match LastIndex fullText amountStr with
          | none => none
          | some amountIdx =>
            let description := TrimSpace (fullText.take amountIdx)
            match timeParse (dateStr ++ ' ' :: timeStr) with
            | none => some (ahead.2, [])
            | some dateTime =>
              some (ahead.2, [⟨dateTime, String.mk description, amount, "KGS",
                MbankParser.BankName, String.mk line⟩])

/-- The main loop of `MbankParser.Parse`, `for i := 0; i < len(lines); i++`, run
for at most `fuel` iterations from cursor `i` with the transactions `acc`
found so far. The result is `none` when the fuel runs out or the body
panics. -/
def mbankLoop (lines : List (List Char)) : Nat → Nat → List Transaction →
    Option (List Transaction)
  | 0, _, _ => none
  | fuel + 1, i, acc =>
    match lines[i]? with
    | none => some acc
    | some l =>
      match mbankBody lines i (TrimSpace l) with
      | none => none
      | some (i', found) => mbankLoop lines fuel (i' + 1) (acc ++ found)

/-- Method `MbankParser.Parse`: the transactions and the error (always `nil`,
rendered `none`). The outer `none` is a failure of the model: the fuel, one
iteration for each line and one more, ran out, or the body panicked. -/
def MbankParser.Parse (content : String) : Option (List Transaction × Option String) :=
  let lines := Split content.data
  (mbankLoop lines (lines.length + 1) 0 []).map fun transactions => (transactions, none)

/-! ## Optima parser (`parser_optima.go`) -/

/-- Method `OptimaParser.BankName`. -/
def OptimaParser.BankName : String := "Optima Bank"

/-- Method `OptimaParser.CanParse`. -/
def OptimaParser.CanParse (content : String) : Bool :=
  Contains content.data "Optima Bank".data || Contains content.data "OptimaBank".data ||
    Contains content.data "optimabank.kg".data

/-- Function `normalizeSpaces` of `parser_optima.go`. -/
def normalizeSpaces (s : List Char) : List Char :=
  let s := ReplaceAll s ['\u00a0'] [' ']
  let s := ReplaceAll s ['\u2007'] [' ']
  let s := ReplaceAll s ['\u202f'] [' ']
  s

/-- Function `parseOptimaAmount` of `parser_optima.go`. -/
def parseOptimaAmount (s : List Char) : ℚ :=
  let s := normalizeSpaces s
  let s := ReplaceAll s [' '] []
  let s := TrimSpace s
  ParseFloat s

/-- The page number and header test of the description loop of
`OptimaParser.Parse`. -/
def optimaIsBoilerplate (line : List Char) : Bool :=
  Contains line "/6".data ||
    line = "Date".data || line = "Details".data || line = "of".data ||
    line = "operations".data || line = "Operation".data || line = "amount".data ||
    line = "Fee".data || line = "0".data

/-- The loop `for j < len(lines) && strings.TrimSpace(lines[j]) == "" { j++ }`:
the first argument is `lines[j:]`, the result the final `j`. -/
def skipBlank : List (List Char) → Nat → Nat
  | [], j => j
  | l :: rest, j => if TrimSpace l = [] then skipBlank rest (j + 1) else j

/-- The loop of `OptimaParser.Parse` that looks for the KGS amount after a USD
amount: the second argument is `lines[i:]`; the result is the cursor after
the loop and the amount, when one was found. -/
def optimaFindKGS (lines : List (List Char)) : List (List Char) → Nat → Nat × Option ℚ
  | [], i => (i, none)
  | l0 :: rest, i =>
    let l := TrimSpace l0
    if l = [] then optimaFindKGS lines rest (i + 1)
    else if optimaAmountMatch l then
      let k := skipBlank rest (i + 1)
      match lines[k]? with
      | some lk =>
        if TrimSpace lk = "KGS".data then (k + 1, some (parseOptimaAmount l))
        else optimaFindKGS lines rest (i + 1)
      | none => optimaFindKGS lines rest (i + 1)
    else optimaFindKGS lines rest (i + 1)

/-- The description loop of `OptimaParser.Parse`: the second argument is
`lines[i:]`; the result is the cursor after the loop, the description lines and
the KGS amount (`none` when `foundAmount` is false). -/
def optimaDescLoop (lines : List (List Char)) :
    List (List Char) → Nat → List (List Char) → Nat × List (List Char) × Option ℚ
  | [], i, descLines => (i, descLines, none)
  | l0 :: rest, i, descLines =>
    let line := TrimSpace l0
    if line = [] then optimaDescLoop lines rest (i + 1) descLines
    else
      let j := skipBlank rest (i + 1)
      let nextLine := (lines[j]?).map TrimSpace
      if optimaAmountMatch line ∧ nextLine = some "USD".data then
        let found := optimaFindKGS lines (lines.drop (j + 1)) (j + 1)
        (found.1, descLines, found.2)
      else if optimaAmountMatch line ∧ nextLine = some "KGS".data then
        (j + 1, descLines, some (parseOptimaAmount line))
      else if optimaIsBoilerplate line then optimaDescLoop lines rest (i + 1) descLines
      else optimaDescLoop lines rest (i + 1) (descLines ++ [line])

/-- The loop of `OptimaParser.Parse` that skips the fee block: the first argument
is `lines[i:]`, the result the cursor after the loop. -/
def optimaSkipFee : List (List Char) → Nat → Nat
  | [], i => i
  | l :: rest, i =>
    if TrimSpace l = "0".data ∨ TrimSpace l = "KGS".data ∨ TrimSpace l = [] then
      optimaSkipFee rest (i + 1)
    else i

/-- The body of the main loop of `OptimaParser.Parse` at cursor `i`, where `line`
is the trimmed line `lines[i]`: the cursor at the end of the iteration and the
transactions appended by it; `none` stands for `break`. -/
def optimaBody (lines : List (List Char)) (i : Nat) (line : List Char) :
    Option (Nat × List Transaction) :=
  if ¬ optimaDateMatch line then some (i + 1, [])
  else
    let currentDate := TrimSpace line
    match lines[i + 1]? with
    | none => none
    | some l1 =>
      let timeLine := TrimSpace l1
      if ¬ optimaTimeMatch timeLine then some (i + 1, [])
      else
        let scan := optimaDescLoop lines (lines.drop (i + 2)) (i + 2) []
        match scan.2.2 with
        | none => some (scan.1, [])
        | some amountKGS =>
          let next := optimaSkipFee (lines.drop scan.1) scan.1
          match timeParse (currentDate ++ ' ' :: timeLine) with
          | none => some (next, [])
          | some dateTime =>
            let description := Join scan.2.1
            some (next, [⟨dateTime, String.mk description, amountKGS, "KGS",
              OptimaParser.BankName, String.mk description⟩])

/-- The main loop of `OptimaParser.Parse`, `for i < len(lines)`, run for at most
`fuel` iterations from cursor `i` with the transactions `acc` found so far;
`none` when the fuel runs out. -/
def optimaLoop (lines : List (List Char)) : Nat → Nat → List Transaction →
    Option (List Transaction)
  | 0, _, _ => none
  | fuel + 1, i, acc =>
    match lines[i]? with
    | none => some acc
    | some l =>
      match optimaBody lines i (TrimSpace l) with
      | none => some acc
      | some (i', found) => optimaLoop lines fuel i' (acc ++ found)

/-- Method `OptimaParser.Parse`: the transactions and the error (always `nil`,
rendered `none`). The outer `none` is the exhaustion of the fuel, one
iteration for each line and one more. -/
def OptimaParser.Parse (content : String) : Option (List Transaction × Option String) :=
  let lines := Split (normalizeSpaces content.data)
  (optimaLoop lines (lines.length + 1) 0 []).map fun transactions => (transactions, none)

/-! ## Specification-side definitions for the parsers -/

/-- The decimal value denoted by a sign, integer digits and fraction digits. -/
def decimalValue (neg : Bool) (intDigits fracDigits : List Char) : ℚ :=
  (if neg then -1 else 1) *
    ((digitsValue intDigits : ℚ) + (digitsValue fracDigits : ℚ) / 10 ^ fracDigits.length)

/-- Text of a sequence of digit groups: the first group, then every further
group after its separator character. -/
def groupsText (g : List Char) (gs : List (Char × List Char)) : List Char :=
  g ++ gs.flatMap fun p => p.1 :: p.2

/-- The digits of a sequence of digit groups, separators left out. -/
def groupsDigits (g : List Char) (gs : List (Char × List Char)) : List Char :=
  g ++ gs.flatMap fun p => p.2

/-- The character map of `normalizeSpaces` as the specification words it:
U+00A0, U+2007 and U+202F become an ordinary space. -/
def normChar (c : Char) : Char :=
  if c = '\u00a0' ∨ c = '\u2007' ∨ c = '\u202f' then ' ' else c

/-- The instant of `year`-`month`-`day` `hour`:`minute`:00 UTC, in nanoseconds
since the Unix epoch. -/
def dateTimeOfFields (year month day hour minute : Nat) : Int :=
  (daysFromCivil year month day * 86400 + hour * 3600 + minute * 60) * nsPerSecond

/-- Sign part of an amount token: nothing, a minus sign, or a minus sign and
one more character. -/
def signText (neg : Bool) (after : Option Char) : List Char :=
  if neg then '-' :: after.toList else []

/-! ## Specification-side description of a block of the Optima format -/

/-- A block of an Optima statement: the digits of its date line `DD.MM.YYYY` and
of its time line `HH:MM`, its description line, and the sign, digit groups and
fraction digits of its amount line. -/
structure OptimaBlock where
  /-- First digit of the day. -/
  d1 : Char
  /-- Second digit of the day. -/
  d2 : Char
  /-- First digit of the month. -/
  m1 : Char
  /-- Second digit of the month. -/
  m2 : Char
  /-- First digit of the year. -/
  y1 : Char
  /-- Second digit of the year. -/
  y2 : Char
  /-- Third digit of the year. -/
  y3 : Char
  /-- Fourth digit of the year. -/
  y4 : Char
  /-- First digit of the hour. -/
  h1 : Char
  /-- Second digit of the hour. -/
  h2 : Char
  /-- First digit of the minute. -/
  n1 : Char
  /-- Second digit of the minute. -/
  n2 : Char
  /-- The description line. -/
  desc : List Char
  /-- Whether the amount line starts with a minus sign. -/
  neg : Bool
  /-- The first digit group of the amount. -/
  g : List Char
  /-- The further digit groups of the amount, each with its separator. -/
  gs : List (Char × List Char)
  /-- Whether the amount has a period and a fraction. -/
  dot : Bool
  /-- The fraction digits of the amount. -/
  F : List Char

/-- The amount line of a block. -/
def OptimaBlock.amountText (b : OptimaBlock) : List Char :=
  signText b.neg none ++ groupsText b.g b.gs ++ (if b.dot then '.' :: b.F else [])

/-- The seven lines of a block: date, time, description, amount, `KGS` and the
fee block `0`, `KGS`. -/
def OptimaBlock.lines (b : OptimaBlock) : List (List Char) :=
  [[b.d1, b.d2, '.', b.m1, b.m2, '.', b.y1, b.y2, b.y3, b.y4], [b.h1, b.h2, ':', b.n1, b.n2],
    b.desc, b.amountText, "KGS".data, "0".data, "KGS".data]

/-- A block is well formed when its date and time are made of digits and denote
a valid calendar date and time of day, its description line is not blank, not
amount-shaped and not a boilerplate token, and its amount is made of non-empty
digit groups separated by single spaces with an optional non-empty fraction. -/
def OptimaBlock.WellFormed (b : OptimaBlock) : Prop :=
  [b.d1, b.d2, b.m1, b.m2, b.y1, b.y2, b.y3, b.y4, b.h1, b.h2, b.n1, b.n2].all Char.isDigit = true ∧
  (1 ≤ digitsValue [b.m1, b.m2] ∧ digitsValue [b.m1, b.m2] ≤ 12 ∧ 1 ≤ digitsValue [b.d1, b.d2] ∧
    digitsValue [b.d1, b.d2] ≤
      daysIn (digitsValue [b.m1, b.m2]) (digitsValue [b.y1, b.y2, b.y3, b.y4]) ∧
    digitsValue [b.h1, b.h2] < 24 ∧ digitsValue [b.n1, b.n2] < 60) ∧
  (TrimSpace b.desc ≠ [] ∧ optimaAmountMatch (TrimSpace b.desc) = false ∧
    optimaIsBoilerplate (TrimSpace b.desc) = false) ∧
  b.g ≠ [] ∧ (∀ c ∈ b.g, c.isDigit = true) ∧
  (∀ p ∈ b.gs, p.1 = ' ' ∧ p.2 ≠ [] ∧ ∀ c ∈ p.2, c.isDigit = true) ∧
  (∀ c ∈ b.F, c.isDigit = true) ∧ (b.dot = true → b.F ≠ []) ∧ (b.dot = false → b.F = [])

/-- The transaction a block denotes. -/
def OptimaBlock.transaction (b : OptimaBlock) : Transaction :=
  ⟨dateTimeOfFields (digitsValue [b.y1, b.y2, b.y3, b.y4]) (digitsValue [b.m1, b.m2])
      (digitsValue [b.d1, b.d2]) (digitsValue [b.h1, b.h2]) (digitsValue [b.n1, b.n2]),
    String.mk (TrimSpace b.desc), decimalValue b.neg (groupsDigits b.g b.gs) b.F, "KGS",
    "Optima Bank", String.mk (TrimSpace b.desc)⟩

/-- The two blocks of the test "multiple transactions". -/
def exBlocks : List OptimaBlock :=
  [⟨'1', '5', '0', '1', '2', '0', '2', '5', '1', '0', '3', '0', "First payment".data,
      true, ['1'], [(' ', ['0', '0', '0'])], true, ['0', '0']⟩,
    ⟨'1', '5', '0', '1', '2', '0', '2', '5', '1', '4', '4', '5', "Second payment".data,
      true, ['2'], [(' ', ['0', '0', '0'])], true, ['0', '0']⟩]

/-- A debit of 100 KGS at the base time, from Mbank. -/
def exDebit : Transaction := ⟨baseTime, "", -100, "KGS", "Mbank", ""⟩

/-- The debit `exDebit` half a minute later. -/
def exDebitLater : Transaction := ⟨baseTime + 30 * nsPerSecond, "", -100, "KGS", "Mbank", ""⟩

/-- A debit of 100 KGS half a minute after the base time, from Optima Bank. -/
def exOptimaLater : Transaction :=
  ⟨baseTime + 30 * nsPerSecond, "", -100, "KGS", "Optima Bank", ""⟩

/-! ## Arithmetic of `float64`

The definitions above take a `float64` to be the rational number it denotes.
This section and the next two model `float64` itself: its two zeros, its
infinities and NaN, the rounding of `strconv.ParseFloat` and of the subtraction,
the comparisons and the rendering by `%.2f`. They are used by the theorems whose
content is the number computed. -/

/-- A `float64` value: a finite value given by its sign bit and its magnitude (so
that `-0` is `finite true 0`), an infinity with its sign bit, or NaN. Every
`float64` is a value of this type, and the operations below return a `float64`
when their arguments are. -/
inductive F64 where
  | finite (neg : Bool) (mag : ℚ)
  | inf (neg : Bool)
  | nan
deriving DecidableEq

namespace F64

/-- The constant `0`. -/
def zero : F64 := finite false 0

/-- The rational denoted by a sign bit and a magnitude. -/
def signed (neg : Bool) (mag : ℚ) : ℚ := if neg then -mag else mag

/-- The number of halvings that bring `n` below 2, computed with `fuel`
steps: the exponent of the largest power of two not above `n`. -/
def log2Nat : Nat → Nat → Nat
  | 0, _ => 0
  | fuel + 1, n => if n < 2 then 0 else log2Nat fuel (n / 2) + 1

/-- The exponent of a positive rational: the integer `e` with
`2 ^ e ≤ q < 2 ^ (e + 1)`. -/
def log2Floor (q : ℚ) : Int :=
  let k : Int := (log2Nat q.num.natAbs q.num.natAbs : Int) - (log2Nat q.den q.den : Int)
  if (2 : ℚ) ^ k ≤ q then k else k - 1

/-- The magnitude of the `float64` nearest to the non-negative rational `q`, ties
to the even significand: 53 significant bits for `q ≥ 2 ^ -1022`, multiples of
`2 ^ -1074` below; `none` when the rounded value does not fit (it reaches
`2 ^ 1024`). -/
def roundMag (q : ℚ) : Option ℚ :=
  if q = 0 then some 0
  else
    let e := max (log2Floor q) (-1022)
    let ulp : ℚ := 2 ^ (e - 52)
    let r : ℚ := (roundHalfEven (q / ulp) : ℚ) * ulp
    if r < 2 ^ (1024 : Int) then some r else none

/-- The `float64` with sign bit `neg` nearest to the magnitude `q`; an infinity
when the magnitude is out of range. -/
def round (neg : Bool) (q : ℚ) : F64 :=
  match roundMag q with
  | some r => finite neg r
  | none => inf neg

/-- The `float64` nearest to a rational; a zero result of an exact zero is `+0`. -/
def ofRat (x : ℚ) : F64 := round (decide (x < 0)) |x|

/-- Function `math.Abs`: the sign bit is cleared. -/
def abs : F64 → F64
  | finite _ m => finite false m
  | inf _ => inf false
  | nan => nan

/-- The operator `-` of `float64` (round to nearest, ties to even). -/
def sub : F64 → F64 → F64
  | nan, _ => nan
  | _, nan => nan
  | inf s, inf t => if s = t then nan else inf s
  | inf s, finite _ _ => inf s
  | finite _ _, inf t => inf (!t)
  | finite s a, finite t b =>
    if a = 0 ∧ b = 0 then finite (s && !t) 0 else ofRat (signed s a - signed t b)

/-- The operator `<` of `float64`: false when an operand is NaN. -/
def lt : F64 → F64 → Bool
  | nan, _ => false
  | _, nan => false
  | inf s, inf t => s && !t
  | inf s, finite _ _ => s
  | finite _ _, inf t => !t
  | finite s a, finite t b => decide (signed s a < signed t b)

/-- The operator `<=` of `float64`: false when an operand is NaN. -/
def le : F64 → F64 → Bool
  | nan, _ => false
  | _, nan => false
  | inf s, inf t => s || !t
  | inf s, finite _ _ => s
  | finite _ _, inf t => !t
  | finite s a, finite t b => decide (signed s a ≤ signed t b)

/-- The operator `>` of `float64`. -/
def gt (a b : F64) : Bool := lt b a

/-- The operator `>=` of `float64`. -/
def ge (a b : F64) : Bool := le b a

/-- The operator `==` of `float64`: the two zeros are equal, NaN equals nothing. -/
def beq : F64 → F64 → Bool
  | finite s a, finite t b => decide (signed s a = signed t b)
  | inf s, inf t => decide (s = t)
  | _, _ => false

/-- Finite values, the two zeros included. -/
def isFinite : F64 → Bool
  | finite _ _ => true
  | _ => false

end F64

/-- Rendering `fmt.Sprintf("%.2f", x)` of a `float64`: the minus sign when the sign
bit is set, the magnitude rounded to two decimals (ties to even); `+Inf`, `-Inf`
and `NaN` for the values that are not finite. -/
def formatFloat2 : F64 → String
  | F64.finite neg mag =>
    String.mk ((if neg then ['-'] else [])
      ++ decDigits (hundredths mag / 100) ++ '.' :: padDigits 2 (hundredths mag % 100))
  | F64.inf neg => if neg then "-Inf" else "+Inf"
  | F64.nan => "NaN"

namespace IEEE

/-- Function `strconv.ParseFloat(s, 64)` with its error dropped, as both callers
do, on the texts they pass (a minus sign, digits, periods and white space, so
that the exponent, hexadecimal, underscore, infinity and NaN forms do not
arise): the `float64` nearest to the numeral, ties to the even significand, with
the sign bit of the numeral; an infinity when the numeral is out of range
(`ErrRange`); `0` when the text is not a numeral (`ErrSyntax`). -/
def ParseFloat (s : List Char) : F64 :=
  match s with
  | '-' :: body =>
    match parseUnsigned body with
    | some q => F64.round true q
    | none => F64.zero
  | '+' :: body =>
    match parseUnsigned body with
    | some q => F64.round false q
    | none => F64.zero
  | _ =>
    match parseUnsigned s with
    | some q => F64.round false q
    | none => F64.zero

/-- Function `parseMbankAmount` of `parser_mbank.go`, returning a `float64`. -/
def parseMbankAmount (s : List Char) : F64 :=
  let s := ReplaceAll s [' '] []
  let s := ReplaceAll s [','] ['.']
  let s := TrimSpace s
  let s := ReplaceAll s ['-', ' '] ['-']
  ParseFloat s

/-- Function `parseOptimaAmount` of `parser_optima.go`, returning a `float64`. -/
def parseOptimaAmount (s : List Char) : F64 :=
  let s := normalizeSpaces s
  let s := ReplaceAll s [' '] []
  let s := TrimSpace s
  ParseFloat s

end IEEE

/-! ## The finder over `float64` and `time.Time` with a Location

The data model and the two functions of `finder.go` once more, with amounts of
type `F64` and timestamps that carry the offset of their Location. -/

namespace IEEE

/-- A `time.Time` without monotonic clock reading (values built by `time.Parse`
or `time.Date` have none): the instant and the offset that the value's Location
has at that instant. -/
structure Time where
  /-- Nanoseconds since the Unix epoch. -/
  ns : Int
  /-- Seconds east of UTC. -/
  offset : Int
deriving DecidableEq

/-- The wall clock of a time in its own Location, in nanoseconds. -/
def Time.wall (t : Time) : Int := t.ns + t.offset * nsPerSecond

/-- Method `t.Format("2006-01-02 15:04")`: the wall clock of `t` in its own
Location, to the minute. -/
def Time.Format (t : Time) : String := formatMinute t.wall

/-- Method `t.Sub(u)`: the saturated difference of the two instants. -/
def Time.Sub (t u : Time) : Int := Dupay.Sub t.ns u.ns

/-- Transaction of `types.go`. -/
structure Transaction where
  DateTime : Time
  Description : String
  Amount : F64
  Currency : String
  Bank : String
  RawLine : String
deriving DecidableEq

/-- DuplicateMatch of `types.go`. -/
structure DuplicateMatch where
  Transaction1 : Transaction
  Transaction2 : Transaction
  /-- A `time.Duration`, in nanoseconds. -/
  TimeDiff : Int
  AmountDiff : F64
deriving DecidableEq

/-- Key of the pre-pass:
`fmt.Sprintf("%s|%s|%.2f", t.Bank, t.DateTime.Format("2006-01-02 15:04"), t.Amount)`. -/
def key (t : Transaction) : String :=
  t.Bank ++ "|" ++ t.DateTime.Format ++ "|" ++ formatFloat2 t.Amount

/-- One iteration of the loop of `deduplicateTransactions`; the state is the
set of seen keys and the result built so far. -/
def dedupStep (st : List String × List Transaction) (t : Transaction) :
    List String × List Transaction :=
  if key t ∈ st.1 then st else (key t :: st.1, st.2 ++ [t])

/-- Function `deduplicateTransactions` of `finder.go`. -/
def deduplicateTransactions (transactions : List Transaction) : List Transaction :=
  (transactions.foldl dedupStep ([], [])).2

/-- Body of the inner loop of `FindDuplicates` for the pair `t1`, `t2`:
returns the list of matches after the iteration. -/
def pairStep (maxTimeDiff : Int) (maxAmountDiff : F64) (acc : List DuplicateMatch)
    (t1 t2 : Transaction) : List DuplicateMatch :=
  if t1.Bank = t2.Bank then acc
  else if t1.Currency ≠ t2.Currency then acc
  else if F64.ge t1.Amount F64.zero || F64.ge t2.Amount F64.zero then acc
  else
    let timeDiff := t1.DateTime.Sub t2.DateTime
    let timeDiff := if timeDiff < 0 then wrap64 (-timeDiff) else timeDiff
    if timeDiff > maxTimeDiff then acc
    else
      let amountDiff := F64.abs (F64.sub (F64.abs t1.Amount) (F64.abs t2.Amount))
      if F64.gt amountDiff maxAmountDiff then acc
      else acc ++ [⟨t1, t2, timeDiff, amountDiff⟩]

/-- Inner loop of `FindDuplicates`: `j` runs from `i + 1` to the end. -/
def innerLoop (maxTimeDiff : Int) (maxAmountDiff : F64) (transactions : List Transaction)
    (i : Nat) (acc : List DuplicateMatch) : List DuplicateMatch :=
  (List.range' (i + 1) (transactions.length - (i + 1))).foldl
    (fun acc j =>
      match transactions[i]?, transactions[j]? with
      | some t1, some t2 => pairStep maxTimeDiff maxAmountDiff acc t1 t2
      | _, _ => acc)
    acc

/-- Function `FindDuplicates` of `finder.go`. -/
def FindDuplicates (transactions : List Transaction) (maxTimeDiff : Int)
    (maxAmountDiff : F64) : List DuplicateMatch :=
  let transactions := deduplicateTransactions transactions
  (List.range transactions.length).foldl
    (fun acc i => innerLoop maxTimeDiff maxAmountDiff transactions i acc) []

end IEEE

/-! ## Specification-side definitions over `float64` -/

/-- The magnitude of a finite `float64` (0 for the others). -/
def F64.mag : F64 → ℚ
  | F64.finite _ m => m
  | _ => 0

/-- A `float64` rounded to two decimals (ties to even) with its sign bit kept,
as `%.2f` shows it: `-0.001` gives `-0.00`, which is not `0.00`. -/
def F64.round2 : F64 → F64
  | F64.finite s m => F64.finite s ((hundredths m : ℚ) / 100)
  | x => x

/-- The difference of the magnitudes of two finite amounts as a `float64`: the
`float64` nearest to the absolute difference. -/
def magnitudeDiff (a b : F64) : F64 := F64.round false |a.mag - b.mag|

/-- The number a `float64` denotes, the two zeros being one number. -/
def F64.number : F64 → F64
  | F64.finite s m => if m = 0 then F64.finite false 0 else F64.finite s m
  | x => x

/-- The magnitudes of the finite values of `float64`: a significand below
`2 ^ 53` times a power of two not below `2 ^ -1074`, the product below
`2 ^ 1024`. -/
def IsF64Mag (y : ℚ) : Prop :=
  ∃ (m : Nat) (j : Int), m < 2 ^ 53 ∧ -1074 ≤ j ∧ y = (m : ℚ) * (2 : ℚ) ^ j ∧
    y < (2 : ℚ) ^ (1024 : Int)

/-- The value `x` is the `float64` with sign bit `neg` nearest to the magnitude
`v`: a finite value at least as close to `v` as every other finite magnitude, or
the infinity when `v` lies at or above the midpoint between the largest finite
magnitude and `2 ^ 1024`. -/
def IsNearestF64 (neg : Bool) (v : ℚ) (x : F64) : Prop :=
  (∃ r, x = F64.finite neg r ∧ IsF64Mag r ∧ ∀ y, IsF64Mag y → |r - v| ≤ |y - v|) ∨
    (x = F64.inf neg ∧ (2 : ℚ) ^ (1024 : Int) - (2 : ℚ) ^ (970 : Int) ≤ v)

namespace IEEE

/-- Key of the pre-pass as a tuple: bank, wall clock truncated to the minute,
amount rounded to two decimals with its sign bit. -/
def signedKey (t : Transaction) : String × Int × F64 :=
  (t.Bank, truncateMinute t.DateTime.wall, F64.round2 t.Amount)

/-- Key of the pre-pass as a tuple of values: bank, wall clock truncated to the
minute, and the number that the amount rounded to two decimals denotes. -/
def specKey (t : Transaction) : String × Int × F64 :=
  (t.Bank, truncateMinute t.DateTime.wall, (F64.round2 t.Amount).number)

/-- The elements of `ts` whose key under `K` occurs at no earlier position, in
input order. -/
def firstOccurrences {κ : Type} [DecidableEq κ] (K : Transaction → κ)
    (ts : List Transaction) : List Transaction :=
  (List.range ts.length).filterMap fun i =>
    match ts[i]? with
    | some t => if ∀ u ∈ ts.take i, K u ≠ K t then some t else none
    | none => none

/-- The five conditions of the duplicate finder on finite amounts: different
banks, same currency, two debits, instants within `maxTimeDiff`, and the
`float64` difference of the magnitudes within `maxAmountDiff`. -/
def isDuplicatePair (maxTimeDiff : Int) (maxAmountDiff : F64) (t1 t2 : Transaction) : Prop :=
  t1.Bank ≠ t2.Bank ∧ t1.Currency = t2.Currency ∧
    (F64.lt t1.Amount F64.zero = true ∧ F64.lt t2.Amount F64.zero = true) ∧
    |t1.DateTime.ns - t2.DateTime.ns| ≤ maxTimeDiff ∧
    F64.le (magnitudeDiff t1.Amount t2.Amount) maxAmountDiff = true

instance (maxTimeDiff : Int) (maxAmountDiff : F64) (t1 t2 : Transaction) :
    Decidable (isDuplicatePair maxTimeDiff maxAmountDiff t1 t2) := by
  unfold isDuplicatePair
  infer_instance

/-- The matches asked for: one `DuplicateMatch` for each index pair `i < j` of `d`
that satisfies the five conditions, in increasing `(i, j)` order, with the
absolute time delta and the `float64` difference of the magnitudes. -/
def specMatches (d : List Transaction) (maxTimeDiff : Int) (maxAmountDiff : F64) :
    List DuplicateMatch :=
  (orderedPairs d.length).filterMap fun p =>
    match d[p.1]?, d[p.2]? with
    | some t1, some t2 =>
      if isDuplicatePair maxTimeDiff maxAmountDiff t1 t2 then
        some ⟨t1, t2, |t1.DateTime.ns - t2.DateTime.ns|, magnitudeDiff t1.Amount t2.Amount⟩
      else none
    | _, _ => none

/-- The `timeDiff` of `FindDuplicates` for a pair. -/
def timeDiffOf (t1 t2 : Transaction) : Int :=
  if t1.DateTime.Sub t2.DateTime < 0 then wrap64 (-t1.DateTime.Sub t2.DateTime)
  else t1.DateTime.Sub t2.DateTime

/-- Matches contributed by the index pair `(i, j)` of the list `d`. -/
def cell (mt : Int) (ma : F64) (d : List Transaction) (i j : Nat) : List DuplicateMatch :=
  match d[i]?, d[j]? with
  | some t1, some t2 => pairStep mt ma [] t1 t2
  | _, _ => []

/-- A UTC time. -/
def utc (ns : Int) : Time := ⟨ns, 0⟩

/-- The four debits of the test "multiple potential duplicates". -/
def exMultiple : List Transaction :=
  [⟨utc baseTime, "", F64.finite true 100, "KGS", "BankA", ""⟩,
   ⟨utc baseTime, "", F64.finite true 100, "KGS", "BankB", ""⟩,
   ⟨utc (baseTime + 3600 * nsPerSecond), "", F64.finite true 200, "KGS", "BankA", ""⟩,
   ⟨utc (baseTime + 3600 * nsPerSecond), "", F64.finite true 200, "KGS", "BankB", ""⟩]

/-- A record of the given bank and amount at the base time, in KGS. -/
def debit (bank : String) (amount : F64) : Transaction :=
  ⟨utc baseTime, "", amount, "KGS", bank, ""⟩

/-- A debit of 100 KGS at the base time, bank Optima Bank. -/
def exNew : Transaction := debit "Optima Bank" (F64.finite true 100)

/-- A debit of 100.50 KGS thirty seconds after the base time, bank Mbank. -/
def exHalf : Transaction :=
  ⟨utc (baseTime + 30 * nsPerSecond), "", F64.finite true (201 / 2), "KGS", "Mbank", ""⟩

/-- A debit of 105 KGS at the base time, bank Mbank. -/
def exFive : Transaction := debit "Mbank" (F64.finite true 105)

/-- A debit of 100 KGS dated 1700-01-01 10:00 UTC, bank Mbank. -/
def exOld : Transaction :=
  ⟨utc (-8520300000 * nsPerSecond), "", F64.finite true 100, "KGS", "Mbank", ""⟩

/-- A numeral of 310 digits, beyond the range of `float64`. -/
def hugeNumeral : List Char := '-' :: '1' :: List.replicate 309 '0'

end IEEE

/-! ## Lemmas -/

theorem digitChar_toNat (d : Nat) (h : d < 10) : (digitChar d).toNat - 48 = d := by
  interval_cases d <;> rfl

theorem isDigitChar_ne_of_not_digit {c x : Char} (hc : IsDigitChar c)
    (hx : x.toNat < 48 ∨ 57 < x.toNat) : c ≠ x := by
  obtain ⟨d, hd, rfl⟩ := hc
  intro h
  subst h
  revert hx
  interval_cases d <;> decide

theorem digitsValue_concat (l : List Char) (c : Char) :
    digitsValue (l ++ [c]) = 10 * digitsValue l + (c.toNat - 48) := by
  unfold digitsValue
  rw [List.foldl_append, List.foldl_cons, List.foldl_nil]

theorem digitsValue_decDigitsAux (fuel n : Nat) (h : n < fuel) :
    digitsValue (decDigitsAux fuel n) = n := by
  induction fuel generalizing n with
  | zero => omega
  | succ f ih =>
    unfold decDigitsAux
    split_ifs with h10
    · have := digitsValue_concat [] (digitChar n)
      simp only [List.nil_append] at this
      rw [this, digitChar_toNat n h10]
      simp [digitsValue]
    · rw [digitsValue_concat, ih (n / 10) (by omega), digitChar_toNat _ (Nat.mod_lt _ (by omega))]
      omega

theorem digitsValue_decDigits (n : Nat) : digitsValue (decDigits n) = n :=
  digitsValue_decDigitsAux (n + 1) n (Nat.lt_succ_self n)

theorem digitsValue_replicate_zero (k : Nat) (l : List Char) :
    digitsValue (List.replicate k '0' ++ l) = digitsValue l := by
  induction k with
  | zero => rfl
  | succ k ih =>
    rw [List.replicate_succ, List.cons_append]
    unfold digitsValue at ih ⊢
    rw [List.foldl_cons]
    exact ih

theorem digitsValue_padDigits (w n : Nat) : digitsValue (padDigits w n) = n := by
  unfold padDigits
  rw [digitsValue_replicate_zero, digitsValue_decDigits]

theorem padDigits_injective (w : Nat) {a b : Nat} (h : padDigits w a = padDigits w b) :
    a = b := by
  have := congrArg digitsValue h
  rwa [digitsValue_padDigits, digitsValue_padDigits] at this

theorem decDigits_injective {a b : Nat} (h : decDigits a = decDigits b) : a = b := by
  have := congrArg digitsValue h
  rwa [digitsValue_decDigits, digitsValue_decDigits] at this

theorem isDigitChar_decDigitsAux (fuel n : Nat) :
    ∀ c ∈ decDigitsAux fuel n, IsDigitChar c := by
  induction fuel generalizing n with
  | zero => intro c hc; simp [decDigitsAux] at hc
  | succ f ih =>
    intro c hc
    unfold decDigitsAux at hc
    split_ifs at hc with h10
    · rw [List.mem_singleton] at hc
      exact ⟨n, h10, hc⟩
    · rw [List.mem_append, List.mem_singleton] at hc
      rcases hc with hc | hc
      · exact ih _ c hc
      · exact ⟨n % 10, Nat.mod_lt _ (by omega), hc⟩

theorem isDigitChar_decDigits (n : Nat) : ∀ c ∈ decDigits n, IsDigitChar c :=
  isDigitChar_decDigitsAux _ _

theorem isDigitChar_padDigits (w n : Nat) : ∀ c ∈ padDigits w n, IsDigitChar c := by
  intro c hc
  unfold padDigits at hc
  rw [List.mem_append] at hc
  rcases hc with hc | hc
  · rw [List.mem_replicate] at hc
    exact ⟨0, by omega, hc.2⟩
  · exact isDigitChar_decDigits n c hc

theorem decDigits_ne_nil (n : Nat) : decDigits n ≠ [] := by
  unfold decDigits decDigitsAux
  split_ifs <;> simp

theorem length_decDigits_lt_ten (n : Nat) (h : n < 10) : (decDigits n).length = 1 := by
  unfold decDigits decDigitsAux
  rw [if_pos h]
  rfl

theorem length_decDigits_lt_hundred (n : Nat) (h1 : 10 ≤ n) (h : n < 100) :
    (decDigits n).length = 2 := by
  unfold decDigits decDigitsAux
  rw [if_neg (by omega)]
  obtain ⟨m, rfl⟩ : ∃ m, n = m + 1 := ⟨n - 1, by omega⟩
  unfold decDigitsAux
  rw [if_pos (by omega)]
  rfl

theorem length_padDigits_two (n : Nat) (h : n < 100) : (padDigits 2 n).length = 2 := by
  unfold padDigits
  rw [List.length_append, List.length_replicate]
  by_cases h10 : n < 10
  · rw [length_decDigits_lt_ten n h10]
  · rw [length_decDigits_lt_hundred n (by omega) h]

theorem doy_bounds (doe yoe : Int) (h0 : 0 ≤ doe) (h1 : doe ≤ 146096)
    (hy : yoe = (doe - doe / 1460 + doe / 36524 - doe / 146096) / 365) :
    0 ≤ doe - (365 * yoe + yoe / 4 - yoe / 100) ∧
    doe - (365 * yoe + yoe / 4 - yoe / 100) ≤ 365 := by
  have hc : doe / 36524 = 0 ∨ doe / 36524 = 1 ∨ doe / 36524 = 2 ∨ doe / 36524 = 3 ∨
      doe / 36524 = 4 := by omega
  have hg : yoe / 100 = 0 ∨ yoe / 100 = 1 ∨ yoe / 100 = 2 ∨ yoe / 100 = 3 := by omega
  rcases hc with hc | hc | hc | hc | hc <;> rcases hg with hg | hg | hg | hg <;> omega

theorem daysFromCivil_of_parts (era yoe doy mp : Int) (hy0 : 0 ≤ yoe) (hy1 : yoe ≤ 399)
    (hm0 : 0 ≤ mp) (hm1 : mp ≤ 11) :
    daysFromCivil
      (if (if mp < 10 then mp + 3 else mp - 9) ≤ 2 then yoe + era * 400 + 1 else yoe + era * 400)
      (if mp < 10 then mp + 3 else mp - 9) (doy - (153 * mp + 2) / 5 + 1)
      = era * 146097 + (yoe * 365 + yoe / 4 - yoe / 100 + doy) - 719468 := by
  have e1 : (yoe + era * 400) / 400 = era := by omega
  have e2 : (yoe + era * 400) % 400 = yoe := by omega
  unfold daysFromCivil
  by_cases h : mp < 10
  · have h2 : ¬ (mp + 3 ≤ 2) := by omega
    have h3 : mp + 3 > 2 := by omega
    simp only [h, h2, h3, if_true, if_false, e1, e2]
    have e3 : mp + 3 - 3 = mp := by omega
    rw [e3]
    omega
  · have h2 : mp - 9 ≤ 2 := by omega
    have h3 : ¬ (mp - 9 > 2) := by omega
    simp only [h, h2, h3, if_true, if_false]
    have e3 : mp - 9 + 9 = mp := by omega
    have e4 : yoe + era * 400 + 1 - 1 = yoe + era * 400 := by omega
    rw [e3, e4, e1, e2]
    omega

theorem civil_parts (era doe yoe doy mp : Int) (h0 : 0 ≤ doe) (h1 : doe ≤ 146096)
    (hy : yoe = (doe - doe / 1460 + doe / 36524 - doe / 146096) / 365)
    (hd : doy = doe - (365 * yoe + yoe / 4 - yoe / 100))
    (hm : mp = (5 * doy + 2) / 153) :
    daysFromCivil
      (if (if mp < 10 then mp + 3 else mp - 9) ≤ 2 then yoe + era * 400 + 1 else yoe + era * 400)
      (if mp < 10 then mp + 3 else mp - 9) (doy - (153 * mp + 2) / 5 + 1)
      = era * 146097 + doe - 719468 := by
  have hyb : 0 ≤ yoe ∧ yoe ≤ 399 := by omega
  have hdb := doy_bounds doe yoe h0 h1 hy
  rw [← hd] at hdb
  have hmb : 0 ≤ mp ∧ mp ≤ 11 := by omega
  rw [daysFromCivil_of_parts era yoe doy mp hyb.1 hyb.2 hmb.1 hmb.2]
  clear hy hm hdb hmb
  omega

theorem daysFromCivil_civilFromDays (z : Int) :
    daysFromCivil (civilFromDays z).1 (civilFromDays z).2.1 (civilFromDays z).2.2 = z := by
  have h := civil_parts ((z + 719468) / 146097) ((z + 719468) % 146097) _ _ _
    (Int.emod_nonneg _ (by norm_num)) (by omega) rfl rfl rfl
  unfold civilFromDays
  simp only []
  rw [h]
  omega

theorem civilFromDays_injective {z1 z2 : Int} (h : civilFromDays z1 = civilFromDays z2) :
    z1 = z2 := by
  rw [← daysFromCivil_civilFromDays z1, ← daysFromCivil_civilFromDays z2, h]

theorem civilFromDays_bounds (z : Int) :
    1 ≤ (civilFromDays z).2.1 ∧ (civilFromDays z).2.1 ≤ 12 ∧
    1 ≤ (civilFromDays z).2.2 ∧ (civilFromDays z).2.2 ≤ 31 := by
  have h0 : 0 ≤ (z + 719468) % 146097 := Int.emod_nonneg _ (by norm_num)
  have h1 : (z + 719468) % 146097 ≤ 146096 := by omega
  have hdb := doy_bounds ((z + 719468) % 146097) _ h0 h1 rfl
  unfold civilFromDays
  simp only []
  generalize ((z + 719468) % 146097 - (365 * (((z + 719468) % 146097 - (z + 719468) % 146097 / 1460 + (z + 719468) % 146097 / 36524 - (z + 719468) % 146097 / 146096) / 365) + ((z + 719468) % 146097 - (z + 719468) % 146097 / 1460 + (z + 719468) % 146097 / 36524 - (z + 719468) % 146097 / 146096) / 365 / 4 - ((z + 719468) % 146097 - (z + 719468) % 146097 / 1460 + (z + 719468) % 146097 / 36524 - (z + 719468) % 146097 / 146096) / 365 / 100)) = doy at hdb ⊢
  split_ifs <;> omega

theorem padDigits_ne_nil (w n : Nat) : padDigits w n ≠ [] := by
  unfold padDigits
  intro h
  exact decDigits_ne_nil n (List.append_eq_nil.1 h).2

theorem minus_cons_ne_padDigits (w n : Nat) (l : List Char) : '-' :: l ≠ padDigits w n := by
  intro h
  have hm : '-' ∈ padDigits w n := by rw [← h]; exact List.mem_cons_self _ _
  exact isDigitChar_ne_of_not_digit (isDigitChar_padDigits w n _ hm) (by decide) rfl

theorem appendInt_injective (w : Nat) {x y : Int} (h : appendInt x w = appendInt y w) :
    x = y := by
  unfold appendInt at h
  split_ifs at h with hx hy hy
  · have := padDigits_injective w (List.cons_injective h)
    omega
  · exact absurd h (minus_cons_ne_padDigits _ _ _)
  · exact absurd h.symm (minus_cons_ne_padDigits _ _ _)
  · have := padDigits_injective w h
    omega

/-- Time of day and day number of a UTC instant, as used by `formatMinute`. -/
theorem clock_bounds (secs : Int) :
    0 ≤ secs % 86400 / 3600 ∧ secs % 86400 / 3600 ≤ 23 ∧
    0 ≤ secs % 86400 % 3600 / 60 ∧ secs % 86400 % 3600 / 60 ≤ 59 := by
  omega

theorem render_injective {Y1 M1 D1 H1 I1 Y2 M2 D2 H2 I2 : List Char}
    (hM1 : M1.length = 2) (hM2 : M2.length = 2) (hD1 : D1.length = 2) (hD2 : D2.length = 2)
    (hH1 : H1.length = 2) (hH2 : H2.length = 2) (hI1 : I1.length = 2) (hI2 : I2.length = 2)
    (h : Y1 ++ '-' :: M1 ++ '-' :: D1 ++ ' ' :: H1 ++ ':' :: I1 =
      Y2 ++ '-' :: M2 ++ '-' :: D2 ++ ' ' :: H2 ++ ':' :: I2) :
    Y1 = Y2 ∧ M1 = M2 ∧ D1 = D2 ∧ H1 = H2 ∧ I1 = I2 := by
  simp only [List.append_assoc, List.cons_append] at h
  obtain ⟨hY, h⟩ := List.append_inj' h (by simp [hM1, hM2, hD1, hD2, hH1, hH2, hI1, hI2])
  obtain ⟨hM, h⟩ := List.append_inj (List.cons_injective h) (by rw [hM1, hM2])
  obtain ⟨hD, h⟩ := List.append_inj (List.cons_injective h) (by rw [hD1, hD2])
  obtain ⟨hH, h⟩ := List.append_inj (List.cons_injective h) (by rw [hH1, hH2])
  exact ⟨hY, hM, hD, hH, List.cons_injective h⟩

theorem formatMinute_inj {s t : Int} (h : formatMinute s = formatMinute t) :
    s / nsPerMinute = t / nsPerMinute := by
  unfold formatMinute at h
  have h := congrArg String.data h
  simp only [] at h
  have bs := civilFromDays_bounds (s / nsPerSecond / 86400)
  have bt := civilFromDays_bounds (t / nsPerSecond / 86400)
  have cs := clock_bounds (s / nsPerSecond)
  have ct := clock_bounds (t / nsPerSecond)
  have l1 := length_padDigits_two (civilFromDays (s / nsPerSecond / 86400)).2.1.toNat (by omega)
  have l2 := length_padDigits_two (civilFromDays (t / nsPerSecond / 86400)).2.1.toNat (by omega)
  have l3 := length_padDigits_two (civilFromDays (s / nsPerSecond / 86400)).2.2.toNat (by omega)
  have l4 := length_padDigits_two (civilFromDays (t / nsPerSecond / 86400)).2.2.toNat (by omega)
  have l5 := length_padDigits_two (s / nsPerSecond % 86400 / 3600).toNat (by omega)
  have l6 := length_padDigits_two (t / nsPerSecond % 86400 / 3600).toNat (by omega)
  have l7 := length_padDigits_two (s / nsPerSecond % 86400 % 3600 / 60).toNat (by omega)
  have l8 := length_padDigits_two (t / nsPerSecond % 86400 % 3600 / 60).toNat (by omega)
  obtain ⟨hY, hM, hD, hH, hI⟩ := render_injective l1 l2 l3 l4 l5 l6 l7 l8 h
  have hY := appendInt_injective 4 hY
  have hM := padDigits_injective 2 hM
  have hD := padDigits_injective 2 hD
  have hH := padDigits_injective 2 hH
  have hI := padDigits_injective 2 hI
  have hdays : s / nsPerSecond / 86400 = t / nsPerSecond / 86400 := by
    apply civilFromDays_injective
    apply Prod.ext hY
    apply Prod.ext <;> omega
  unfold nsPerMinute
  unfold nsPerSecond at *
  omega

theorem formatMinute_congr {s t : Int} (h : s / nsPerMinute = t / nsPerMinute) :
    formatMinute s = formatMinute t := by
  unfold nsPerMinute nsPerSecond at h
  have h1 : s / nsPerSecond / 86400 = t / nsPerSecond / 86400 := by
    unfold nsPerSecond; omega
  have h2 : s / nsPerSecond % 86400 / 3600 = t / nsPerSecond % 86400 / 3600 := by
    unfold nsPerSecond; omega
  have h3 : s / nsPerSecond % 86400 % 3600 / 60 = t / nsPerSecond % 86400 % 3600 / 60 := by
    unfold nsPerSecond; omega
  unfold formatMinute
  simp only [h1, h2, h3]

theorem formatMinute_eq_iff (s t : Int) :
    formatMinute s = formatMinute t ↔ s / nsPerMinute = t / nsPerMinute :=
  ⟨formatMinute_inj, formatMinute_congr⟩

theorem minus_cons_ne_decDigits (n : Nat) (l : List Char) : '-' :: l ≠ decDigits n := by
  intro h
  have hm : '-' ∈ decDigits n := by rw [← h]; exact List.mem_cons_self _ _
  exact isDigitChar_ne_of_not_digit (isDigitChar_decDigits n _ hm) (by decide) rfl

theorem formatFixed2_eq_iff (x y : ℚ) :
    formatFixed2 x = formatFixed2 y ↔ ((x < 0 ↔ y < 0) ∧ hundredths x = hundredths y) := by
  constructor
  · intro h
    unfold formatFixed2 at h
    have h := congrArg String.data h
    simp only [] at h
    have lx := length_padDigits_two (hundredths x % 100) (Nat.mod_lt _ (by norm_num))
    have ly := length_padDigits_two (hundredths y % 100) (Nat.mod_lt _ (by norm_num))
    obtain ⟨h1, h2⟩ := List.append_inj' h (by simp [lx, ly])
    have hF := padDigits_injective 2 (List.cons_injective h2)
    by_cases hx : x < 0 <;> by_cases hy : y < 0
    · simp only [hx, hy, if_true, List.singleton_append] at h1
      have := decDigits_injective (List.cons_injective h1)
      exact ⟨by simp [hx, hy], by omega⟩
    · simp only [hx, hy, if_true, if_false, List.singleton_append, List.nil_append] at h1
      exact absurd h1 (minus_cons_ne_decDigits _ _)
    · simp only [hx, hy, if_true, if_false, List.singleton_append, List.nil_append] at h1
      exact absurd h1.symm (minus_cons_ne_decDigits _ _)
    · simp only [hx, hy, if_false, List.nil_append] at h1
      have := decDigits_injective h1
      exact ⟨by simp [hx, hy], by omega⟩
  · rintro ⟨hs, hh⟩
    unfold formatFixed2
    rw [hh]
    by_cases hx : x < 0
    · rw [if_pos hx, if_pos (hs.1 hx)]
    · rw [if_neg hx, if_neg (fun hy => hx (hs.2 hy))]

theorem split_at_last {c : Char} :
    ∀ {x1 x2 y1 y2 : List Char}, c ∉ y1 → c ∉ y2 → x1 ++ c :: y1 = x2 ++ c :: y2 →
      x1 = x2 ∧ y1 = y2
  | [], [], _, _, _, _, h => ⟨rfl, List.cons_injective h⟩
  | [], b :: x2, y1, y2, h1, _, h => by
    simp only [List.nil_append, List.cons_append, List.cons.injEq] at h
    exact absurd (h.2 ▸ List.mem_append_right x2 (List.mem_cons_self c y2)) h1
  | a :: x1, [], y1, y2, _, h2, h => by
    simp only [List.nil_append, List.cons_append, List.cons.injEq] at h
    exact absurd (h.2 ▸ List.mem_append_right x1 (List.mem_cons_self c y1)) h2
  | a :: x1, b :: x2, y1, y2, h1, h2, h => by
    simp only [List.cons_append, List.cons.injEq] at h
    obtain ⟨e1, e2⟩ := split_at_last h1 h2 h.2
    exact ⟨by rw [h.1, e1], e2⟩

theorem bar_not_mem_formatFixed2 (x : ℚ) : '|' ∉ (formatFixed2 x).data := by
  unfold formatFixed2
  simp only [List.mem_append, List.mem_cons, not_or]
  refine ⟨⟨?_, ?_⟩, by decide, ?_⟩
  · split_ifs <;> simp
  · intro h
    exact isDigitChar_ne_of_not_digit (isDigitChar_decDigits _ _ h) (by decide) rfl
  · intro h
    exact isDigitChar_ne_of_not_digit (isDigitChar_padDigits _ _ _ h) (by decide) rfl

theorem bar_not_mem_appendInt (x : Int) (w : Nat) : '|' ∉ appendInt x w := by
  unfold appendInt
  split_ifs
  · simp only [List.mem_cons, not_or]
    refine ⟨by decide, ?_⟩
    intro h
    exact isDigitChar_ne_of_not_digit (isDigitChar_padDigits _ _ _ h) (by decide) rfl
  · intro h
    exact isDigitChar_ne_of_not_digit (isDigitChar_padDigits _ _ _ h) (by decide) rfl

theorem bar_not_mem_padDigits (w n : Nat) : '|' ∉ padDigits w n := by
  intro h
  exact isDigitChar_ne_of_not_digit (isDigitChar_padDigits _ _ _ h) (by decide) rfl

theorem bar_not_mem_formatMinute (t : Int) : '|' ∉ (formatMinute t).data := by
  unfold formatMinute
  simp only [List.mem_append, List.mem_cons, not_or]
  exact ⟨⟨⟨⟨bar_not_mem_appendInt _ _, by decide, bar_not_mem_padDigits _ _⟩, by decide,
    bar_not_mem_padDigits _ _⟩, by decide, bar_not_mem_padDigits _ _⟩, by decide,
    bar_not_mem_padDigits _ _⟩

theorem key_eq_iff (a b : Transaction) :
    key a = key b ↔ (a.Bank = b.Bank ∧ formatMinute a.DateTime = formatMinute b.DateTime ∧
      formatFixed2 a.Amount = formatFixed2 b.Amount) := by
  constructor
  · intro h
    unfold key at h
    have h := congrArg String.data h
    simp only [String.data_append] at h
    simp only [List.append_assoc, List.singleton_append] at h
    rw [← List.append_assoc, ← List.append_assoc (b.Bank.data)] at h
    obtain ⟨h1, h2⟩ := split_at_last (bar_not_mem_formatFixed2 _) (bar_not_mem_formatFixed2 _) h
    obtain ⟨h3, h4⟩ := split_at_last (bar_not_mem_formatMinute _) (bar_not_mem_formatMinute _) h1
    exact ⟨String.ext h3, String.ext h4, String.ext h2⟩
  · rintro ⟨h1, h2, h3⟩
    unfold key
    rw [h1, h2, h3]

theorem truncateMinute_eq_iff (s t : Int) :
    truncateMinute s = truncateMinute t ↔ s / nsPerMinute = t / nsPerMinute := by
  unfold truncateMinute nsPerMinute nsPerSecond
  omega

theorem round2_eq_iff_of_sign (x y : ℚ) (h : x < 0 ↔ y < 0) :
    round2 x = round2 y ↔ hundredths x = hundredths y := by
  unfold round2
  by_cases hx : x < 0
  · rw [if_pos hx, if_pos (h.1 hx)]
    constructor
    · intro e
      have : (hundredths x : ℚ) = (hundredths y : ℚ) := by linarith
      exact_mod_cast this
    · intro e; rw [e]
  · rw [if_neg hx, if_neg (fun hy => hx (h.2 hy))]
    constructor
    · intro e
      have : (hundredths x : ℚ) = (hundredths y : ℚ) := by linarith
      exact_mod_cast this
    · intro e; rw [e]

theorem key_eq_iff_signedKey (a b : Transaction) :
    key a = key b ↔ signedKey a = signedKey b := by
  rw [key_eq_iff, formatMinute_eq_iff, formatFixed2_eq_iff]
  unfold signedKey
  simp only [Prod.mk.injEq, truncateMinute_eq_iff, decide_eq_decide]
  constructor
  · rintro ⟨h1, h2, h3, h4⟩
    exact ⟨h1, h2, (round2_eq_iff_of_sign _ _ h3).2 h4, h3⟩
  · rintro ⟨h1, h2, h3, h4⟩
    exact ⟨h1, h2, h4, (round2_eq_iff_of_sign _ _ h4).1 h3⟩

theorem mem_seen_foldl (ts : List Transaction) (st : List String × List Transaction) (k : String) :
    k ∈ (ts.foldl dedupStep st).1 ↔ k ∈ st.1 ∨ ∃ u ∈ ts, key u = k := by
  induction ts generalizing st with
  | nil => simp
  | cons t ts ih =>
    rw [List.foldl_cons, ih]
    unfold dedupStep
    by_cases h : key t ∈ st.1
    · simp only [h, if_true, List.mem_cons, exists_eq_or_imp]
      constructor
      · rintro (h1 | h1)
        · exact Or.inl h1
        · exact Or.inr (Or.inr h1)
      · rintro (h1 | h1 | h1)
        · exact Or.inl h1
        · exact Or.inl (h1 ▸ h)
        · exact Or.inr h1
    · simp only [h, if_false, List.mem_cons, exists_eq_or_imp]
      constructor
      · rintro ((h1 | h1) | h1)
        · exact Or.inr (Or.inl h1.symm)
        · exact Or.inl h1
        · exact Or.inr (Or.inr h1)
      · rintro (h1 | h1 | h1)
        · exact Or.inl (Or.inr h1)
        · exact Or.inl (Or.inl h1.symm)
        · exact Or.inr h1

theorem dedup_nil : deduplicateTransactions [] = [] := rfl

theorem dedupStep_snd (st : List String × List Transaction) (t : Transaction) :
    (dedupStep st t).2 = st.2 ++ (if key t ∈ st.1 then [] else [t]) := by
  unfold dedupStep
  split_ifs <;> simp

theorem dedup_concat (ts : List Transaction) (t : Transaction) :
    deduplicateTransactions (ts ++ [t]) =
      deduplicateTransactions ts ++ (if ∀ u ∈ ts, key u ≠ key t then [t] else []) := by
  unfold deduplicateTransactions
  rw [List.foldl_append, List.foldl_cons, List.foldl_nil, dedupStep_snd]
  have hs := mem_seen_foldl ts ([], []) (key t)
  simp only [List.not_mem_nil, false_or] at hs
  congr 1
  by_cases h : ∀ u ∈ ts, key u ≠ key t
  · have h1 : ¬ key t ∈ (ts.foldl dedupStep ([], [])).1 := by
      rw [hs]; rintro ⟨u, hu, hk⟩; exact h u hu hk
    rw [if_neg h1, if_pos h]
  · have h1 : key t ∈ (ts.foldl dedupStep ([], [])).1 := by
      rw [hs]; push_neg at h; exact h
    rw [if_pos h1, if_neg h]

theorem firstOccurrences_concat {κ : Type} [DecidableEq κ] (K : Transaction → κ)
    (ts : List Transaction) (t : Transaction) :
    firstOccurrences K (ts ++ [t]) =
      firstOccurrences K ts ++ (if ∀ u ∈ ts, K u ≠ K t then [t] else []) := by
  unfold firstOccurrences
  rw [List.length_append, List.length_singleton, List.range_succ, List.filterMap_append]
  congr 1
  · apply List.filterMap_congr
    intro i hi
    rw [List.mem_range] at hi
    rw [List.getElem?_append_left hi, List.take_append_of_le_length (le_of_lt hi)]
  · simp only [List.filterMap_cons, List.filterMap_nil, List.getElem?_concat_length,
      List.take_left]
    split_ifs <;> rfl

theorem dedup_eq_firstOccurrences (ts : List Transaction) :
    deduplicateTransactions ts = firstOccurrences key ts := by
  induction ts using List.reverseRecOn with
  | nil => rfl
  | append_singleton ts t ih => rw [dedup_concat, firstOccurrences_concat, ih]

theorem firstOccurrences_congr {κ κ' : Type} [DecidableEq κ] [DecidableEq κ']
    (K : Transaction → κ) (K' : Transaction → κ')
    (h : ∀ a b, K a = K b ↔ K' a = K' b) (ts : List Transaction) :
    firstOccurrences K ts = firstOccurrences K' ts := by
  induction ts using List.reverseRecOn with
  | nil => rfl
  | append_singleton ts t ih =>
    rw [firstOccurrences_concat, firstOccurrences_concat, ih]
    congr 1
    have : (∀ u ∈ ts, K u ≠ K t) ↔ (∀ u ∈ ts, K' u ≠ K' t) := by
      constructor
      · intro h1 u hu hk; exact h1 u hu ((h u t).2 hk)
      · intro h1 u hu hk; exact h1 u hu ((h u t).1 hk)
    by_cases h2 : ∀ u ∈ ts, K u ≠ K t
    · rw [if_pos h2, if_pos (this.1 h2)]
    · rw [if_neg h2, if_neg (fun h3 => h2 (this.2 h3))]

theorem dedup_sublist (ts : List Transaction) :
    (deduplicateTransactions ts).Sublist ts := by
  induction ts using List.reverseRecOn with
  | nil => exact List.Sublist.refl _
  | append_singleton ts t ih =>
    rw [dedup_concat]
    apply List.Sublist.append ih
    split_ifs
    · exact List.Sublist.refl _
    · exact List.nil_sublist _

theorem mem_of_mem_dedup {ts : List Transaction} {t : Transaction}
    (h : t ∈ deduplicateTransactions ts) : t ∈ ts :=
  (dedup_sublist ts).subset h

theorem dedup_covers (ts : List Transaction) :
    ∀ t ∈ ts, ∃ u ∈ deduplicateTransactions ts, key u = key t := by
  induction ts using List.reverseRecOn with
  | nil => simp
  | append_singleton ts t ih =>
    intro x hx
    rw [dedup_concat]
    rw [List.mem_append, List.mem_singleton] at hx
    rcases hx with hx | hx
    · obtain ⟨u, hu, hk⟩ := ih x hx
      exact ⟨u, List.mem_append_left _ hu, hk⟩
    · subst hx
      by_cases h : ∀ u ∈ ts, key u ≠ key x
      · rw [if_pos h]; exact ⟨x, by simp, rfl⟩
      · rw [if_neg h]
        push_neg at h
        obtain ⟨v, hv, hvk⟩ := h
        obtain ⟨u, hu, hk⟩ := ih v hv
        exact ⟨u, List.mem_append_left _ hu, hk.trans hvk⟩

theorem dedup_pairwise (ts : List Transaction) :
    (deduplicateTransactions ts).Pairwise (fun a b => key a ≠ key b) := by
  induction ts using List.reverseRecOn with
  | nil => exact List.Pairwise.nil
  | append_singleton ts t ih =>
    rw [dedup_concat, List.pairwise_append]
    refine ⟨ih, ?_, ?_⟩
    · split_ifs
      · exact List.pairwise_singleton _ _
      · exact List.Pairwise.nil
    · intro a ha b hb
      split_ifs at hb with h
      · rw [List.mem_singleton] at hb
        subst hb
        exact h a (mem_of_mem_dedup ha)
      · simp at hb

theorem dedup_of_pairwise (l : List Transaction)
    (h : l.Pairwise (fun a b => key a ≠ key b)) : deduplicateTransactions l = l := by
  induction l using List.reverseRecOn with
  | nil => rfl
  | append_singleton l t ih =>
    rw [List.pairwise_append] at h
    rw [dedup_concat, ih h.1, if_pos]
    intro u hu
    exact h.2.2 u hu t (List.mem_singleton_self t)

theorem dedup_idem (ts : List Transaction) :
    deduplicateTransactions (deduplicateTransactions ts) = deduplicateTransactions ts :=
  dedup_of_pairwise _ (dedup_pairwise ts)

theorem pairStep_eq (mt : Int) (ma : ℚ) (acc : List DuplicateMatch) (a b : Transaction) :
    pairStep mt ma acc a b = acc ++
      (if a.Bank ≠ b.Bank ∧ a.Currency = b.Currency ∧ (a.Amount < 0 ∧ b.Amount < 0) ∧
          timeDiffOf a b ≤ mt ∧ |(|a.Amount| - |b.Amount|)| ≤ ma
       then [⟨a, b, timeDiffOf a b, |(|a.Amount| - |b.Amount|)|⟩] else []) := by
  unfold pairStep timeDiffOf
  by_cases h1 : a.Bank = b.Bank
  · simp [h1]
  by_cases h2 : a.Currency = b.Currency
  swap
  · simp [h1, h2]
  by_cases h3 : a.Amount ≥ 0 ∨ b.Amount ≥ 0
  · have : ¬ (a.Amount < 0 ∧ b.Amount < 0) := by
      rintro ⟨h4, h5⟩
      rcases h3 with h3 | h3
      · exact absurd h4 (not_lt.2 h3)
      · exact absurd h5 (not_lt.2 h3)
    simp only [h1, h2, h3, this, if_true, if_false, ne_eq, not_false_eq_true, not_true_eq_false,
      true_and, false_and, and_false, List.append_nil]
  have h3' : a.Amount < 0 ∧ b.Amount < 0 := by
    push_neg at h3
    exact h3
  simp only [h1, h2, h3, h3', if_false, ne_eq, not_false_eq_true, not_true_eq_false,
    true_and, and_self, gt_iff_lt, ← not_le]
  split_ifs <;> first | rfl | (exfalso; tauto) | simp

theorem foldl_append_flatMap {α β : Type} (g : α → List β) (l : List α) (acc : List β) :
    l.foldl (fun acc x => acc ++ g x) acc = acc ++ l.flatMap g := by
  induction l generalizing acc with
  | nil => simp
  | cons x l ih => rw [List.foldl_cons, ih, List.flatMap_cons, List.append_assoc]

theorem innerLoop_eq (mt : Int) (ma : ℚ) (d : List Transaction) (i : Nat)
    (acc : List DuplicateMatch) :
    innerLoop mt ma d i acc =
      acc ++ (List.range' (i + 1) (d.length - (i + 1))).flatMap (cell mt ma d i) := by
  unfold innerLoop
  rw [← foldl_append_flatMap]
  congr 1
  funext acc j
  unfold cell
  cases d[i]? <;> cases d[j]? <;> simp
  rw [pairStep_eq mt ma acc, pairStep_eq mt ma []]
  simp

theorem FindDuplicates_eq (ts : List Transaction) (mt : Int) (ma : ℚ) :
    FindDuplicates ts mt ma =
      (List.range (deduplicateTransactions ts).length).flatMap fun i =>
        (List.range' (i + 1) ((deduplicateTransactions ts).length - (i + 1))).flatMap
          (cell mt ma (deduplicateTransactions ts) i) := by
  unfold FindDuplicates
  simp only [innerLoop_eq]
  rw [foldl_append_flatMap, List.nil_append]

theorem filter_lt_range (i n : Nat) :
    ((List.range n).filter fun j => i < j) = List.range' (i + 1) (n - (i + 1)) := by
  induction n with
  | zero => simp
  | succ n ih =>
    rw [List.range_succ, List.filter_append, ih]
    by_cases h : i < n
    · have e : n + 1 - (i + 1) = (n - (i + 1)) + 1 := by omega
      rw [e, List.range'_concat]
      simp only [List.filter_cons, h, decide_True, if_true, List.filter_nil, mul_one]
      congr 2
      omega
    · have e1 : n - (i + 1) = 0 := by omega
      have e2 : n + 1 - (i + 1) = 0 := by omega
      simp [h, e1, e2]

theorem timeDiffOf_eq (a b : Transaction)
    (h : |a.DateTime - b.DateTime| ≤ maxDuration) :
    timeDiffOf a b = |a.DateTime - b.DateTime| := by
  unfold timeDiffOf Sub wrap64
  unfold maxDuration at h
  unfold minDuration maxDuration
  rcases abs_cases (a.DateTime - b.DateTime) with ⟨h1, h2⟩ | ⟨h1, h2⟩ <;> rw [h1] at h ⊢ <;>
    norm_num at h ⊢ <;> split_ifs <;> omega

theorem timeDiffOf_le (a b : Transaction) :
    timeDiffOf a b ≤ |a.DateTime - b.DateTime| := by
  unfold timeDiffOf Sub wrap64
  unfold minDuration maxDuration
  rcases abs_cases (a.DateTime - b.DateTime) with ⟨h1, h2⟩ | ⟨h1, h2⟩ <;> rw [h1] <;>
    norm_num <;> split_ifs <;> omega

theorem cell_eq_spec (mt : Int) (ma : ℚ) (d : List Transaction) (i j : Nat)
    (h : ∀ a ∈ d, ∀ b ∈ d, |a.DateTime - b.DateTime| ≤ maxDuration) :
    cell mt ma d i j =
      (match d[i]?, d[j]? with
        | some t1, some t2 =>
          if isDuplicatePair mt ma t1 t2 then
            some (⟨t1, t2, |t1.DateTime - t2.DateTime|,
              |(|t1.Amount| - |t2.Amount|)|⟩ : DuplicateMatch)
          else none
        | _, _ => none).toList := by
  unfold cell
  cases hi : d[i]? with
  | none => rfl
  | some a =>
    cases hj : d[j]? with
    | none => rfl
    | some b =>
      have ha : a ∈ d := List.getElem?_mem hi
      have hb : b ∈ d := List.getElem?_mem hj
      simp only [pairStep_eq, List.nil_append, isDuplicatePair, timeDiffOf_eq a b (h a ha b hb)]
      split_ifs <;> rfl

theorem FindDuplicates_eq_spec (ts : List Transaction) (mt : Int) (ma : ℚ)
    (h : ∀ a ∈ deduplicateTransactions ts, ∀ b ∈ deduplicateTransactions ts,
      |a.DateTime - b.DateTime| ≤ maxDuration) :
    FindDuplicates ts mt ma = specMatches (deduplicateTransactions ts) mt ma := by
  rw [FindDuplicates_eq]
  unfold specMatches orderedPairs
  rw [List.filterMap_flatMap]
  apply List.flatMap_congr
  intro i _
  rw [List.filterMap_map, filter_lt_range, List.filterMap_eq_flatMap_toList]
  apply List.flatMap_congr
  intro j _
  rw [cell_eq_spec mt ma _ i j h]
  rfl

theorem mem_pairStep_nil {mt : Int} {ma : ℚ} {a b : Transaction} {m : DuplicateMatch}
    (h : m ∈ pairStep mt ma [] a b) :
    m = ⟨a, b, timeDiffOf a b, |(|a.Amount| - |b.Amount|)|⟩ ∧
      a.Bank ≠ b.Bank ∧ a.Currency = b.Currency ∧ (a.Amount < 0 ∧ b.Amount < 0) ∧
      timeDiffOf a b ≤ mt ∧ |(|a.Amount| - |b.Amount|)| ≤ ma := by
  rw [pairStep_eq, List.nil_append] at h
  split_ifs at h with hc
  · rw [List.mem_singleton] at h
    exact ⟨h, hc⟩
  · simp at h

theorem mem_FindDuplicates {ts : List Transaction} {mt : Int} {ma : ℚ} {m : DuplicateMatch}
    (h : m ∈ FindDuplicates ts mt ma) :
    ∃ i j : Nat, i < j ∧ (deduplicateTransactions ts)[i]? = some m.Transaction1 ∧
      (deduplicateTransactions ts)[j]? = some m.Transaction2 ∧
      m.Transaction1.Bank ≠ m.Transaction2.Bank ∧
      m.Transaction1.Currency = m.Transaction2.Currency ∧
      (m.Transaction1.Amount < 0 ∧ m.Transaction2.Amount < 0) ∧
      m.TimeDiff = timeDiffOf m.Transaction1 m.Transaction2 ∧ m.TimeDiff ≤ mt ∧
      m.AmountDiff = |(|m.Transaction1.Amount| - |m.Transaction2.Amount|)| ∧
      m.AmountDiff ≤ ma := by
  rw [FindDuplicates_eq, List.mem_flatMap] at h
  obtain ⟨i, _, h⟩ := h
  rw [List.mem_flatMap] at h
  obtain ⟨j, hj, h⟩ := h
  rw [List.mem_range'] at hj
  obtain ⟨k, _, hk⟩ := hj
  unfold cell at h
  cases hi : (deduplicateTransactions ts)[i]? with
  | none => rw [hi] at h; simp at h
  | some a =>
    cases hj : (deduplicateTransactions ts)[j]? with
    | none => rw [hi, hj] at h; simp at h
    | some b =>
      rw [hi, hj] at h
      obtain ⟨rfl, h1, h2, h3, h4, h5⟩ := mem_pairStep_nil h
      exact ⟨i, j, by omega, hi, hj, h1, h2, h3, rfl, h4, rfl, h5⟩

theorem key_ne_of_bank_ne {a b : Transaction} (h : a.Bank ≠ b.Bank) : key a ≠ key b :=
  fun hk => h ((key_eq_iff a b).1 hk).1

theorem dedup_pair_of_key_ne {a b : Transaction} (h : key a ≠ key b) :
    deduplicateTransactions [a, b] = [a, b] :=
  dedup_of_pairwise _ (by simp [h])

theorem FindDuplicates_pair (mt : Int) (ma : ℚ) {a b : Transaction} (h : a.Bank ≠ b.Bank) :
    FindDuplicates [a, b] mt ma = pairStep mt ma [] a b := by
  rw [FindDuplicates_eq, dedup_pair_of_key_ne (key_ne_of_bank_ne h)]
  simp [List.range_succ, cell, List.range']

/-! ## Further facts about the finder -/

theorem mem_orderedPairs (n i j : Nat) : (i, j) ∈ orderedPairs n ↔ i < j ∧ j < n := by
  unfold orderedPairs
  simp only [List.mem_flatMap, List.mem_range, List.mem_map, List.mem_filter, decide_eq_true_eq,
    Prod.mk.injEq]
  constructor
  · rintro ⟨i', _, j', ⟨hj, hlt⟩, rfl, rfl⟩
    exact ⟨hlt, hj⟩
  · rintro ⟨h1, h2⟩
    exact ⟨i, by omega, j, ⟨h2, h1⟩, rfl, rfl⟩

theorem FindDuplicates_deltas {ts : List Transaction} {mt : Int} {ma : ℚ} {m : DuplicateMatch}
    (h : m ∈ FindDuplicates ts mt ma) :
    m.AmountDiff = |(|m.Transaction1.Amount| - |m.Transaction2.Amount|)| ∧ 0 ≤ m.AmountDiff ∧
      (|m.Transaction1.DateTime - m.Transaction2.DateTime| ≤ maxDuration →
        m.TimeDiff = |m.Transaction1.DateTime - m.Transaction2.DateTime| ∧ 0 ≤ m.TimeDiff) := by
  obtain ⟨i, j, _, _, _, _, _, _, ht, _, ha, _⟩ := mem_FindDuplicates h
  refine ⟨ha, ha ▸ abs_nonneg _, fun hr => ?_⟩
  rw [ht, timeDiffOf_eq _ _ hr]
  exact ⟨rfl, abs_nonneg _⟩

theorem pairStep_nil_of_match {mt : Int} {ma : ℚ} {a b : Transaction}
    (h1 : a.Bank ≠ b.Bank) (h2 : a.Currency = b.Currency) (h3 : a.Amount < 0)
    (h4 : b.Amount < 0) (h5 : timeDiffOf a b ≤ mt) (h6 : |(|a.Amount| - |b.Amount|)| ≤ ma) :
    pairStep mt ma [] a b = [⟨a, b, timeDiffOf a b, |(|a.Amount| - |b.Amount|)|⟩] := by
  rw [pairStep_eq, List.nil_append, if_pos ⟨h1, h2, ⟨h3, h4⟩, h5, h6⟩]

theorem pairStep_nil_of_time {mt : Int} {ma : ℚ} {a b : Transaction}
    (h : mt < timeDiffOf a b) : pairStep mt ma [] a b = [] := by
  rw [pairStep_eq, List.nil_append, if_neg]
  rintro ⟨_, _, _, h5, _⟩
  exact absurd h (not_lt.2 h5)

theorem pairStep_nil_of_amount {mt : Int} {ma : ℚ} {a b : Transaction}
    (h : ma < |(|a.Amount| - |b.Amount|)|) : pairStep mt ma [] a b = [] := by
  rw [pairStep_eq, List.nil_append, if_neg]
  rintro ⟨_, _, _, _, h6⟩
  exact absurd h (not_lt.2 h6)

theorem signedKey_ne_of_specKey_ne {a b : Transaction} (h : specKey a ≠ specKey b) :
    signedKey a ≠ signedKey b := by
  intro e
  apply h
  unfold signedKey at e
  unfold specKey
  simp only [Prod.mk.injEq] at e ⊢
  exact ⟨e.1, e.2.1, e.2.2.1⟩

/-! ## The claims -/

/-- C3: the pre-pass is idempotent. -/
theorem C3_dedup_idempotent (ts : List Transaction) :
    deduplicateTransactions (deduplicateTransactions ts) = deduplicateTransactions ts :=
  dedup_idem ts

/-- C4: the pre-pass returns a subsequence of its input (survivors keep their
relative order and are unmodified); for `[A, B, A']` where `A` and `A'` share
bank, minute and amount and `B` has a different key, the result is `[A, B]`. -/
theorem C4_dedup_preserves_order (ts : List Transaction) (A B A' : Transaction) :
    (deduplicateTransactions ts).Sublist ts ∧
    (A.Bank = A'.Bank → truncateMinute A.DateTime = truncateMinute A'.DateTime →
      A.Amount = A'.Amount → specKey B ≠ specKey A →
      deduplicateTransactions [A, B, A'] = [A, B]) := by
  refine ⟨dedup_sublist ts, fun h1 h2 h3 h4 => ?_⟩
  have hAA : key A = key A' := by
    rw [key_eq_iff_signedKey]
    unfold signedKey
    rw [h1, h2, h3]
  have hBA : key A ≠ key B := fun e =>
    signedKey_ne_of_specKey_ne h4 ((key_eq_iff_signedKey _ _).1 e.symm)
  have e := dedup_concat [A, B] A'
  rw [dedup_pair_of_key_ne hBA, if_neg] at e
  · simpa using e
  · intro hall
    exact hall A (List.mem_cons_self _ _) hAA

/-- Witness of C4 on two copies of a debit with a debit of another bank between
them. -/
theorem C4_witness : deduplicateTransactions [exNew, exHalf, exNew] = [exNew, exHalf] :=
  (C4_dedup_preserves_order [] exNew exHalf exNew).2 rfl rfl rfl (by decide!)

/-- C5: every match returned by `FindDuplicates` joins transactions of two
different banks; a list whose transactions all come from one bank yields no
match. -/
theorem C5_no_same_bank_match (ts : List Transaction) (maxTimeDiff : Int)
    (maxAmountDiff : ℚ) :
    (∀ m ∈ FindDuplicates ts maxTimeDiff maxAmountDiff,
      m.Transaction1.Bank ≠ m.Transaction2.Bank) ∧
    ((∀ a ∈ ts, ∀ b ∈ ts, a.Bank = b.Bank) →
      FindDuplicates ts maxTimeDiff maxAmountDiff = []) := by
  constructor
  · intro m hm
    obtain ⟨i, j, _, _, _, hb, _⟩ := mem_FindDuplicates hm
    exact hb
  · intro hall
    rw [List.eq_nil_iff_forall_not_mem]
    intro m hm
    obtain ⟨i, j, _, hi, hj, hb, _⟩ := mem_FindDuplicates hm
    exact hb (hall _ (mem_of_mem_dedup (List.getElem?_mem hi)) _
      (mem_of_mem_dedup (List.getElem?_mem hj)))

/-- Witness of C5 on the test "same bank - no match" (two transactions of one
bank that differ in amount, so that both survive the pre-pass). -/
theorem C5_witness :
    FindDuplicates [⟨baseTime, "", -100, "KGS", "BankA", ""⟩,
      ⟨baseTime, "", -100.5, "KGS", "BankA", ""⟩] oneMinute 1 = [] :=
  (C5_no_same_bank_match _ oneMinute 1).2 (by decide!)

/-- C6: every match returned by `FindDuplicates` joins two debits (both amounts
negative); a pair with a credit or a zero amount on either side is never
reported. -/
theorem C6_sign_filter (ts : List Transaction) (maxTimeDiff : Int) (maxAmountDiff : ℚ)
    (a b : Transaction) :
    (∀ m ∈ FindDuplicates ts maxTimeDiff maxAmountDiff,
      m.Transaction1.Amount < 0 ∧ m.Transaction2.Amount < 0) ∧
    ((0 ≤ a.Amount ∨ 0 ≤ b.Amount) →
      ∀ m ∈ FindDuplicates ts maxTimeDiff maxAmountDiff,
        ¬ (m.Transaction1 = a ∧ m.Transaction2 = b)) := by
  constructor
  · intro m hm
    obtain ⟨i, j, _, _, _, _, _, hs, _⟩ := mem_FindDuplicates hm
    exact hs
  · rintro hab m hm ⟨rfl, rfl⟩
    obtain ⟨i, j, _, _, _, _, _, hs, _⟩ := mem_FindDuplicates hm
    rcases hab with h | h
    · exact absurd hs.1 (not_lt.2 h)
    · exact absurd hs.2 (not_lt.2 h)

/-- Counterexample to C7 as stated: with the largest `time.Duration` as the
tolerance, two debits whose timestamps differ by that tolerance plus one
nanosecond are still reported. -/
theorem C7_counterexample :
    exFar.Bank ≠ exEpoch.Bank ∧ exFar.Currency = exEpoch.Currency ∧
    exFar.Amount < 0 ∧ exEpoch.Amount < 0 ∧
    |(|exFar.Amount| - |exEpoch.Amount|)| ≤ 1 ∧
    |exFar.DateTime - exEpoch.DateTime| = maxDuration + 1 ∧
    FindDuplicates [exFar, exEpoch] maxDuration 1 = [⟨exFar, exEpoch, maxDuration, 0⟩] := by
  decide!

/-- C7 (amended): for two debits of different banks with the same currency
and amounts within the amount tolerance, `FindDuplicates` reports the pair when
the absolute difference of their timestamps equals `maxTimeDiff` (recording that
difference whenever `maxTimeDiff` is a `time.Duration`), and reports nothing when
the difference is `maxTimeDiff` plus one nanosecond, provided `maxTimeDiff` is
below the largest `time.Duration`. -/
theorem C7_time_boundary_inclusive (a b : Transaction) (maxTimeDiff : Int)
    (maxAmountDiff : ℚ) (hbank : a.Bank ≠ b.Bank) (hcur : a.Currency = b.Currency)
    (ha : a.Amount < 0) (hb : b.Amount < 0)
    (hamt : |(|a.Amount| - |b.Amount|)| ≤ maxAmountDiff) :
    (|a.DateTime - b.DateTime| = maxTimeDiff →
      FindDuplicates [a, b] maxTimeDiff maxAmountDiff =
        [⟨a, b, timeDiffOf a b, |(|a.Amount| - |b.Amount|)|⟩] ∧
      (maxTimeDiff ≤ maxDuration → timeDiffOf a b = maxTimeDiff)) ∧
    (maxTimeDiff < maxDuration → |a.DateTime - b.DateTime| = maxTimeDiff + 1 →
      FindDuplicates [a, b] maxTimeDiff maxAmountDiff = []) := by
  constructor
  · intro h
    refine ⟨?_, fun hr => ?_⟩
    · rw [FindDuplicates_pair _ _ hbank]
      exact pairStep_nil_of_match hbank hcur ha hb (h ▸ timeDiffOf_le a b) hamt
    · rw [timeDiffOf_eq a b (h ▸ hr), h]
  · intro hr h
    rw [FindDuplicates_pair _ _ hbank]
    apply pairStep_nil_of_time
    rw [timeDiffOf_eq a b (by omega), h]
    omega

/-- Witness of C7 with a tolerance of one minute: a pair exactly one minute
apart is reported with that delta, a pair one nanosecond further apart is not. -/
theorem C7_witness :
    FindDuplicates [exNew, exMinuteLater] oneMinute 1 =
      [⟨exNew, exMinuteLater, oneMinute, 0⟩] ∧
    FindDuplicates [exNew, exMinuteLaterPlus] oneMinute 1 = [] :=
  ⟨((C7_time_boundary_inclusive exNew exMinuteLater oneMinute 1 (by decide!) (by decide!)
      (by decide!) (by decide!) (by decide!)).1 (by decide!)).1.trans (by decide!),
    (C7_time_boundary_inclusive exNew exMinuteLaterPlus oneMinute 1 (by decide!) (by decide!)
      (by decide!) (by decide!) (by decide!)).2 (by decide!) (by decide!)⟩

/-- C9: `FindDuplicates` never reports two transactions with different currency
strings, whatever the tolerances: every reported match has equal currencies,
and a list of two transactions with different currencies yields no match. -/
theorem C9_currency_mismatch (ts : List Transaction) (maxTimeDiff : Int)
    (maxAmountDiff : ℚ) (a b : Transaction) :
    (∀ m ∈ FindDuplicates ts maxTimeDiff maxAmountDiff,
      m.Transaction1.Currency = m.Transaction2.Currency) ∧
    (a.Currency ≠ b.Currency → FindDuplicates [a, b] maxTimeDiff maxAmountDiff = []) := by
  constructor
  · intro m hm
    obtain ⟨i, j, _, _, _, _, hc, _⟩ := mem_FindDuplicates hm
    exact hc
  · intro hne
    rw [List.eq_nil_iff_forall_not_mem]
    intro m hm
    obtain ⟨i, j, _, hi, hj, hb, hc, _⟩ := mem_FindDuplicates hm
    have h1 := mem_of_mem_dedup (List.getElem?_mem hi)
    have h2 := mem_of_mem_dedup (List.getElem?_mem hj)
    simp only [List.mem_cons, List.mem_singleton, List.not_mem_nil, or_false] at h1 h2
    rcases h1 with h1 | h1 <;> rcases h2 with h2 | h2
    · exact hb (by rw [h1, h2])
    · exact hne (by rw [← h1, ← h2]; exact hc)
    · exact hne (by rw [← h1, ← h2]; exact hc.symm)
    · exact hb (by rw [h1, h2])

/-- Witness of C9 on the test "different currencies - no match". -/
theorem C9_witness : FindDuplicates [exNew, exDollar] oneMinute 1 = [] :=
  (C9_currency_mismatch [] oneMinute 1 exNew exDollar).2 (by decide!)

/-- C10 (failing input): for a debit dated 1700 listed before a debit dated 2025,
`Sub` saturates at `minDuration`, the `int64` negation leaves it unchanged, and
`FindDuplicates` with a tolerance of one minute reports the pair with a negative
`TimeDiff`, although the timestamps lie about 325 years apart. -/
theorem C10_negative_time_diff :
    FindDuplicates [exOld, exNew] oneMinute 1 = [⟨exOld, exNew, minDuration, 0⟩] ∧
    minDuration < 0 ∧
    |exOld.DateTime - exNew.DateTime| = 10257237000 * nsPerSecond ∧
    formatMinute exOld.DateTime = "1700-01-01 10:00" ∧
    formatMinute exNew.DateTime = "2025-01-15 10:30" := by
  decide!

/-! ## Lemmas on the parsers -/

theorem replaceAllAux_single (x : Char) (new s : List Char) :
    replaceAllAux [x] new 0 s = s.flatMap fun c => if c = x then new else [c] := by
  induction s with
  | nil => rfl
  | cons c cs ih =>
    unfold replaceAllAux
    by_cases h : c = x
    · subst h
      simp [List.isPrefixOf, ih]
    · have h2 : ¬ x = c := fun e => h e.symm
      simp [List.isPrefixOf, ih, h, h2]

theorem ReplaceAll_remove (x : Char) (s : List Char) :
    ReplaceAll s [x] [] = s.filter fun c => c ≠ x := by
  unfold ReplaceAll
  rw [replaceAllAux_single]
  induction s with
  | nil => rfl
  | cons c cs ih =>
    by_cases h : c = x <;> simp [List.filter_cons, h, ih]

theorem ReplaceAll_map (x y : Char) (s : List Char) :
    ReplaceAll s [x] [y] = s.map fun c => if c = x then y else c := by
  unfold ReplaceAll
  rw [replaceAllAux_single]
  induction s with
  | nil => rfl
  | cons c cs ih =>
    by_cases h : c = x <;> simp [h, ih]

theorem replaceAllAux_pair_of_not_mem (x y : Char) (new s : List Char) (h : y ∉ s) :
    replaceAllAux [x, y] new 0 s = s := by
  induction s with
  | nil => rfl
  | cons c cs ih =>
    unfold replaceAllAux
    have hcs : y ∉ cs := fun hm => h (List.mem_cons_of_mem _ hm)
    have hp : List.isPrefixOf [x, y] (c :: cs) = false := by
      cases cs with
      | nil => simp [List.isPrefixOf]
      | cons d ds =>
        have : ¬ y = d := fun e => hcs (e ▸ List.mem_cons_self _ _)
        simp [List.isPrefixOf, this]
    rw [hp]
    simp [ih hcs]

theorem TrimSpace_of_no_space (s : List Char) (h : ∀ c ∈ s, isSpace c = false) :
    TrimSpace s = s := by
  unfold TrimSpace
  have h1 : s.dropWhile isSpace = s := by
    cases s with
    | nil => rfl
    | cons c cs => simp [List.dropWhile, h c (List.mem_cons_self _ _)]
  rw [h1]
  rw [List.rdropWhile_eq_self_iff]
  intro hne
  simp [h _ (List.getLast_mem hne)]

theorem TrimSpace_nil : TrimSpace [] = [] := rfl

theorem Contains_iff (s sub : List Char) : Contains s sub = true ↔ sub <:+: s := by
  unfold Contains
  rw [List.any_eq_true]
  constructor
  · rintro ⟨t, ht, hp⟩
    rw [List.mem_tails] at ht
    rw [List.isPrefixOf_iff_prefix] at hp
    exact List.infix_iff_prefix_suffix.2 ⟨t, hp, ht⟩
  · intro h
    obtain ⟨t, hp, ht⟩ := List.infix_iff_prefix_suffix.1 h
    exact ⟨t, (List.mem_tails _ _).2 ht, List.isPrefixOf_iff_prefix.2 hp⟩

theorem takeWhile_append_stop {p : Char → Bool} {a b : List Char}
    (ha : ∀ c ∈ a, p c = true) (hb : ∀ c, b.head? = some c → p c = false) :
    (a ++ b).takeWhile p = a ∧ (a ++ b).dropWhile p = b := by
  induction a with
  | nil =>
    cases b with
    | nil => exact ⟨rfl, rfl⟩
    | cons c cs =>
      have := hb c rfl
      simp [List.takeWhile, List.dropWhile, this]
  | cons x xs ih =>
    have hx := ha x (List.mem_cons_self _ _)
    have ih' := ih (fun c hc => ha c (List.mem_cons_of_mem _ hc))
    simp [List.takeWhile, List.dropWhile, hx, ih'.1, ih'.2]

theorem isDigit_ne_of_not_digit {c x : Char} (hc : c.isDigit = true) (hx : x.isDigit = false) :
    c ≠ x := by
  intro h
  rw [h, hx] at hc
  exact Bool.false_ne_true hc

theorem parseUnsigned_decimal (D F : List Char) (dot : Bool)
    (hD : ∀ c ∈ D, c.isDigit = true) (hF : ∀ c ∈ F, c.isDigit = true)
    (hdot : dot = false → F = []) :
    (parseUnsigned (D ++ (if dot then '.' :: F else []))).getD 0 =
      (digitsValue D : ℚ) + (digitsValue F : ℚ) / 10 ^ F.length := by
  have hstop : ∀ c, (if dot then '.' :: F else []).head? = some c → c.isDigit = false := by
    intro c hc
    cases dot
    · simp at hc
    · simp at hc
      subst hc
      decide
  obtain ⟨htake, hdrop⟩ := takeWhile_append_stop hD hstop
  unfold parseUnsigned
  simp only [htake, hdrop]
  cases dot
  · simp only [Bool.false_eq_true, if_false, hdot rfl]
    split_ifs with h
    · rw [h]; simp [digitsValue]
    · simp [digitsValue]
  · have hall : F.all Char.isDigit = true := List.all_eq_true.2 hF
    simp only [if_true, hall, true_and]
    split_ifs with h
    · rw [h.1, h.2]
      simp [digitsValue]
    · rfl

theorem ParseFloat_of_head (s : List Char)
    (h : ∀ c, s.head? = some c → c ≠ '-' ∧ c ≠ '+') :
    ParseFloat s = (parseUnsigned s).getD 0 := by
  unfold ParseFloat
  split
  · exact absurd rfl (h '-' rfl).1
  · exact absurd rfl (h '+' rfl).2
  · rfl

theorem ParseFloat_decimal (neg : Bool) (D F : List Char) (dot : Bool)
    (hD : ∀ c ∈ D, c.isDigit = true) (hF : ∀ c ∈ F, c.isDigit = true)
    (hdot : dot = false → F = []) :
    ParseFloat ((if neg then ['-'] else []) ++ D ++ (if dot then '.' :: F else [])) =
      decimalValue neg D F := by
  unfold decimalValue
  cases neg
  · simp only [Bool.false_eq_true, if_false, List.nil_append]
    rw [ParseFloat_of_head, parseUnsigned_decimal D F dot hD hF hdot, one_mul]
    intro c hc
    have hcd : c.isDigit = true ∨ c = '.' := by
      cases D with
      | nil =>
        cases dot
        · simp at hc
        · simp at hc
          exact Or.inr hc.symm
      | cons d ds =>
        simp at hc
        subst hc
        exact Or.inl (hD _ (List.mem_cons_self _ _))
    rcases hcd with h | h
    · exact ⟨isDigit_ne_of_not_digit h (by decide), isDigit_ne_of_not_digit h (by decide)⟩
    · subst h
      exact ⟨by decide, by decide⟩
  · simp only [if_true, List.singleton_append, List.cons_append, List.append_assoc,
      List.nil_append]
    have : ParseFloat ('-' :: (D ++ if dot = true then '.' :: F else [])) =
        -(parseUnsigned (D ++ if dot = true then '.' :: F else [])).getD 0 := rfl
    rw [this, parseUnsigned_decimal D F dot hD hF hdot]
    ring

theorem isDigit_iff_digitChar (c : Char) : c.isDigit = true ↔ IsDigitChar c := by
  constructor
  · intro h
    have h1 : 48 ≤ c.toNat ∧ c.toNat ≤ 57 := by
      simp only [Char.isDigit, Bool.and_eq_true, decide_eq_true_eq] at h
      exact ⟨h.1, h.2⟩
    refine ⟨c.toNat - 48, by omega, ?_⟩
    unfold digitChar
    have : 48 + (c.toNat - 48) = c.toNat := by omega
    rw [this, Char.ofNat_toNat]
  · rintro ⟨d, hd, rfl⟩
    interval_cases d <;> rfl

theorem digit_cases {P : Char → Prop} (h : ∀ d, d < 10 → P (digitChar d)) (c : Char)
    (hc : c.isDigit = true) : P c := by
  obtain ⟨d, hd, rfl⟩ := (isDigit_iff_digitChar c).1 hc
  exact h d hd

theorem isSpace_of_isDigit (c : Char) (hc : c.isDigit = true) : isSpace c = false :=
  digit_cases (P := fun c => isSpace c = false)
    (fun d hd => by interval_cases d <;> rfl) c hc

theorem reSpace_of_isDigit (c : Char) (hc : c.isDigit = true) : reSpace c = false :=
  digit_cases (P := fun c => reSpace c = false)
    (fun d hd => by interval_cases d <;> rfl) c hc

theorem isDigit_ne_space (c : Char) (hc : c.isDigit = true) : c ≠ ' ' :=
  isDigit_ne_of_not_digit hc (by decide)

theorem isDigit_ne_comma (c : Char) (hc : c.isDigit = true) : c ≠ ',' :=
  isDigit_ne_of_not_digit hc (by decide)

theorem isDigit_normChar (c : Char) (hc : c.isDigit = true) : normChar c = c := by
  unfold normChar
  rw [if_neg]
  rintro (h | h | h) <;> exact isDigit_ne_of_not_digit hc (by decide) h

theorem isSpace_of_reSpace (c : Char) (hc : reSpace c = true) : isSpace c = true := by
  simp only [reSpace, Bool.or_eq_true, decide_eq_true_eq] at hc
  rcases hc with (((h | h) | h) | h) | h <;> subst h <;> rfl

theorem normalizeSpaces_eq_map (s : List Char) : normalizeSpaces s = s.map normChar := by
  unfold normalizeSpaces
  simp only [ReplaceAll_map, List.map_map]
  apply List.map_congr_left
  intro c _
  simp only [Function.comp, normChar]
  by_cases h1 : c = '\u00a0'
  · subst h1; decide
  by_cases h2 : c = '\u2007'
  · subst h2; decide
  by_cases h3 : c = '\u202f'
  · subst h3; decide
  simp [h1, h2, h3]

theorem filter_groupsText (g : List Char) (gs : List (Char × List Char))
    (hg : ∀ c ∈ g, c.isDigit = true) (hgs : ∀ p ∈ gs, p.1 = ' ' ∧ ∀ c ∈ p.2, c.isDigit = true) :
    (groupsText g gs).filter (fun c => c ≠ ' ') = groupsDigits g gs := by
  unfold groupsText groupsDigits
  rw [List.filter_append]
  congr 1
  · rw [List.filter_eq_self]
    intro c hc
    simpa using isDigit_ne_space c (hg c hc)
  · induction gs with
    | nil => rfl
    | cons p ps ih =>
      rw [List.flatMap_cons, List.flatMap_cons, List.filter_append,
        ih (fun q hq => hgs q (List.mem_cons_of_mem _ hq))]
      congr 1
      obtain ⟨h1, h2⟩ := hgs p (List.mem_cons_self _ _)
      rw [List.filter_cons, h1]
      simp only [ne_eq, not_true_eq_false, decide_False, Bool.false_eq_true, if_false]
      rw [List.filter_eq_self]
      intro c hc
      simpa using isDigit_ne_space c (h2 c hc)

theorem isDigit_groupsDigits (g : List Char) (gs : List (Char × List Char))
    (hg : ∀ c ∈ g, c.isDigit = true) (hgs : ∀ p ∈ gs, ∀ c ∈ p.2, c.isDigit = true) :
    ∀ c ∈ groupsDigits g gs, c.isDigit = true := by
  intro c hc
  unfold groupsDigits at hc
  rw [List.mem_append, List.mem_flatMap] at hc
  rcases hc with hc | ⟨p, hp, hc⟩
  · exact hg c hc
  · exact hgs p hp c hc

theorem map_comma_of_not_mem (s : List Char) (h : ',' ∉ s) :
    s.map (fun c => if c = ',' then '.' else c) = s := by
  conv_rhs => rw [← List.map_id s]
  apply List.map_congr_left
  intro c hc
  have : c ≠ ',' := fun e => h (e ▸ hc)
  simp [this]

theorem TrimSpace_lead (a b : List Char) (ha : ∀ c ∈ a, isSpace c = true)
    (hb : ∀ c ∈ b, isSpace c = false) : TrimSpace (a ++ b) = b := by
  have hstop : ∀ c, b.head? = some c → isSpace c = false := by
    intro c hc
    cases b with
    | nil => simp at hc
    | cons x xs =>
      simp at hc
      subst hc
      exact hb _ (List.mem_cons_self _ _)
  have h1 := (takeWhile_append_stop ha hstop).2
  have h2 := TrimSpace_of_no_space b hb
  unfold TrimSpace at h2 ⊢
  rw [h1]
  have h3 : b.dropWhile isSpace = b := (takeWhile_append_stop (a := [])
    (fun c hc => absurd hc (List.not_mem_nil c)) hstop).2
  rwa [h3] at h2

theorem filter_space_eq_filter_digit (B : List Char)
    (hB : ∀ c ∈ B, c.isDigit = true ∨ c = ' ') :
    B.filter (fun c => c ≠ ' ') = B.filter Char.isDigit := by
  apply List.filter_congr
  intro c hc
  rcases hB c hc with h | h
  · simp [h, isDigit_ne_space c h]
  · subst h
    decide

theorem filter_digit_groupsText (g : List Char) (gs : List (Char × List Char))
    (hg : ∀ c ∈ g, c.isDigit = true)
    (hgs : ∀ p ∈ gs, p.1.isDigit = false ∧ ∀ c ∈ p.2, c.isDigit = true) :
    (groupsText g gs).filter Char.isDigit = groupsDigits g gs := by
  unfold groupsText groupsDigits
  rw [List.filter_append]
  congr 1
  · exact List.filter_eq_self.2 hg
  · induction gs with
    | nil => rfl
    | cons p ps ih =>
      rw [List.flatMap_cons, List.flatMap_cons, List.filter_append,
        ih (fun q hq => hgs q (List.mem_cons_of_mem _ hq))]
      congr 1
      obtain ⟨h1, h2⟩ := hgs p (List.mem_cons_self _ _)
      rw [List.filter_cons, h1]
      simp only [Bool.false_eq_true, if_false]
      exact List.filter_eq_self.2 h2

theorem parseMbankAmount_value (neg : Bool) (lead B : List Char) (e1 e2 : Char)
    (hB : ∀ c ∈ B, c.isDigit = true ∨ c = ' ')
    (hlead : ∀ c ∈ lead, reSpace c = true)
    (hneg : neg = true → ∀ c ∈ lead, c = ' ')
    (he1 : e1.isDigit = true) (he2 : e2.isDigit = true) :
    parseMbankAmount ((if neg then ['-'] else []) ++ lead ++ B ++ [',', e1, e2]) =
      decimalValue neg (B.filter Char.isDigit) [e1, e2] := by
  have hBd : ∀ c ∈ B.filter Char.isDigit, c.isDigit = true := fun c hc =>
    (List.mem_filter.1 hc).2
  have hE : ∀ c ∈ [e1, e2], c.isDigit = true := by
    intro c hc
    simp only [List.mem_cons, List.mem_singleton, List.not_mem_nil, or_false] at hc
    rcases hc with h | h <;> subst h <;> assumption
  -- step 1: the ordinary spaces are removed
  have h1 : ReplaceAll ((if neg then ['-'] else []) ++ lead ++ B ++ [',', e1, e2]) [' '] [] =
      (if neg then ['-'] else []) ++ lead.filter (fun c => c ≠ ' ') ++
        B.filter Char.isDigit ++ [',', e1, e2] := by
    rw [ReplaceAll_remove]
    simp only [List.filter_append, filter_space_eq_filter_digit B hB]
    congr 1
    · congr 2
      cases neg <;> rfl
    · have a1 := isDigit_ne_space e1 he1
      have a2 := isDigit_ne_space e2 he2
      simp [List.filter_cons, a1, a2]
  -- step 2: the comma becomes a period
  have hnc : ',' ∉ (if neg then ['-'] else []) ++ lead.filter (fun c => c ≠ ' ') ++
      B.filter Char.isDigit := by
    simp only [List.mem_append, not_or]
    refine ⟨⟨?_, ?_⟩, ?_⟩
    · cases neg <;> simp
    · intro hm
      have := hlead _ (List.mem_filter.1 hm).1
      revert this
      decide
    · intro hm
      exact isDigit_ne_comma _ (hBd _ hm) rfl
  have h2 : ReplaceAll ((if neg then ['-'] else []) ++ lead.filter (fun c => c ≠ ' ') ++
      B.filter Char.isDigit ++ [',', e1, e2]) [','] ['.'] =
      (if neg then ['-'] else []) ++ lead.filter (fun c => c ≠ ' ') ++
        B.filter Char.isDigit ++ ['.', e1, e2] := by
    rw [ReplaceAll_map, List.map_append, map_comma_of_not_mem _ hnc]
    have a1 := isDigit_ne_comma e1 he1
    have a2 := isDigit_ne_comma e2 he2
    simp [a1, a2]
  -- step 3: the leading white space is trimmed
  have hns : ∀ c ∈ (if neg then ['-'] else []) ++ (B.filter Char.isDigit ++ ['.', e1, e2]),
      isSpace c = false := by
    intro c hc
    simp only [List.mem_append, List.mem_cons, List.mem_singleton, List.not_mem_nil,
      or_false] at hc
    rcases hc with hc | hc | hc | hc | hc
    · cases neg
      · simp at hc
      · simp at hc; subst hc; rfl
    · exact isSpace_of_isDigit c (hBd c hc)
    · subst hc; rfl
    · subst hc; exact isSpace_of_isDigit _ he1
    · subst hc; exact isSpace_of_isDigit _ he2
  have h3 : TrimSpace ((if neg then ['-'] else []) ++ lead.filter (fun c => c ≠ ' ') ++
      B.filter Char.isDigit ++ ['.', e1, e2]) =
      (if neg then ['-'] else []) ++ (B.filter Char.isDigit ++ ['.', e1, e2]) := by
    cases neg
    · simp only [Bool.false_eq_true, if_false, List.nil_append, List.append_assoc]
      apply TrimSpace_lead
      · intro c hc
        exact isSpace_of_reSpace c (hlead c (List.mem_filter.1 hc).1)
      · intro c hc
        exact hns c (by simpa using hc)
    · have hl : lead.filter (fun c => c ≠ ' ') = [] := by
        rw [List.filter_eq_nil_iff]
        intro c hc
        simp [hneg rfl c hc]
      rw [hl, List.append_nil, List.append_assoc]
      exact TrimSpace_of_no_space _ hns
  -- step 4: no "- " is left to collapse
  have h4 : ReplaceAll ((if neg then ['-'] else []) ++ (B.filter Char.isDigit ++ ['.', e1, e2]))
      ['-', ' '] ['-'] =
      (if neg then ['-'] else []) ++ (B.filter Char.isDigit ++ ['.', e1, e2]) := by
    apply replaceAllAux_pair_of_not_mem
    intro hm
    have := hns _ hm
    revert this
    decide
  unfold parseMbankAmount
  simp only [h1, h2, h3, h4]
  rw [← List.append_assoc]
  exact ParseFloat_decimal neg _ [e1, e2] true hBd hE (by simp)

theorem filter_map_normChar (B : List Char)
    (hB : ∀ c ∈ B, c.isDigit = true ∨ normChar c = ' ') :
    (B.map normChar).filter (fun c => c ≠ ' ') = B.filter Char.isDigit := by
  induction B with
  | nil => rfl
  | cons b bs ih =>
    have ih' := ih (fun c hc => hB c (List.mem_cons_of_mem _ hc))
    rw [List.map_cons, List.filter_cons, List.filter_cons, ih']
    by_cases hd : b.isDigit = true
    · have := isDigit_ne_space b hd
      simp [hd, isDigit_normChar b hd, this]
    · have hn : normChar b = ' ' := (hB b (List.mem_cons_self _ _)).resolve_left hd
      simp [hd, hn]

theorem parseOptimaAmount_value (neg : Bool) (B F : List Char) (dot : Bool)
    (hB : ∀ c ∈ B, c.isDigit = true ∨ normChar c = ' ')
    (hF : ∀ c ∈ F, c.isDigit = true) (hdot : dot = false → F = []) :
    parseOptimaAmount ((if neg then ['-'] else []) ++ B ++ (if dot then '.' :: F else [])) =
      decimalValue neg (B.filter Char.isDigit) F := by
  have hBd : ∀ c ∈ B.filter Char.isDigit, c.isDigit = true := fun c hc =>
    (List.mem_filter.1 hc).2
  have hFn : F.map normChar = F := by
    conv_rhs => rw [← List.map_id F]
    exact List.map_congr_left fun c hc => isDigit_normChar c (hF c hc)
  have hFs : F.filter (fun c => c ≠ ' ') = F := by
    rw [List.filter_eq_self]
    intro c hc
    simpa using isDigit_ne_space c (hF c hc)
  have h1 : ReplaceAll (normalizeSpaces
      ((if neg then ['-'] else []) ++ B ++ (if dot then '.' :: F else []))) [' '] [] =
      (if neg then ['-'] else []) ++ B.filter Char.isDigit ++
        (if dot then '.' :: F else []) := by
    rw [ReplaceAll_remove, normalizeSpaces_eq_map]
    simp only [List.map_append, List.filter_append, filter_map_normChar B hB]
    congr 1
    · congr 1
      cases neg <;> rfl
    · cases dot
      · rfl
      · simp only [if_true, List.map_cons, hFn, List.filter_cons, hFs]
        rfl
  have hns : ∀ c ∈ (if neg then ['-'] else []) ++ B.filter Char.isDigit ++
      (if dot then '.' :: F else []), isSpace c = false := by
    intro c hc
    simp only [List.mem_append] at hc
    rcases hc with (hc | hc) | hc
    · cases neg
      · simp at hc
      · simp at hc; subst hc; rfl
    · exact isSpace_of_isDigit c (hBd c hc)
    · cases dot
      · simp at hc
      · simp only [if_true, List.mem_cons] at hc
        rcases hc with hc | hc
        · subst hc; rfl
        · exact isSpace_of_isDigit c (hF c hc)
  unfold parseOptimaAmount
  simp only [h1, TrimSpace_of_no_space _ hns]
  exact ParseFloat_decimal neg _ F dot hBd hF hdot

theorem TrimSpace_of_ends (s : List Char) (h1 : ∀ c, s.head? = some c → isSpace c = false)
    (h2 : ∀ c, s.getLast? = some c → isSpace c = false) : TrimSpace s = s := by
  unfold TrimSpace
  have hd : s.dropWhile isSpace = s :=
    (takeWhile_append_stop (a := []) (fun c hc => absurd hc (List.not_mem_nil c)) h1).2
  rw [hd, List.rdropWhile_eq_self_iff]
  intro hne
  have := h2 _ (List.getLast?_eq_getLast _ hne)
  simp [this]

theorem parseUnsigned_of_bad (a b : List Char) (c : Char) (ha : ∀ x ∈ a, x.isDigit = true)
    (hc : c.isDigit = false) (hc' : c ≠ '.') : parseUnsigned (a ++ c :: b) = none := by
  have hstop : ∀ x, (c :: b).head? = some x → x.isDigit = false := by
    intro x hx
    simp at hx
    subst hx
    exact hc
  obtain ⟨_, hdrop⟩ := takeWhile_append_stop ha hstop
  unfold parseUnsigned
  simp only [hdrop]
  split
  · rename_i h; simp at h
  · rename_i h
    simp only [List.cons.injEq] at h
    exact absurd h.1 hc'
  · rfl

theorem exists_first_non_digit (T : List Char) (h : ∃ c ∈ T, c.isDigit = false) :
    ∃ a c b, T = a ++ c :: b ∧ (∀ x ∈ a, x.isDigit = true) ∧ c.isDigit = false := by
  induction T with
  | nil => obtain ⟨c, hc, _⟩ := h; simp at hc
  | cons t ts ih =>
    by_cases ht : t.isDigit = true
    · have : ∃ c ∈ ts, c.isDigit = false := by
        obtain ⟨c, hc, hcd⟩ := h
        rw [List.mem_cons] at hc
        rcases hc with hc | hc
        · subst hc; rw [ht] at hcd; exact absurd hcd (by decide)
        · exact ⟨c, hc, hcd⟩
      obtain ⟨a, c, b, e, ha, hc⟩ := ih this
      refine ⟨t :: a, c, b, by rw [e]; rfl, ?_, hc⟩
      intro x hx
      rw [List.mem_cons] at hx
      rcases hx with hx | hx
      · subst hx; exact ht
      · exact ha x hx
    · exact ⟨[], t, ts, rfl, fun x hx => absurd hx (List.not_mem_nil x), by simpa using ht⟩

theorem parseMbankAmount_zero (neg : Bool) (T : List Char) (e1 e2 : Char)
    (hT : ∀ c ∈ T, c.isDigit = true ∨ c = ' ' ∨ c = '\u00a0' ∨ c = '\u2007' ∨ c = '\u202f')
    (hw : ∃ c ∈ T, c = '\u00a0' ∨ c = '\u2007' ∨ c = '\u202f')
    (hhead : neg = false → ∀ c, T.head? = some c → c.isDigit = true)
    (he1 : e1.isDigit = true) (he2 : e2.isDigit = true) :
    parseMbankAmount ((if neg then ['-'] else []) ++ T ++ [',', e1, e2]) = 0 := by
  have hwide : ∀ c : Char, (c = '\u00a0' ∨ c = '\u2007' ∨ c = '\u202f') →
      c.isDigit = false ∧ c ≠ ' ' ∧ c ≠ ',' ∧ c ≠ '.' := by
    rintro c (h | h | h) <;> subst h <;> decide
  have hT' : ∀ c ∈ T.filter (fun c => c ≠ ' '),
      c.isDigit = true ∨ c = '\u00a0' ∨ c = '\u2007' ∨ c = '\u202f' := by
    intro c hc
    rw [List.mem_filter] at hc
    rcases hT c hc.1 with h | h | h
    · exact Or.inl h
    · simp [h] at hc
    · exact Or.inr h
  have hnsp : ' ' ∉ T.filter (fun c => c ≠ ' ') := by
    intro hm
    simpa using (List.mem_filter.1 hm).2
  have h1 : ReplaceAll ((if neg then ['-'] else []) ++ T ++ [',', e1, e2]) [' '] [] =
      (if neg then ['-'] else []) ++ T.filter (fun c => c ≠ ' ') ++ [',', e1, e2] := by
    rw [ReplaceAll_remove]
    simp only [List.filter_append]
    congr 1
    · congr 1
      cases neg <;> rfl
    · have a1 := isDigit_ne_space e1 he1
      have a2 := isDigit_ne_space e2 he2
      simp [List.filter_cons, a1, a2]
  have hnc : ',' ∉ (if neg then ['-'] else []) ++ T.filter (fun c => c ≠ ' ') := by
    simp only [List.mem_append, not_or]
    refine ⟨?_, ?_⟩
    · cases neg <;> simp
    · intro hm
      rcases hT' _ hm with h | h
      · exact isDigit_ne_comma _ h rfl
      · exact (hwide _ h).2.2.1 rfl
  have h2 : ReplaceAll ((if neg then ['-'] else []) ++ T.filter (fun c => c ≠ ' ') ++
      [',', e1, e2]) [','] ['.'] =
      (if neg then ['-'] else []) ++ T.filter (fun c => c ≠ ' ') ++ ['.', e1, e2] := by
    rw [ReplaceAll_map, List.map_append, map_comma_of_not_mem _ hnc]
    have a1 := isDigit_ne_comma e1 he1
    have a2 := isDigit_ne_comma e2 he2
    simp [a1, a2]
  -- the first special space splits the filtered text
  obtain ⟨a, c, b, hsplit, ha, hcd⟩ := exists_first_non_digit (T.filter (fun c => c ≠ ' ')) (by
    obtain ⟨c, hc, hcw⟩ := hw
    exact ⟨c, List.mem_filter.2 ⟨hc, by simpa using (hwide c hcw).2.1⟩, (hwide c hcw).1⟩)
  have hcw : c = '\u00a0' ∨ c = '\u2007' ∨ c = '\u202f' := by
    have hm : c ∈ T.filter (fun c => c ≠ ' ') := by rw [hsplit]; simp
    rcases hT' c hm with h | h
    · rw [h] at hcd; exact absurd hcd (by decide)
    · exact h
  -- head of the text after the filter, when there is no minus sign
  have hhead' : neg = false → ∀ x, (T.filter (fun c => c ≠ ' ')).head? = some x →
      x.isDigit = true := by
    intro hn x hx
    cases T with
    | nil => simp at hx
    | cons t ts =>
      have ht := hhead hn t rfl
      have : t ≠ ' ' := isDigit_ne_space t ht
      simp [List.filter_cons, this] at hx
      rw [← hx]
      exact ht
  have h3 : TrimSpace ((if neg then ['-'] else []) ++ T.filter (fun c => c ≠ ' ') ++
      ['.', e1, e2]) =
      (if neg then ['-'] else []) ++ T.filter (fun c => c ≠ ' ') ++ ['.', e1, e2] := by
    apply TrimSpace_of_ends
    · intro x hx
      cases neg
      · simp only [Bool.false_eq_true, if_false, List.nil_append, hsplit] at hx
        have hx' : (T.filter (fun c => c ≠ ' ')).head? = some x := by
          rw [hsplit]
          cases a <;> simpa using hx
        exact isSpace_of_isDigit x (hhead' rfl x hx')
      · simp at hx; subst hx; rfl
    · intro x hx
      simp at hx
      subst hx
      exact isSpace_of_isDigit _ he2
  have h4 : ReplaceAll ((if neg then ['-'] else []) ++ T.filter (fun c => c ≠ ' ') ++
      ['.', e1, e2]) ['-', ' '] ['-'] =
      (if neg then ['-'] else []) ++ T.filter (fun c => c ≠ ' ') ++ ['.', e1, e2] := by
    apply replaceAllAux_pair_of_not_mem
    simp only [List.mem_append, List.mem_cons, List.mem_singleton, List.not_mem_nil, or_false,
      not_or]
    refine ⟨⟨?_, hnsp⟩, by decide, fun h => isDigit_ne_space _ he1 h.symm,
      fun h => isDigit_ne_space _ he2 h.symm⟩
    cases neg <;> simp
  have hnone : parseUnsigned (T.filter (fun c => c ≠ ' ') ++ ['.', e1, e2]) = none := by
    rw [hsplit, List.append_assoc, List.cons_append]
    exact parseUnsigned_of_bad a _ c ha hcd (hwide c hcw).2.2.2
  unfold parseMbankAmount
  simp only [h1, h2, h3, h4]
  cases neg
  · simp only [Bool.false_eq_true, if_false, List.nil_append]
    rw [ParseFloat_of_head, hnone]
    · rfl
    · intro x hx
      have hx' : (T.filter (fun c => c ≠ ' ')).head? = some x := by
        rw [hsplit] at hx ⊢
        cases a <;> simpa using hx
      have := hhead' rfl x hx'
      exact ⟨isDigit_ne_of_not_digit this (by decide), isDigit_ne_of_not_digit this (by decide)⟩
  · simp only [if_true, List.singleton_append, List.cons_append, List.nil_append]
    have : ParseFloat ('-' :: (T.filter (fun c => c ≠ ' ') ++ ['.', e1, e2])) =
        -(parseUnsigned (T.filter (fun c => c ≠ ' ') ++ ['.', e1, e2])).getD 0 := rfl
    rw [this, hnone]
    simp

/-! ## Lemmas on the scanners -/

theorem findAmount_suffix {text m : List Char} (h : findAmount text = some m) :
    ∃ p, text = p ++ m := by
  unfold findAmount at h
  split at h
  · rename_i d2 d1 r hrev
    have htext : text = r.reverse ++ [',', d1, d2] := by
      have := congrArg List.reverse hrev
      simpa using this
    have hr : r.reverse = (r.dropWhile (fun c => c.isDigit || reSpace c)).reverse ++
        (r.takeWhile (fun c => c.isDigit || reSpace c)).reverse := by
      rw [← List.reverse_append, List.takeWhile_append_dropWhile]
    split_ifs at h with hd
    split at h
    · rename_i r' hdrop
      rw [hdrop] at hr
      simp only [] at h
      split_ifs at h
      injection h with h
      refine ⟨r'.reverse, ?_⟩
      rw [htext, ← h, hr]
      simp
    · simp only [] at h
      split_ifs at h
      injection h with h
      refine ⟨(r.dropWhile (fun c => c.isDigit || reSpace c)).reverse, ?_⟩
      rw [htext, ← h, hr]
      simp
  · exact absurd h (by simp)

theorem isPrefixOf_false_of_length {a b : List Char} (h : b.length < a.length) :
    a.isPrefixOf b = false := by
  by_contra hc
  rw [Bool.not_eq_false, List.isPrefixOf_iff_prefix] at hc
  have := hc.length_le
  omega

theorem lastIndexAux_of_suffix (p m : List Char) :
    ∀ i, p.length ≤ i → i ≤ (p ++ m).length → lastIndexAux (p ++ m) m i = some p.length := by
  intro i
  induction i with
  | zero =>
    intro h _
    have hp : p = [] := List.length_eq_zero.1 (Nat.le_zero.1 h)
    subst hp
    unfold lastIndexAux
    simp
  | succ i ih =>
    intro h1 h2
    unfold lastIndexAux
    by_cases he : i + 1 = p.length
    · have : (p ++ m).drop (i + 1) = m := by
        rw [he]; simp
      rw [this]
      simp [he]
    · have hlen : ((p ++ m).drop (i + 1)).length < m.length := by
        rw [List.length_drop, List.length_append]
        have := List.length_append p m
        omega
      rw [isPrefixOf_false_of_length hlen]
      simp only [Bool.false_eq_true, if_false]
      exact ih (by omega) (by omega)

theorem LastIndex_of_suffix (p m : List Char) : LastIndex (p ++ m) m = some p.length := by
  unfold LastIndex
  exact lastIndexAux_of_suffix p m _ (by simp) (le_refl _)

theorem mbankLookAhead_cursor (rest : List (List Char)) (j : Nat) (fullText : List Char)
    (i : Nat) (h : i ≤ j) : i ≤ (mbankLookAhead rest j fullText i).2 := by
  induction rest generalizing j fullText i with
  | nil => exact le_refl _
  | cons l rest ih =>
    unfold mbankLookAhead
    simp only []
    split_ifs
    · exact ih (j + 1) fullText i (by omega)
    · exact le_refl _
    · exact le_refl _
    · exact le_trans h (ih (j + 1) _ j (by omega))

theorem mbankBody_spec (lines : List (List Char)) (i : Nat) (line : List Char) :
    ∃ i' found, mbankBody lines i line = some (i', found) ∧ i ≤ i' ∧
      ∀ t ∈ found, t.Amount ≠ 0 ∧ t.Currency = "KGS" ∧ t.Bank = "Mbank" := by
  unfold mbankBody
  split_ifs
  · exact ⟨i, [], rfl, le_refl _, by simp⟩
  split
  · exact ⟨i, [], rfl, le_refl _, by simp⟩
  rename_i dateStr timeStr rest _
  have hc := mbankLookAhead_cursor (lines.drop (i + 1)) (i + 1) (TrimSpace rest) i (by omega)
  simp only []
  split
  · exact ⟨_, [], rfl, hc, by simp⟩
  rename_i amountStr hfind
  split_ifs with hz
  · exact ⟨_, [], rfl, hc, by simp⟩
  obtain ⟨p, hp⟩ := findAmount_suffix hfind
  have hl := LastIndex_of_suffix p amountStr
  rw [← hp] at hl
  rw [hl]
  simp only []
  split
  · exact ⟨_, [], rfl, hc, by simp⟩
  · refine ⟨_, _, rfl, hc, ?_⟩
    intro t ht
    rw [List.mem_singleton] at ht
    subst ht
    exact ⟨hz, rfl, rfl⟩

theorem mbankLoop_succ (lines : List (List Char)) (fuel i : Nat) (acc : List Transaction) :
    mbankLoop lines (fuel + 1) i acc =
      match lines[i]? with
      | none => some acc
      | some l =>
        match mbankBody lines i (TrimSpace l) with
        | none => none
        | some (i', found) => mbankLoop lines fuel (i' + 1) (acc ++ found) := rfl

theorem mbankLoop_spec (lines : List (List Char)) (P : Transaction → Prop)
    (hP : ∀ i line i' found, mbankBody lines i line = some (i', found) → ∀ t ∈ found, P t) :
    ∀ fuel i acc, lines.length - i < fuel → (∀ t ∈ acc, P t) →
      ∃ r, mbankLoop lines fuel i acc = some r ∧ ∀ t ∈ r, P t := by
  intro fuel
  induction fuel with
  | zero => intro i acc h; omega
  | succ fuel ih =>
    intro i acc hf hacc
    rw [mbankLoop_succ]
    cases hl : lines[i]? with
    | none => exact ⟨acc, rfl, hacc⟩
    | some l =>
      have hi : i < lines.length := by
        by_contra hc
        rw [List.getElem?_eq_none (by omega)] at hl
        exact absurd hl (by simp)
      obtain ⟨i', found, hb, hle, _⟩ := mbankBody_spec lines i (TrimSpace l)
      simp only [hb]
      apply ih (i' + 1) (acc ++ found) (by omega)
      intro t ht
      rw [List.mem_append] at ht
      rcases ht with ht | ht
      · exact hacc t ht
      · exact hP _ _ _ _ hb t ht

/-! ## Lemmas on the Optima scanners -/

theorem skipBlank_cursor (rest : List (List Char)) (j : Nat) : j ≤ skipBlank rest j := by
  induction rest generalizing j with
  | nil => exact le_refl _
  | cons l rest ih =>
    unfold skipBlank
    split_ifs
    · exact le_trans (Nat.le_succ j) (ih (j + 1))
    · exact le_refl _

theorem optimaFindKGS_cursor (lines rest : List (List Char)) (i : Nat) :
    i ≤ (optimaFindKGS lines rest i).1 := by
  induction rest generalizing i with
  | nil => exact le_refl _
  | cons l rest ih =>
    have h1 := le_trans (Nat.le_succ i) (ih (i + 1))
    have h2 := skipBlank_cursor rest (i + 1)
    unfold optimaFindKGS
    simp only []
    split_ifs
    · exact h1
    · split
      · split_ifs
        · show i ≤ skipBlank rest (i + 1) + 1
          omega
        · exact h1
      · exact h1
    · exact h1

theorem optimaDescLoop_cursor (lines rest : List (List Char)) (i : Nat)
    (descLines : List (List Char)) : i ≤ (optimaDescLoop lines rest i descLines).1 := by
  induction rest generalizing i descLines with
  | nil => exact le_refl _
  | cons l rest ih =>
    have h2 := skipBlank_cursor rest (i + 1)
    unfold optimaDescLoop
    simp only []
    split_ifs
    · exact le_trans (Nat.le_succ i) (ih (i + 1) _)
    · have := optimaFindKGS_cursor lines (lines.drop (skipBlank rest (i + 1) + 1))
        (skipBlank rest (i + 1) + 1)
      show i ≤ (optimaFindKGS lines _ _).1
      omega
    · show i ≤ skipBlank rest (i + 1) + 1
      omega
    · exact le_trans (Nat.le_succ i) (ih (i + 1) _)
    · exact le_trans (Nat.le_succ i) (ih (i + 1) _)

theorem optimaSkipFee_cursor (rest : List (List Char)) (i : Nat) :
    i ≤ optimaSkipFee rest i := by
  induction rest generalizing i with
  | nil => exact le_refl _
  | cons l rest ih =>
    unfold optimaSkipFee
    split_ifs
    · exact le_trans (Nat.le_succ i) (ih (i + 1))
    · exact le_refl _

theorem optimaBody_spec (lines : List (List Char)) (i : Nat) (line : List Char)
    (r : Nat × List Transaction) (h : optimaBody lines i line = some r) :
    i < r.1 ∧ ∀ t ∈ r.2, t.Currency = "KGS" ∧ t.Bank = "Optima Bank" := by
  have hd := optimaDescLoop_cursor lines (lines.drop (i + 2)) (i + 2) []
  have hf := optimaSkipFee_cursor
    (lines.drop (optimaDescLoop lines (lines.drop (i + 2)) (i + 2) []).1)
    (optimaDescLoop lines (lines.drop (i + 2)) (i + 2) []).1
  unfold optimaBody at h
  by_cases h1 : optimaDateMatch line = true
  swap
  · rw [if_pos h1] at h
    injection h with h; subst h; exact ⟨Nat.lt_succ_self i, by simp⟩
  rw [if_neg (not_not.2 h1)] at h
  simp only [] at h
  cases hl : lines[i + 1]? with
  | none => rw [hl] at h; exact absurd h (by simp)
  | some l1 =>
    rw [hl] at h
    simp only [] at h
    by_cases h2 : optimaTimeMatch (TrimSpace l1) = true
    swap
    · rw [if_pos h2] at h
      injection h with h; subst h; exact ⟨Nat.lt_succ_self i, by simp⟩
    rw [if_neg (not_not.2 h2)] at h
    split at h
    · injection h with h; subst h; exact ⟨by show i < _; omega, by simp⟩
    split at h
    · injection h with h; subst h; exact ⟨by show i < _; omega, by simp⟩
    · injection h with h
      subst h
      refine ⟨by show i < _; omega, ?_⟩
      intro t ht
      rw [List.mem_singleton] at ht
      subst ht
      exact ⟨rfl, rfl⟩

theorem optimaLoop_succ (lines : List (List Char)) (fuel i : Nat) (acc : List Transaction) :
    optimaLoop lines (fuel + 1) i acc =
      match lines[i]? with
      | none => some acc
      | some l =>
        match optimaBody lines i (TrimSpace l) with
        | none => some acc
        | some (i', found) => optimaLoop lines fuel i' (acc ++ found) := rfl

theorem optimaLoop_spec (lines : List (List Char)) (P : Transaction → Prop)
    (hP : ∀ i line r, optimaBody lines i line = some r → ∀ t ∈ r.2, P t) :
    ∀ fuel i acc, lines.length - i < fuel → (∀ t ∈ acc, P t) →
      ∃ r, optimaLoop lines fuel i acc = some r ∧ ∀ t ∈ r, P t := by
  intro fuel
  induction fuel with
  | zero => intro i acc h; omega
  | succ fuel ih =>
    intro i acc hf hacc
    rw [optimaLoop_succ]
    cases hl : lines[i]? with
    | none => exact ⟨acc, rfl, hacc⟩
    | some l =>
      have hi : i < lines.length := by
        by_contra hc
        rw [List.getElem?_eq_none (by omega)] at hl
        exact absurd hl (by simp)
      simp only []
      cases hb : optimaBody lines i (TrimSpace l) with
      | none => exact ⟨acc, rfl, hacc⟩
      | some r =>
        obtain ⟨hlt, _⟩ := optimaBody_spec lines i _ r hb
        obtain ⟨i', found⟩ := r
        simp only []
        apply ih i' (acc ++ found) (by simp only [] at hlt; omega)
        intro t ht
        rw [List.mem_append] at ht
        rcases ht with ht | ht
        · exact hacc t ht
        · exact hP _ _ _ hb t ht

/-! ## Lemmas on records of the Mbank parser -/

theorem dropWhile_append_of_all {p : Char → Bool} (a b : List Char)
    (ha : ∀ c ∈ a, p c = true) : (a ++ b).dropWhile p = b.dropWhile p := by
  induction a with
  | nil => rfl
  | cons x xs ih =>
    rw [List.cons_append, List.dropWhile_cons, if_pos (ha x (List.mem_cons_self _ _))]
    exact ih (fun c hc => ha c (List.mem_cons_of_mem _ hc))

theorem rdropWhile_append_of_all {p : Char → Bool} (a b : List Char)
    (hb : ∀ c ∈ b, p c = true) : (a ++ b).rdropWhile p = a.rdropWhile p := by
  unfold List.rdropWhile
  rw [List.reverse_append, dropWhile_append_of_all _ _ (fun c hc => hb c (List.mem_reverse.1 hc))]

theorem TrimSpace_append_space (p ws : List Char) (hws : ∀ c ∈ ws, isSpace c = true) :
    TrimSpace (p ++ ws) = TrimSpace p := by
  unfold TrimSpace
  by_cases hp : p.dropWhile isSpace = []
  · have hall : ∀ c ∈ p, isSpace c = true := by
      intro c hc
      by_contra hn
      have := List.dropWhile_eq_nil_iff.1 hp c hc
      exact hn this
    rw [hp, dropWhile_append_of_all p ws hall]
    have : ws.dropWhile isSpace = [] := List.dropWhile_eq_nil_iff.2 hws
    rw [this]
  · have : (p ++ ws).dropWhile isSpace = p.dropWhile isSpace ++ ws := by
      rw [List.dropWhile_append]
      simp [hp]
    rw [this, rdropWhile_append_of_all _ _ hws]

theorem matchDate_shape (d1 d2 m1 m2 y1 y2 y3 y4 : Char) (r : List Char)
    (hdig : [d1, d2, m1, m2, y1, y2, y3, y4].all Char.isDigit = true) :
    matchDate (d1 :: d2 :: '.' :: m1 :: m2 :: '.' :: y1 :: y2 :: y3 :: y4 :: r) =
      some ([d1, d2, '.', m1, m2, '.', y1, y2, y3, y4], r) := by
  unfold matchDate
  simp only []
  rw [if_pos hdig]

theorem matchClock_shape (h1 h2 n1 n2 : Char) (r : List Char)
    (hdig : [h1, h2, n1, n2].all Char.isDigit = true) :
    matchClock (h1 :: h2 :: ':' :: n1 :: n2 :: r) = some ([h1, h2, ':', n1, n2], r) := by
  unfold matchClock
  simp only []
  rw [if_pos hdig]

theorem matchDateTime_shape (d1 d2 m1 m2 y1 y2 y3 y4 h1 h2 n1 n2 : Char) (sep rest : List Char)
    (hdig : [d1, d2, m1, m2, y1, y2, y3, y4, h1, h2, n1, n2].all Char.isDigit = true)
    (hsep : sep ≠ []) (hsp : ∀ c ∈ sep, reSpace c = true) :
    matchDateTime ([d1, d2, '.', m1, m2, '.', y1, y2, y3, y4] ++ sep ++
        [h1, h2, ':', n1, n2] ++ rest) =
      some ([d1, d2, '.', m1, m2, '.', y1, y2, y3, y4], [h1, h2, ':', n1, n2], rest) := by
  have hdig' := hdig
  simp only [List.all_cons, List.all_nil, Bool.and_true, Bool.and_eq_true] at hdig'
  obtain ⟨a1, a2, a3, a4, a5, a6, a7, a8, a9, a10, a11, a12⟩ := hdig'
  have hstop : ∀ c, (h1 :: h2 :: ':' :: n1 :: n2 :: rest).head? = some c →
      reSpace c = false := by
    intro c hc
    simp at hc
    subst hc
    exact reSpace_of_isDigit _ a9
  obtain ⟨ht, hd⟩ := takeWhile_append_stop hsp hstop
  have e : [d1, d2, '.', m1, m2, '.', y1, y2, y3, y4] ++ sep ++ [h1, h2, ':', n1, n2] ++ rest =
      d1 :: d2 :: '.' :: m1 :: m2 :: '.' :: y1 :: y2 :: y3 :: y4 ::
        (sep ++ h1 :: h2 :: ':' :: n1 :: n2 :: rest) := by
    simp
  rw [e]
  unfold matchDateTime
  rw [matchDate_shape _ _ _ _ _ _ _ _ _ (by simp [a1, a2, a3, a4, a5, a6, a7, a8])]
  simp only [ht, hd, hsep, if_false]
  rw [matchClock_shape _ _ _ _ _ (by simp [a9, a10, a11, a12])]

theorem timeParse_shape (d1 d2 m1 m2 y1 y2 y3 y4 h1 h2 n1 n2 : Char)
    (hdig : [d1, d2, m1, m2, y1, y2, y3, y4, h1, h2, n1, n2].all Char.isDigit = true) :
    timeParse ([d1, d2, '.', m1, m2, '.', y1, y2, y3, y4] ++ ' ' :: [h1, h2, ':', n1, n2]) =
      dateTimeOf (digitsValue [y1, y2, y3, y4]) (digitsValue [m1, m2]) (digitsValue [d1, d2])
        (digitsValue [h1, h2]) (digitsValue [n1, n2]) := by
  unfold timeParse
  simp only [List.cons_append, List.nil_append]
  rw [if_pos hdig]

theorem dateTimeOf_valid (year month day hour minute : Nat)
    (h : 1 ≤ month ∧ month ≤ 12 ∧ 1 ≤ day ∧ day ≤ daysIn month year ∧ hour < 24 ∧ minute < 60) :
    dateTimeOf year month day hour minute = some (dateTimeOfFields year month day hour minute) := by
  unfold dateTimeOf dateTimeOfFields
  rw [if_pos h]

theorem findAmount_token (front run : List Char) (neg : Bool) (e1 e2 : Char)
    (hrun : run ≠ []) (hall : ∀ c ∈ run, (c.isDigit || reSpace c) = true)
    (he1 : e1.isDigit = true) (he2 : e2.isDigit = true)
    (hbound : neg = false → ∀ c, front.getLast? = some c →
      (c.isDigit || reSpace c) = false ∧ c ≠ '-') :
    findAmount (front ++ (if neg then ['-'] else []) ++ run ++ [',', e1, e2]) =
      some ((if neg then ['-'] else []) ++ run ++ [',', e1, e2]) := by
  have hrev : (front ++ (if neg then ['-'] else []) ++ run ++ [',', e1, e2]).reverse =
      e2 :: e1 :: ',' :: (run.reverse ++ ((if neg then ['-'] else []) ++ front.reverse)) := by
    cases neg <;> simp
  have hstop : ∀ c, ((if neg then ['-'] else []) ++ front.reverse).head? = some c →
      (c.isDigit || reSpace c) = false := by
    intro c hc
    cases neg
    · simp only [Bool.false_eq_true, if_false, List.nil_append, List.head?_reverse] at hc
      exact (hbound rfl c hc).1
    · simp at hc
      subst hc
      rfl
  obtain ⟨ht, hd⟩ := takeWhile_append_stop (p := fun c => c.isDigit || reSpace c)
    (a := run.reverse) (fun c hc => hall c (List.mem_reverse.1 hc)) hstop
  have hrn : run.reverse ≠ [] := fun h => hrun (List.reverse_eq_nil_iff.1 h)
  unfold findAmount
  rw [hrev]
  simp only [he1, he2, Bool.and_self, if_true, ht, hd, hrn, if_false, List.reverse_reverse]
  cases neg
  · simp only [Bool.false_eq_true, if_false, List.nil_append]
    split
    · rename_i tl heq
      have : front.getLast? = some '-' := by
        rw [← List.head?_reverse, heq]
        rfl
      exact absurd rfl (hbound rfl _ this).2
    · rfl
  · simp

theorem mbank_token (pre0 ws : List Char) (neg sp : Bool) (g : List Char)
    (gs : List (Char × List Char)) (e1 e2 : Char)
    (hws : ∀ c ∈ ws, reSpace c = true)
    (hpre : neg = false → ∀ c, pre0.getLast? = some c →
      c.isDigit = false ∧ reSpace c = false ∧ c ≠ '-')
    (hg : ∀ c ∈ g, c.isDigit = true) (hne : g ≠ [])
    (hgs : ∀ p ∈ gs, p.1 = ' ' ∧ ∀ c ∈ p.2, c.isDigit = true)
    (he1 : e1.isDigit = true) (he2 : e2.isDigit = true) :
    ∃ front amountStr,
      pre0 ++ ws ++ signText neg (if sp then some ' ' else none) ++ groupsText g gs ++
        [',', e1, e2] = front ++ amountStr ∧
      findAmount (front ++ amountStr) = some amountStr ∧
      parseMbankAmount amountStr = decimalValue neg (groupsDigits g gs) [e1, e2] ∧
      TrimSpace front = TrimSpace (pre0 ++ ws) := by
  have hB : ∀ c ∈ groupsText g gs, c.isDigit = true ∨ c = ' ' := by
    intro c hc
    unfold groupsText at hc
    rw [List.mem_append, List.mem_flatMap] at hc
    rcases hc with hc | ⟨p, hp, hc⟩
    · exact Or.inl (hg c hc)
    · rw [List.mem_cons] at hc
      rcases hc with hc | hc
      · exact Or.inr (hc ▸ (hgs p hp).1)
      · exact Or.inl ((hgs p hp).2 c hc)
  have hB' : ∀ c ∈ groupsText g gs, (c.isDigit || reSpace c) = true := by
    intro c hc
    rcases hB c hc with h | h
    · rw [h]; rfl
    · subst h; rfl
  have hgt : groupsText g gs ≠ [] := by
    unfold groupsText
    intro h
    exact hne (List.append_eq_nil.1 h).1
  have hfd : (groupsText g gs).filter Char.isDigit = groupsDigits g gs :=
    filter_digit_groupsText g gs hg (fun p hp => ⟨by rw [(hgs p hp).1]; rfl, (hgs p hp).2⟩)
  cases neg with
  | false =>
    refine ⟨pre0, ws ++ groupsText g gs ++ [',', e1, e2], ?_, ?_, ?_, ?_⟩
    · simp [signText]
    · have key := findAmount_token pre0 (ws ++ groupsText g gs) false e1 e2
        (by intro h; exact hgt (List.append_eq_nil.1 h).2)
        (by
          intro c hc
          rw [List.mem_append] at hc
          rcases hc with hc | hc
          · rw [hws c hc]; simp
          · exact hB' c hc)
        he1 he2
        (by
          intro _ c hc
          obtain ⟨a, b, d⟩ := hpre rfl c hc
          exact ⟨by rw [a, b]; rfl, d⟩)
      simpa using key
    · have key := parseMbankAmount_value false ws (groupsText g gs) e1 e2 hB hws
        (by intro h; cases h) he1 he2
      rw [hfd] at key
      simpa using key
    · exact (TrimSpace_append_space pre0 ws (fun c hc => isSpace_of_reSpace c (hws c hc))).symm
  | true =>
    refine ⟨pre0 ++ ws, '-' :: ((if sp then [' '] else []) ++ groupsText g gs ++ [',', e1, e2]),
      ?_, ?_, ?_, rfl⟩
    · cases sp <;> simp [signText]
    · have key := findAmount_token (pre0 ++ ws) ((if sp then [' '] else []) ++ groupsText g gs)
        true e1 e2
        (by intro h; exact hgt (List.append_eq_nil.1 h).2)
        (by
          intro c hc
          rw [List.mem_append] at hc
          rcases hc with hc | hc
          · cases sp <;> simp at hc
            subst hc; rfl
          · exact hB' c hc)
        he1 he2 (by intro h; cases h)
      simpa using key
    · have key := parseMbankAmount_value true (if sp then [' '] else []) (groupsText g gs) e1 e2
        hB (by intro c hc; cases sp <;> simp at hc; subst hc; rfl)
        (by intro _ c hc; cases sp <;> simp at hc; exact hc) he1 he2
      rw [hfd] at key
      simpa using key

theorem mbankLookAhead_cons (l : List Char) (rest : List (List Char)) (j : Nat)
    (fullText : List Char) (i : Nat) :
    mbankLookAhead (l :: rest) j fullText i =
      if TrimSpace l = [] then mbankLookAhead rest (j + 1) fullText i
      else if (matchDateTime (TrimSpace l)).isSome then (fullText, i)
      else if mbankIsFooter (TrimSpace l) then (fullText, i)
      else mbankLookAhead rest (j + 1) (fullText ++ ' ' :: TrimSpace l) j := rfl

theorem mbankLookAhead_conts (conts : List (List Char)) (j : Nat) (ft : List Char) (i : Nat)
    (h : ∀ l ∈ conts, TrimSpace l ≠ [] ∧ matchDateTime (TrimSpace l) = none ∧
      mbankIsFooter (TrimSpace l) = false) :
    mbankLookAhead conts j ft i =
      (ft ++ conts.flatMap (fun c => ' ' :: TrimSpace c),
        if conts = [] then i else j + conts.length - 1) := by
  induction conts generalizing j ft i with
  | nil => simp [mbankLookAhead]
  | cons l rest ih =>
    obtain ⟨h1, h2, h3⟩ := h l (List.mem_cons_self _ _)
    rw [mbankLookAhead_cons, if_neg h1, h2, h3]
    simp only [Option.isSome_none, Bool.false_eq_true, if_false]
    rw [ih _ _ _ (fun l hl => h l (List.mem_cons_of_mem _ hl))]
    simp only [List.flatMap_cons, List.append_assoc, List.length_cons, List.cons_ne_nil, if_false,
      Prod.mk.injEq, true_and]
    split_ifs with hr
    · subst hr; simp
    · have : 0 < rest.length := List.length_pos.2 hr
      omega

theorem matchDateTime_nil : matchDateTime [] = none := rfl

theorem mbankBody_no_date (lines : List (List Char)) (i : Nat) (line : List Char)
    (h : matchDateTime line = none) : mbankBody lines i line = some (i, []) := by
  unfold mbankBody
  rw [h]
  split_ifs <;> rfl

theorem mbankLookAhead_stop (ls : List (List Char)) (j : Nat) (ft : List Char) (i : Nat)
    (h : ∀ l, ls.head? = some l → (matchDateTime (TrimSpace l)).isSome = true) :
    mbankLookAhead ls j ft i = (ft, i) := by
  cases ls with
  | nil => rfl
  | cons l rest =>
    have hd := h l rfl
    have hne : TrimSpace l ≠ [] := by
      intro he
      rw [he, matchDateTime_nil] at hd
      cases hd
    rw [mbankLookAhead_cons, if_neg hne, if_pos hd]

theorem mbankBody_record (lines : List (List Char)) (i : Nat)
    (d1 d2 m1 m2 y1 y2 y3 y4 h1 h2 n1 n2 : Char) (sep rest front amountStr : List Char)
    (hdig : [d1, d2, m1, m2, y1, y2, y3, y4, h1, h2, n1, n2].all Char.isDigit = true)
    (hsep : sep ≠ []) (hsp : ∀ c ∈ sep, reSpace c = true)
    (hvalid : 1 ≤ digitsValue [m1, m2] ∧ digitsValue [m1, m2] ≤ 12 ∧ 1 ≤ digitsValue [d1, d2] ∧
      digitsValue [d1, d2] ≤ daysIn (digitsValue [m1, m2]) (digitsValue [y1, y2, y3, y4]) ∧
      digitsValue [h1, h2] < 24 ∧ digitsValue [n1, n2] < 60)
    (hboil : mbankIsBoilerplate ([d1, d2, '.', m1, m2, '.', y1, y2, y3, y4] ++ sep ++
      [h1, h2, ':', n1, n2] ++ rest) = false)
    (hft : (mbankLookAhead (lines.drop (i + 1)) (i + 1) (TrimSpace rest) i).1 =
      front ++ amountStr)
    (hfind : findAmount (front ++ amountStr) = some amountStr)
    (hnz : parseMbankAmount amountStr ≠ 0) :
    mbankBody lines i ([d1, d2, '.', m1, m2, '.', y1, y2, y3, y4] ++ sep ++
        [h1, h2, ':', n1, n2] ++ rest) =
      some ((mbankLookAhead (lines.drop (i + 1)) (i + 1) (TrimSpace rest) i).2,
        [⟨dateTimeOfFields (digitsValue [y1, y2, y3, y4]) (digitsValue [m1, m2])
            (digitsValue [d1, d2]) (digitsValue [h1, h2]) (digitsValue [n1, n2]),
          String.mk (TrimSpace front), parseMbankAmount amountStr, "KGS", MbankParser.BankName,
          String.mk ([d1, d2, '.', m1, m2, '.', y1, y2, y3, y4] ++ sep ++
            [h1, h2, ':', n1, n2] ++ rest)⟩]) := by
  unfold mbankBody
  rw [hboil, matchDateTime_shape d1 d2 m1 m2 y1 y2 y3 y4 h1 h2 n1 n2 sep rest hdig hsep hsp]
  simp only [Bool.false_eq_true, if_false]
  rw [hft, hfind]
  simp only [if_neg hnz]
  rw [LastIndex_of_suffix]
  simp only [List.take_left]
  rw [timeParse_shape _ _ _ _ _ _ _ _ _ _ _ _ hdig, dateTimeOf_valid _ _ _ _ _ hvalid]

theorem mbankLoop_done (lines : List (List Char)) (fuel i : Nat) (acc : List Transaction)
    (h : lines[i]? = none) : mbankLoop lines (fuel + 1) i acc = some acc := by
  rw [mbankLoop_succ, h]

theorem mbankLoop_step (lines : List (List Char)) (fuel i : Nat) (acc : List Transaction)
    (l : List Char) (i' : Nat) (found : List Transaction) (h : lines[i]? = some l)
    (hb : mbankBody lines i (TrimSpace l) = some (i', found)) :
    mbankLoop lines (fuel + 1) i acc = mbankLoop lines fuel (i' + 1) (acc ++ found) := by
  rw [mbankLoop_succ, h]
  simp only []
  rw [hb]

theorem mbankLoop_skip (lines : List (List Char)) :
    ∀ (k i fuel : Nat) (acc : List Transaction),
      (∀ m, i ≤ m → m < i + k →
        ∃ l, lines[m]? = some l ∧ matchDateTime (TrimSpace l) = none) →
      mbankLoop lines (fuel + k) i acc = mbankLoop lines fuel (i + k) acc := by
  intro k
  induction k with
  | zero => intro i fuel acc _; rfl
  | succ k ih =>
    intro i fuel acc h
    obtain ⟨l, hl, hm⟩ := h i (le_refl _) (by omega)
    have e : fuel + (k + 1) = (fuel + k) + 1 := by omega
    rw [e, mbankLoop_step lines (fuel + k) i acc l i [] hl (mbankBody_no_date lines i _ hm),
      List.append_nil, ih (i + 1) fuel acc (fun m h1 h2 => h m (by omega) (by omega))]
    congr 1
    omega

theorem mbankLookAhead_bound (n : Nat) :
    ∀ (ls : List (List Char)) (j : Nat) (ft : List Char) (i : Nat),
      (∀ m l, ls[m]? = some l → j + m = n → (matchDateTime (TrimSpace l)).isSome = true) →
      i < n → j ≤ n → (mbankLookAhead ls j ft i).2 < n := by
  intro ls
  induction ls with
  | nil => intro j ft i _ hi _; exact hi
  | cons l rest ih =>
    intro j ft i h hi hj
    rw [mbankLookAhead_cons]
    have hrest : ∀ m l', rest[m]? = some l' → j + 1 + m = n →
        (matchDateTime (TrimSpace l')).isSome = true := by
      intro m l' hm hn
      exact h (m + 1) l' (by simpa using hm) (by omega)
    by_cases hjn : j = n
    · have hd := h 0 l (by simp) (by omega)
      have hne : TrimSpace l ≠ [] := by
        intro he
        rw [he, matchDateTime_nil] at hd
        cases hd
      rw [if_neg hne, if_pos hd]
      exact hi
    · split_ifs
      · exact ih (j + 1) ft i hrest hi (by omega)
      · exact hi
      · exact hi
      · exact ih (j + 1) _ j hrest (by omega) (by omega)

theorem mbankBody_bound (lines : List (List Char)) (n i : Nat) (line ln : List Char)
    (i' : Nat) (found : List Transaction)
    (hn : lines[n]? = some ln) (hd : (matchDateTime (TrimSpace ln)).isSome = true)
    (hi : i < n) (hb : mbankBody lines i line = some (i', found)) : i' < n := by
  have hbound : ∀ ft, (mbankLookAhead (lines.drop (i + 1)) (i + 1) ft i).2 < n := by
    intro ft
    apply mbankLookAhead_bound n _ _ _ _ _ hi (by omega)
    intro m l hm hmn
    rw [List.getElem?_drop, hmn, hn] at hm
    injection hm with hm
    rw [← hm]
    exact hd
  unfold mbankBody at hb
  split_ifs at hb
  · injection hb with hb
    injection hb with hb
    omega
  split at hb
  · injection hb with hb
    injection hb with hb
    omega
  rename_i dateStr timeStr rest _
  simp only [] at hb
  split at hb
  · injection hb with hb
    injection hb with hb
    rw [← hb]
    exact hbound _
  rename_i amountStr hfind
  split_ifs at hb with hz
  · injection hb with hb
    injection hb with hb
    rw [← hb]
    exact hbound _
  obtain ⟨p, hp⟩ := findAmount_suffix hfind
  have hl := LastIndex_of_suffix p amountStr
  rw [← hp] at hl
  rw [hl] at hb
  simp only [] at hb
  split at hb <;>
  · injection hb with hb
    injection hb with hb
    rw [← hb]
    exact hbound _

theorem mbankLoop_prefix (lines : List (List Char)) :
    ∀ (fuel i : Nat) (acc : List Transaction), lines.length - i < fuel →
      ∃ r, mbankLoop lines fuel i acc = some (acc ++ r) := by
  intro fuel
  induction fuel with
  | zero => intro i acc h; omega
  | succ fuel ih =>
    intro i acc hf
    cases hl : lines[i]? with
    | none => exact ⟨[], by rw [mbankLoop_done lines fuel i acc hl, List.append_nil]⟩
    | some l =>
      obtain ⟨i', found, hb, hle, _⟩ := mbankBody_spec lines i (TrimSpace l)
      have hlt : i < lines.length := by
        by_contra hge
        rw [List.getElem?_eq_none (by omega)] at hl
        cases hl
      obtain ⟨r, hr⟩ := ih (i' + 1) (acc ++ found) (by omega)
      exact ⟨found ++ r, by rw [mbankLoop_step lines fuel i acc l i' found hl hb, hr,
        List.append_assoc]⟩

theorem mbankLoop_reach (lines : List (List Char)) (n : Nat) (ln : List Char)
    (hn : lines[n]? = some ln) (hd : (matchDateTime (TrimSpace ln)).isSome = true) :
    ∀ (fuel i : Nat) (acc : List Transaction), i ≤ n → lines.length - i < fuel →
      ∃ fuel' acc', lines.length - n < fuel' ∧ (∃ r, acc' = acc ++ r) ∧
        mbankLoop lines fuel i acc = mbankLoop lines fuel' n acc' := by
  intro fuel
  induction fuel with
  | zero => intro i acc _ h; omega
  | succ fuel ih =>
    intro i acc hi hf
    by_cases hin : i = n
    · subst hin
      exact ⟨fuel + 1, acc, hf, ⟨[], (List.append_nil _).symm⟩, rfl⟩
    · have hlt : i < n := by omega
      have hnl : n < lines.length := by
        by_contra hge
        rw [List.getElem?_eq_none (by omega)] at hn
        cases hn
      have hil : i < lines.length := by omega
      obtain ⟨i', found, hb, hle, _⟩ := mbankBody_spec lines i (TrimSpace (lines[i]))
      have hi' := mbankBody_bound lines n i _ ln i' found hn hd hlt hb
      obtain ⟨fuel', acc', h1, ⟨r, h2⟩, h3⟩ := ih (i' + 1) (acc ++ found) (by omega) (by omega)
      refine ⟨fuel', acc', h1, ⟨found ++ r, by rw [h2, List.append_assoc]⟩, ?_⟩
      rw [mbankLoop_step lines fuel i acc (lines[i]) i' found (List.getElem?_eq_getElem hil) hb,
        h3]

theorem startsWith_of_head (d : Char) (tl p : List Char) (c : Char) (ptl : List Char)
    (hp : p = c :: ptl) (hc : c ≠ d) : startsWith (d :: tl) p = false := by
  subst hp
  unfold startsWith
  simp [List.isPrefixOf, hc]

theorem mbankIsBoilerplate_of_digit (d : Char) (tl : List Char) (hd : d.isDigit = true) :
    mbankIsBoilerplate (d :: tl) =
      (Contains (d :: tl) "РАСУЛОВ".data || Contains (d :: tl) "KGS KGS".data) := by
  have hne : ∀ c : Char, c.isDigit = false → c ≠ d := by
    intro c hc h
    rw [h, hd] at hc
    cases hc
  have hs : ∀ (p : List Char) (c : Char) (ptl : List Char), p = c :: ptl → c.isDigit = false →
      startsWith (d :: tl) p = false :=
    fun p c ptl hp hc => startsWith_of_head d tl p c ptl hp (hne c hc)
  have he : ∀ (p : List Char) (c : Char) (ptl : List Char), p = c :: ptl → c.isDigit = false →
      decide (d :: tl = p) = false := by
    intro p c ptl hp hc
    subst hp
    simp only [decide_eq_false_iff_not]
    intro h
    injection h with h1 _
    exact hne c hc h1.symm
  unfold mbankIsBoilerplate
  repeat rw [hs _ _ _ rfl (by decide)]
  repeat rw [he _ _ _ rfl (by decide)]
  simp

theorem Parse_mbank_spec (content : String) (P : Transaction → Prop)
    (hP : ∀ lines i line i' found, mbankBody lines i line = some (i', found) →
      ∀ t ∈ found, P t) :
    ∃ ts, MbankParser.Parse content = some (ts, none) ∧ ∀ t ∈ ts, P t := by
  obtain ⟨r, hr, hall⟩ := mbankLoop_spec (Split content.data) P (hP _)
    ((Split content.data).length + 1) 0 [] (by omega) (by simp)
  refine ⟨r, ?_, hall⟩
  unfold MbankParser.Parse
  simp only [hr, Option.map_some']

theorem Parse_optima_spec (content : String) (P : Transaction → Prop)
    (hP : ∀ lines i line r, optimaBody lines i line = some r → ∀ t ∈ r.2, P t) :
    ∃ ts, OptimaParser.Parse content = some (ts, none) ∧ ∀ t ∈ ts, P t := by
  obtain ⟨r, hr, hall⟩ := optimaLoop_spec (Split (normalizeSpaces content.data)) P (hP _)
    ((Split (normalizeSpaces content.data)).length + 1) 0 [] (by omega) (by simp)
  refine ⟨r, ?_, hall⟩
  unfold OptimaParser.Parse
  simp only [hr, Option.map_some']

/-! ## The claims on the parsers -/

/-- The routine `parseMbankAmount` strips ordinary spaces only: for every amount
string of the Variant A shape in which one or more of the space separators is
U+00A0, U+2007 or U+202F instead of an ordinary space, the numeral is malformed
and the result is 0. -/
theorem parseMbankAmount_special_spaces (neg : Bool) (after : Option Char)
    (g : List Char) (gs : List (Char × List Char)) (e1 e2 : Char)
    (hne : g ≠ []) (hg : ∀ c ∈ g, c.isDigit = true)
    (hgs : ∀ p ∈ gs, (p.1 = ' ' ∨ p.1 = '\u00a0' ∨ p.1 = '\u2007' ∨ p.1 = '\u202f') ∧
      ∀ c ∈ p.2, c.isDigit = true)
    (hafter : ∀ c ∈ after, c = ' ' ∨ c = '\u00a0' ∨ c = '\u2007' ∨ c = '\u202f')
    (hw : ∃ c ∈ signText neg after ++ groupsText g gs,
      c = '\u00a0' ∨ c = '\u2007' ∨ c = '\u202f')
    (he1 : e1.isDigit = true) (he2 : e2.isDigit = true) :
    parseMbankAmount (signText neg after ++ groupsText g gs ++ [',', e1, e2]) = 0 ∧
    parseMbankAmount "1\u00a0018,00".data = 0 ∧
    parseMbankAmount "1 018,00".data = 1018 := by
  refine ⟨?_, by decide!, by decide!⟩
  have hsplit : signText neg after ++ groupsText g gs =
      (if neg then ['-'] else []) ++ ((if neg then after.toList else []) ++ groupsText g gs) := by
    unfold signText
    cases neg <;> simp
  have hGT : ∀ c ∈ groupsText g gs,
      c.isDigit = true ∨ c = ' ' ∨ c = '\u00a0' ∨ c = '\u2007' ∨ c = '\u202f' := by
    intro c hc
    unfold groupsText at hc
    rw [List.mem_append, List.mem_flatMap] at hc
    rcases hc with hc | ⟨p, hp, hc⟩
    · exact Or.inl (hg c hc)
    · rw [List.mem_cons] at hc
      rcases hc with hc | hc
      · exact Or.inr (hc ▸ (hgs p hp).1)
      · exact Or.inl ((hgs p hp).2 c hc)
  have hT : ∀ c ∈ (if neg then after.toList else []) ++ groupsText g gs,
      c.isDigit = true ∨ c = ' ' ∨ c = '\u00a0' ∨ c = '\u2007' ∨ c = '\u202f' := by
    intro c hc
    rw [List.mem_append] at hc
    rcases hc with hc | hc
    · cases neg
      · simp at hc
      · simp only [if_true, Option.mem_toList] at hc
        exact Or.inr (hafter c hc)
    · exact hGT c hc
  have hw' : ∃ c ∈ (if neg then after.toList else []) ++ groupsText g gs,
      c = '\u00a0' ∨ c = '\u2007' ∨ c = '\u202f' := by
    obtain ⟨c, hc, hcw⟩ := hw
    rw [hsplit, List.mem_append] at hc
    rcases hc with hc | hc
    · cases neg
      · simp at hc
      · simp only [if_true, List.mem_singleton] at hc
        subst hc
        rcases hcw with h | h | h <;> exact absurd h (by decide)
    · exact ⟨c, hc, hcw⟩
  have hhead : neg = false → ∀ c, ((if neg then after.toList else []) ++
      groupsText g gs).head? = some c → c.isDigit = true := by
    intro hn c hc
    subst hn
    unfold groupsText at hc
    cases g with
    | nil => exact absurd rfl hne
    | cons d ds =>
      simp at hc
      subst hc
      exact hg _ (List.mem_cons_self _ _)
  rw [hsplit]
  exact parseMbankAmount_zero neg _ e1 e2 hT hw' hhead he1 he2

/-- C14: `normalizeSpaces` replaces each occurrence of U+00A0, U+2007 and U+202F
by exactly one ordinary space and leaves every other character unchanged; the
character count is preserved, the result contains none of the three
characters, and the function is idempotent; `"1\u00a0000\u2007500\u202f00"`
becomes `"1 000 500 00"`. -/
theorem C14_normalizeSpaces (s : List Char) :
    normalizeSpaces s = s.map normChar ∧
    (normalizeSpaces s).length = s.length ∧
    (∀ c ∈ normalizeSpaces s, c ≠ '\u00a0' ∧ c ≠ '\u2007' ∧ c ≠ '\u202f') ∧
    normalizeSpaces (normalizeSpaces s) = normalizeSpaces s ∧
    normalizeSpaces "1\u00a0000\u2007500\u202f00".data = "1 000 500 00".data := by
  have hfix : ∀ c : Char, c ≠ '\u00a0' ∧ c ≠ '\u2007' ∧ c ≠ '\u202f' → normChar c = c := by
    intro c hc
    unfold normChar
    rw [if_neg]
    rintro (h | h | h)
    · exact hc.1 h
    · exact hc.2.1 h
    · exact hc.2.2 h
  have hout : ∀ c : Char, normChar c ≠ '\u00a0' ∧ normChar c ≠ '\u2007' ∧
      normChar c ≠ '\u202f' := by
    intro c
    unfold normChar
    split_ifs with h
    · decide
    · push_neg at h
      exact h
  refine ⟨normalizeSpaces_eq_map s, ?_, ?_, ?_, by decide!⟩
  · rw [normalizeSpaces_eq_map, List.length_map]
  · intro c hc
    rw [normalizeSpaces_eq_map, List.mem_map] at hc
    obtain ⟨x, _, rfl⟩ := hc
    exact hout x
  · rw [normalizeSpaces_eq_map, normalizeSpaces_eq_map, List.map_map]
    apply List.map_congr_left
    intro c _
    exact hfix _ (hout c)

/-- C15: detection is a literal substring test: `MbankParser.CanParse` holds
exactly when the text contains `"mbank.kg"`, `"Mbank"` or `"МБАНК"`, and
`OptimaParser.CanParse` exactly when it contains `"Optima Bank"`, `"OptimaBank"` or
`"optimabank.kg"`; both are false on the empty string. -/
theorem C15_canParse_substring (text : String) :
    (MbankParser.CanParse text = true ↔
      ("mbank.kg".data <:+: text.data ∨ "Mbank".data <:+: text.data ∨
        "МБАНК".data <:+: text.data)) ∧
    (OptimaParser.CanParse text = true ↔
      ("Optima Bank".data <:+: text.data ∨ "OptimaBank".data <:+: text.data ∨
        "optimabank.kg".data <:+: text.data)) ∧
    MbankParser.CanParse "" = false ∧ OptimaParser.CanParse "" = false := by
  refine ⟨?_, ?_, by decide, by decide⟩
  · unfold MbankParser.CanParse
    simp only [Bool.or_eq_true, Contains_iff, or_assoc]
  · unfold OptimaParser.CanParse
    simp only [Bool.or_eq_true, Contains_iff, or_assoc]

/-- C16: parsing never fails: for every input, `MbankParser.Parse` and
`OptimaParser.Parse` return a list of transactions together with a nil error;
the empty string yields the empty list. -/
theorem C16_parse_never_fails (content : String) :
    (∃ ts, MbankParser.Parse content = some (ts, none)) ∧
    (∃ ts, OptimaParser.Parse content = some (ts, none)) ∧
    MbankParser.Parse "" = some ([], none) ∧
    OptimaParser.Parse "" = some ([], none) := by
  refine ⟨?_, ?_, by decide!, by decide!⟩
  · obtain ⟨ts, h, _⟩ := Parse_mbank_spec content (fun _ => True) (by intros; trivial)
    exact ⟨ts, h⟩
  · obtain ⟨ts, h, _⟩ := Parse_optima_spec content (fun _ => True) (by intros; trivial)
    exact ⟨ts, h⟩

/-- Zero-amount records are dropped by the Mbank parser: for every input text,
`MbankParser.Parse` returns, and no transaction it returns has amount zero. -/
theorem mbank_drops_zero_amounts (content : String) :
    ∃ ts, MbankParser.Parse content = some (ts, none) ∧ ∀ t ∈ ts, t.Amount ≠ 0 := by
  refine Parse_mbank_spec content (fun t => t.Amount ≠ 0) ?_
  intro lines i line i' found hb t ht
  obtain ⟨i'', found', hb', _, hall⟩ := mbankBody_spec lines i line
  rw [hb] at hb'
  injection hb' with hb'
  injection hb' with _ h2
  subst h2
  exact (hall t ht).1

/-- Counterexample to C18 as stated: in `"Order 12 500,00"` the token `500,00` is
a non-zero amount token preceded by text (`"Order 12 "`) that does not end in a
digit, yet the parser reads the amount 12500 and the description `"Order"`: the
amount pattern extends leftwards over digits and white space. -/
theorem C18_counterexample :
    MbankParser.Parse "24.12.2025 10:00 Order 12 500,00" =
      some ([⟨dateTimeOfFields 2025 12 24 10 0, "Order", 12500, "KGS", "Mbank",
        "24.12.2025 10:00 Order 12 500,00"⟩], none) ∧
    mbankIsBoilerplate "24.12.2025 10:00 Order 12 500,00".data = false ∧
    "Order 12 500,00".data = "Order 12 ".data ++ "500,00".data ∧
    parseMbankAmount "500,00".data = 500 ∧
    ("Order 12 ".data.getLast?.map Char.isDigit) = some false := by
  decide!

/-- C18 (amended): Variant A record extraction. The text consists of lines without
a date-time prefix, then one line `DD.MM.YYYY HH:MM r0` with a valid date and time
that the boilerplate list does not match, then continuation lines that are not
blank and start with neither a date-time prefix nor a footer prefix of the
look-ahead. The combined text ends in an amount token: an optional minus sign
(optionally followed by one space), digit groups separated by single spaces, a
comma and two digits, of non-zero value. If the token has no minus sign, the text
before it, trailing white space apart, is empty or ends in a character that is
neither a digit, nor white space, nor a minus sign. Then `MbankParser.Parse`
returns exactly one transaction: its timestamp is that date and minute, its
amount the value of the token, its description the combined text before the
token with surrounding white space trimmed, its raw line the trimmed date line. -/
theorem C18_mbank_record_extraction (content : String) (pres conts : List (List Char))
    (dateLine : List Char) (d1 d2 m1 m2 y1 y2 y3 y4 h1 h2 n1 n2 : Char)
    (sep rest pre0 ws : List Char) (neg sp : Bool) (g : List Char)
    (gs : List (Char × List Char)) (e1 e2 : Char)
    (hlines : Split content.data = pres ++ dateLine :: conts)
    (hpres : ∀ l ∈ pres, matchDateTime (TrimSpace l) = none)
    (hline : TrimSpace dateLine = [d1, d2, '.', m1, m2, '.', y1, y2, y3, y4] ++ sep ++
      [h1, h2, ':', n1, n2] ++ rest)
    (hdig : [d1, d2, m1, m2, y1, y2, y3, y4, h1, h2, n1, n2].all Char.isDigit = true)
    (hsep : sep ≠ []) (hsp : ∀ c ∈ sep, reSpace c = true)
    (hvalid : 1 ≤ digitsValue [m1, m2] ∧ digitsValue [m1, m2] ≤ 12 ∧ 1 ≤ digitsValue [d1, d2] ∧
      digitsValue [d1, d2] ≤ daysIn (digitsValue [m1, m2]) (digitsValue [y1, y2, y3, y4]) ∧
      digitsValue [h1, h2] < 24 ∧ digitsValue [n1, n2] < 60)
    (hboil : mbankIsBoilerplate (TrimSpace dateLine) = false)
    (hconts : ∀ l ∈ conts, TrimSpace l ≠ [] ∧ matchDateTime (TrimSpace l) = none ∧
      mbankIsFooter (TrimSpace l) = false)
    (htext : TrimSpace rest ++ conts.flatMap (fun c => ' ' :: TrimSpace c) =
      pre0 ++ ws ++ signText neg (if sp then some ' ' else none) ++ groupsText g gs ++
        [',', e1, e2])
    (hws : ∀ c ∈ ws, reSpace c = true)
    (hpre : neg = false → ∀ c, pre0.getLast? = some c →
      c.isDigit = false ∧ reSpace c = false ∧ c ≠ '-')
    (hg : ∀ c ∈ g, c.isDigit = true) (hne : g ≠ [])
    (hgs : ∀ p ∈ gs, p.1 = ' ' ∧ ∀ c ∈ p.2, c.isDigit = true)
    (he1 : e1.isDigit = true) (he2 : e2.isDigit = true)
    (hnz : decimalValue neg (groupsDigits g gs) [e1, e2] ≠ 0) :
    MbankParser.Parse content =
      some ([⟨dateTimeOfFields (digitsValue [y1, y2, y3, y4]) (digitsValue [m1, m2])
          (digitsValue [d1, d2]) (digitsValue [h1, h2]) (digitsValue [n1, n2]),
        String.mk (TrimSpace (pre0 ++ ws)), decimalValue neg (groupsDigits g gs) [e1, e2],
        "KGS", "Mbank", String.mk (TrimSpace dateLine)⟩], none) := by
  obtain ⟨front, amountStr, hsplit, hfind, hval, htrim⟩ :=
    mbank_token pre0 ws neg sp g gs e1 e2 hws hpre hg hne hgs he1 he2
  have hdrop : (pres ++ dateLine :: conts).drop (pres.length + 1) = conts := by
    have e : pres ++ dateLine :: conts = (pres ++ [dateLine]) ++ conts := by simp
    rw [e]
    exact List.drop_left' (by simp)
  have hahead := mbankLookAhead_conts conts (pres.length + 1) (TrimSpace rest) pres.length hconts
  rw [hline] at hboil
  have hbody := mbankBody_record (pres ++ dateLine :: conts) pres.length
    d1 d2 m1 m2 y1 y2 y3 y4 h1 h2 n1 n2 sep rest front amountStr hdig hsep hsp hvalid hboil
    (by rw [hdrop, hahead]; exact htext.trans hsplit) hfind (by rw [hval]; exact hnz)
  rw [hdrop, hahead, ← hline, htrim, hval] at hbody
  have hget : (pres ++ dateLine :: conts)[pres.length]? = some dateLine := by
    rw [List.getElem?_append_right (le_refl _), Nat.sub_self]
    exact List.getElem?_cons_zero
  have hskip : ∀ m, 0 ≤ m → m < 0 + pres.length →
      ∃ l, (pres ++ dateLine :: conts)[m]? = some l ∧ matchDateTime (TrimSpace l) = none := by
    intro m _ hm
    have hm' : m < pres.length := by omega
    refine ⟨pres[m], ?_, hpres _ (List.getElem_mem _)⟩
    rw [List.getElem?_append_left hm']
    exact List.getElem?_eq_getElem hm'
  have hlen : (pres ++ dateLine :: conts).length + 1 = (conts.length + 1 + 1) + pres.length := by
    simp only [List.length_append, List.length_cons]
    omega
  have hend : (pres ++ dateLine :: conts)[(if conts = [] then pres.length
      else pres.length + 1 + conts.length - 1) + 1]? = none := by
    apply List.getElem?_eq_none
    simp only [List.length_append, List.length_cons]
    split_ifs with hc
    · subst hc
      simp
    · omega
  unfold MbankParser.Parse
  simp only [hlines]
  rw [hlen, mbankLoop_skip _ pres.length 0 (conts.length + 1 + 1) [] hskip, Nat.zero_add,
    mbankLoop_step _ (conts.length + 1) pres.length [] dateLine _ _ hget hbody,
    mbankLoop_done _ conts.length _ _ hend]
  rfl

/-- Witness of C18 on the test input with a description continued on a second
line. -/
theorem C18_witness :
    MbankParser.Parse
        "Mbank Statement\n24.12.2025 10:00 First line of\ndescription continues here - 500,00" =
      some ([⟨dateTimeOfFields 2025 12 24 10 0, "First line of description continues here",
        -500, "KGS", "Mbank", "24.12.2025 10:00 First line of"⟩], none) :=
  (C18_mbank_record_extraction
    "Mbank Statement\n24.12.2025 10:00 First line of\ndescription continues here - 500,00"
    ["Mbank Statement".data] ["description continues here - 500,00".data]
    "24.12.2025 10:00 First line of".data '2' '4' '1' '2' '2' '0' '2' '5' '1' '0' '0' '0'
    [' '] " First line of".data "First line of description continues here".data [' ']
    true true ['5', '0', '0'] [] '0' '0'
    (by decide!) (by decide!) (by decide!) (by decide) (by decide) (by decide) (by decide)
    (by decide!) (by decide!) (by decide!) (by decide) (by intro h; cases h) (by decide)
    (by decide) (by decide) rfl rfl (by decide!)).trans (by decide!)

/-- Counterexample to C19 as stated: a line with a valid date-time prefix and a
trailing amount of -500 that is the whole text yields no transaction when its
description contains `РАСУЛОВ` (or `KGS KGS`): the boilerplate test precedes the
date-time test. -/
theorem C19_counterexample :
    MbankParser.Parse "24.12.2025 10:00 Перевод РАСУЛОВ - 500,00" = some ([], none) ∧
    MbankParser.Parse "24.12.2025 10:00 Обмен KGS KGS - 500,00" = some ([], none) ∧
    matchDateTime "24.12.2025 10:00 Перевод РАСУЛОВ - 500,00".data =
      some ("24.12.2025".data, "10:00".data, " Перевод РАСУЛОВ - 500,00".data) ∧
    timeParse "24.12.2025 10:00".data = some (dateTimeOfFields 2025 12 24 10 0) ∧
    findAmount "Перевод РАСУЛОВ - 500,00".data = some "- 500,00".data ∧
    parseMbankAmount "- 500,00".data = -500 := by
  decide!

/-- C19 (amended): Variant A record start. In every text, a line that after
trimming starts with a `DD.MM.YYYY HH:MM` prefix denoting a valid date and time
and contains neither `РАСУЛОВ` nor `KGS KGS` begins a record. If the rest of that
line ends in a non-zero amount token (an optional minus sign optionally followed
by one space, digit groups separated by single spaces, a comma and two digits;
without a minus sign the text before the token, trailing white space apart, is
empty or ends in a character that is neither a digit, nor white space, nor a
minus sign) and the line is directly followed by a date-prefixed line or by the
end of the text, `MbankParser.Parse` returns a list containing the transaction
with that timestamp, the value of the token as amount and the text before the
token, trimmed, as description. -/
theorem C19_mbank_record_start (content : String) (n : Nat) (line : List Char)
    (d1 d2 m1 m2 y1 y2 y3 y4 h1 h2 n1 n2 : Char)
    (sep rest pre0 ws : List Char) (neg sp : Bool) (g : List Char)
    (gs : List (Char × List Char)) (e1 e2 : Char)
    (hget : (Split content.data)[n]? = some line)
    (hline : TrimSpace line = [d1, d2, '.', m1, m2, '.', y1, y2, y3, y4] ++ sep ++
      [h1, h2, ':', n1, n2] ++ rest)
    (hdig : [d1, d2, m1, m2, y1, y2, y3, y4, h1, h2, n1, n2].all Char.isDigit = true)
    (hsep : sep ≠ []) (hsp : ∀ c ∈ sep, reSpace c = true)
    (hvalid : 1 ≤ digitsValue [m1, m2] ∧ digitsValue [m1, m2] ≤ 12 ∧ 1 ≤ digitsValue [d1, d2] ∧
      digitsValue [d1, d2] ≤ daysIn (digitsValue [m1, m2]) (digitsValue [y1, y2, y3, y4]) ∧
      digitsValue [h1, h2] < 24 ∧ digitsValue [n1, n2] < 60)
    (hname : Contains (TrimSpace line) "РАСУЛОВ".data = false)
    (hkgs : Contains (TrimSpace line) "KGS KGS".data = false)
    (hnext : ∀ l, (Split content.data)[n + 1]? = some l →
      (matchDateTime (TrimSpace l)).isSome = true)
    (htext : TrimSpace rest =
      pre0 ++ ws ++ signText neg (if sp then some ' ' else none) ++ groupsText g gs ++
        [',', e1, e2])
    (hws : ∀ c ∈ ws, reSpace c = true)
    (hpre : neg = false → ∀ c, pre0.getLast? = some c →
      c.isDigit = false ∧ reSpace c = false ∧ c ≠ '-')
    (hg : ∀ c ∈ g, c.isDigit = true) (hne : g ≠ [])
    (hgs : ∀ p ∈ gs, p.1 = ' ' ∧ ∀ c ∈ p.2, c.isDigit = true)
    (he1 : e1.isDigit = true) (he2 : e2.isDigit = true)
    (hnz : decimalValue neg (groupsDigits g gs) [e1, e2] ≠ 0) :
    ∃ ts, MbankParser.Parse content = some (ts, none) ∧
      (⟨dateTimeOfFields (digitsValue [y1, y2, y3, y4]) (digitsValue [m1, m2])
          (digitsValue [d1, d2]) (digitsValue [h1, h2]) (digitsValue [n1, n2]),
        String.mk (TrimSpace (pre0 ++ ws)), decimalValue neg (groupsDigits g gs) [e1, e2],
        "KGS", "Mbank", String.mk (TrimSpace line)⟩ : Transaction) ∈ ts := by
  obtain ⟨front, amountStr, hsplit, hfind, hval, htrim⟩ :=
    mbank_token pre0 ws neg sp g gs e1 e2 hws hpre hg hne hgs he1 he2
  have hd1 : d1.isDigit = true := by
    simp only [List.all_cons, Bool.and_eq_true] at hdig
    exact hdig.1
  have hboil : mbankIsBoilerplate ([d1, d2, '.', m1, m2, '.', y1, y2, y3, y4] ++ sep ++
      [h1, h2, ':', n1, n2] ++ rest) = false := by
    rw [hline] at hname hkgs
    have e : [d1, d2, '.', m1, m2, '.', y1, y2, y3, y4] ++ sep ++ [h1, h2, ':', n1, n2] ++ rest =
        d1 :: ([d2, '.', m1, m2, '.', y1, y2, y3, y4] ++ sep ++ [h1, h2, ':', n1, n2] ++ rest) :=
      rfl
    rw [e] at hname hkgs ⊢
    rw [mbankIsBoilerplate_of_digit d1 _ hd1, hname, hkgs]
    rfl
  have hdate : (matchDateTime (TrimSpace line)).isSome = true := by
    rw [hline, matchDateTime_shape d1 d2 m1 m2 y1 y2 y3 y4 h1 h2 n1 n2 sep rest hdig hsep hsp]
    rfl
  have hahead : mbankLookAhead ((Split content.data).drop (n + 1)) (n + 1) (TrimSpace rest) n =
      (TrimSpace rest, n) := by
    apply mbankLookAhead_stop
    intro l hl
    apply hnext l
    rw [← hl, List.head?_drop]
  have hbody := mbankBody_record (Split content.data) n
    d1 d2 m1 m2 y1 y2 y3 y4 h1 h2 n1 n2 sep rest front amountStr hdig hsep hsp hvalid hboil
    (by rw [hahead]; exact htext.trans hsplit) hfind (by rw [hval]; exact hnz)
  rw [hahead, ← hline, htrim, hval] at hbody
  have key : ∀ t : Transaction, mbankBody (Split content.data) n (TrimSpace line) =
      some (n, [t]) → ∃ ts, MbankParser.Parse content = some (ts, none) ∧ t ∈ ts := by
    intro t hb
    obtain ⟨fuel', acc', hfuel, _, hreach⟩ := mbankLoop_reach (Split content.data) n line hget
      hdate ((Split content.data).length + 1) 0 [] (Nat.zero_le _) (by omega)
    have hnl : n < (Split content.data).length := by
      by_contra hge
      rw [List.getElem?_eq_none (by omega)] at hget
      cases hget
    obtain ⟨f, hf⟩ : ∃ f, fuel' = f + 1 := ⟨fuel' - 1, by omega⟩
    subst hf
    obtain ⟨r, hr⟩ := mbankLoop_prefix (Split content.data) f (n + 1) (acc' ++ [t]) (by omega)
    refine ⟨acc' ++ [t] ++ r, ?_, ?_⟩
    · unfold MbankParser.Parse
      simp only []
      rw [hreach, mbankLoop_step _ f n acc' line _ _ hget hb, hr]
      rfl
    · exact List.mem_append_left _ (List.mem_append_right _ (List.mem_singleton_self t))
  exact key _ hbody

/-- Witness of C19 on the first record of the test input with two
transactions. -/
theorem C19_witness :
    ∃ ts, MbankParser.Parse
        "Mbank Statement\n24.12.2025 10:00 First payment - 500,00\n24.12.2025 11:00 Second payment - 1 000,00" =
        some (ts, none) ∧
      (⟨dateTimeOfFields 2025 12 24 10 0, "First payment", -500, "KGS", "Mbank",
        "24.12.2025 10:00 First payment - 500,00"⟩ : Transaction) ∈ ts := by
  have h := C19_mbank_record_start
    "Mbank Statement\n24.12.2025 10:00 First payment - 500,00\n24.12.2025 11:00 Second payment - 1 000,00"
    1 "24.12.2025 10:00 First payment - 500,00".data
    '2' '4' '1' '2' '2' '0' '2' '5' '1' '0' '0' '0'
    [' '] " First payment - 500,00".data "First payment".data [' ']
    true true ['5', '0', '0'] [] '0' '0'
    (by decide!) (by decide!) (by decide) (by decide) (by decide) (by decide)
    (by decide!) (by decide!)
    (by
      intro l hl
      have e : l = "24.12.2025 11:00 Second payment - 1 000,00".data :=
        Option.some.inj (hl.symm.trans (by decide!))
      subst e
      decide!)
    (by decide!) (by decide) (by intro h; cases h) (by decide)
    (by decide) (by decide) rfl rfl (by decide!)
  have e : (⟨dateTimeOfFields (digitsValue ['2', '0', '2', '5']) (digitsValue ['1', '2'])
        (digitsValue ['2', '4']) (digitsValue ['1', '0']) (digitsValue ['0', '0']),
      String.mk (TrimSpace ("First payment".data ++ [' '])),
      decimalValue true (groupsDigits ['5', '0', '0'] []) ['0', '0'],
      "KGS", "Mbank", String.mk (TrimSpace "24.12.2025 10:00 First payment - 500,00".data)⟩ :
        Transaction) =
      ⟨dateTimeOfFields 2025 12 24 10 0, "First payment", -500, "KGS", "Mbank",
        "24.12.2025 10:00 First payment - 500,00"⟩ := by decide!
  rw [e] at h
  exact h

/-- C20 (evaluation at the failing input): the line `Телефон: 123` is matched by
the boilerplate exclusion list, and the record line alone yields one transaction
of amount -500 with description `Payment`; followed by that line, the parser
yields no transaction, because the look-ahead joins the line to the record text
and the amount is no longer at its end. Followed by `Баланс: 10 000,00`, the
parser reads the balance as the amount. A line starting with `Всего` stops the
look-ahead and leaves the record unchanged. -/
theorem C20_boilerplate_line_joined :
    mbankIsBoilerplate "Телефон: 123".data = true ∧
    mbankIsBoilerplate "Баланс: 10 000,00".data = true ∧
    MbankParser.Parse "24.12.2025 10:00 Payment - 500,00" =
      some ([⟨dateTimeOfFields 2025 12 24 10 0, "Payment", -500, "KGS", "Mbank",
        "24.12.2025 10:00 Payment - 500,00"⟩], none) ∧
    MbankParser.Parse "24.12.2025 10:00 Payment - 500,00\nТелефон: 123" = some ([], none) ∧
    MbankParser.Parse "24.12.2025 10:00 Payment - 500,00\nБаланс: 10 000,00" =
      some ([⟨dateTimeOfFields 2025 12 24 10 0, "Payment - 500,00 Баланс:", 10000, "KGS",
        "Mbank", "24.12.2025 10:00 Payment - 500,00"⟩], none) ∧
    MbankParser.Parse "24.12.2025 10:00 Payment - 500,00\nВсего списаний: 500,00" =
      some ([⟨dateTimeOfFields 2025 12 24 10 0, "Payment", -500, "KGS", "Mbank",
        "24.12.2025 10:00 Payment - 500,00"⟩], none) := by
  decide!

/-! ## Lemmas on records of the Optima parser -/

theorem TrimSpace_date (d1 d2 m1 m2 y1 y2 y3 y4 : Char) (hd1 : d1.isDigit = true)
    (hy4 : y4.isDigit = true) :
    TrimSpace [d1, d2, '.', m1, m2, '.', y1, y2, y3, y4] =
      [d1, d2, '.', m1, m2, '.', y1, y2, y3, y4] := by
  apply TrimSpace_of_ends
  · intro c hc
    simp at hc
    subst hc
    exact isSpace_of_isDigit _ hd1
  · intro c hc
    simp at hc
    subst hc
    exact isSpace_of_isDigit _ hy4

theorem optimaDateMatch_shape (d1 d2 m1 m2 y1 y2 y3 y4 : Char)
    (hdig : [d1, d2, m1, m2, y1, y2, y3, y4].all Char.isDigit = true) :
    optimaDateMatch [d1, d2, '.', m1, m2, '.', y1, y2, y3, y4] = true := by
  unfold optimaDateMatch
  rw [matchDate_shape d1 d2 m1 m2 y1 y2 y3 y4 [] hdig]
  rfl

theorem optimaTimeMatch_shape (h1 h2 n1 n2 : Char)
    (hdig : [h1, h2, n1, n2].all Char.isDigit = true) :
    optimaTimeMatch [h1, h2, ':', n1, n2] = true := by
  unfold optimaTimeMatch
  rw [matchClock_shape h1 h2 n1 n2 [] hdig]
  simp

theorem optimaTimeMatch_date (d1 d2 m1 m2 y1 y2 y3 y4 : Char) :
    optimaTimeMatch [d1, d2, '.', m1, m2, '.', y1, y2, y3, y4] = false := by
  unfold optimaTimeMatch matchClock
  simp

theorem optimaAmountMatch_shape (neg : Bool) (g : List Char) (gs : List (Char × List Char))
    (dot : Bool) (F : List Char) (hne : g ≠ []) (hg : ∀ c ∈ g, c.isDigit = true)
    (hgs : ∀ p ∈ gs, p.1 = ' ' ∧ ∀ c ∈ p.2, c.isDigit = true)
    (hF : ∀ c ∈ F, c.isDigit = true) (hdot : dot = true → F ≠ []) :
    optimaAmountMatch (signText neg none ++ groupsText g gs ++
      (if dot then '.' :: F else [])) = true := by
  have hB : ∀ c ∈ groupsText g gs, (c.isDigit || reSpace c) = true := by
    intro c hc
    unfold groupsText at hc
    rw [List.mem_append, List.mem_flatMap] at hc
    rcases hc with hc | ⟨p, hp, hc⟩
    · rw [hg c hc]; rfl
    · rw [List.mem_cons] at hc
      rcases hc with hc | hc
      · rw [hc, (hgs p hp).1]; rfl
      · rw [(hgs p hp).2 c hc]; rfl
  have hgt : groupsText g gs ≠ [] := by
    unfold groupsText
    intro h
    exact hne (List.append_eq_nil.1 h).1
  have hhead : ∀ c, (groupsText g gs ++ (if dot then '.' :: F else [])).head? = some c →
      c ≠ '-' := by
    intro c hc
    unfold groupsText at hc
    cases g with
    | nil => exact absurd rfl hne
    | cons x xs =>
      simp at hc
      subst hc
      exact isDigit_ne_of_not_digit (hg _ (List.mem_cons_self _ _)) (by decide)
  have hstop : ∀ c, (if dot then '.' :: F else []).head? = some c →
      (c.isDigit || reSpace c) = false := by
    intro c hc
    cases dot
    · simp at hc
    · simp at hc
      subst hc
      rfl
  obtain ⟨ht, hd⟩ := takeWhile_append_stop (p := fun c => c.isDigit || reSpace c) hB hstop
  have hbody : (if (signText neg none ++ groupsText g gs ++
        (if dot then '.' :: F else [])).head? = some '-'
      then (signText neg none ++ groupsText g gs ++ (if dot then '.' :: F else [])).tail
      else signText neg none ++ groupsText g gs ++ (if dot then '.' :: F else [])) =
      groupsText g gs ++ (if dot then '.' :: F else []) := by
    cases neg
    · have e : signText false none ++ groupsText g gs ++ (if dot then '.' :: F else []) =
          groupsText g gs ++ (if dot then '.' :: F else []) := rfl
      rw [e, if_neg]
      intro h
      exact hhead _ h rfl
    · have e : signText true none ++ groupsText g gs ++ (if dot then '.' :: F else []) =
          '-' :: (groupsText g gs ++ (if dot then '.' :: F else [])) := by
        simp [signText]
      rw [e]
      simp
  unfold optimaAmountMatch
  simp only [hbody, ht, hd, hgt, if_false]
  cases dot
  · rfl
  · have hF' : F.takeWhile Char.isDigit = F := List.takeWhile_eq_self_iff.2 hF
    have hF'' : F.dropWhile Char.isDigit = [] := List.dropWhile_eq_nil_iff.2 hF
    simp [hF', hF'', hdot rfl]

theorem skipBlank_blanks (blanks rest : List (List Char)) (j : Nat)
    (hb : ∀ b ∈ blanks, TrimSpace b = [])
    (hr : ∀ l, rest.head? = some l → TrimSpace l ≠ []) :
    skipBlank (blanks ++ rest) j = j + blanks.length := by
  induction blanks generalizing j with
  | nil =>
    cases rest with
    | nil => rfl
    | cons l ls =>
      show (if TrimSpace l = [] then skipBlank ls (j + 1) else j) = j + 0
      rw [if_neg (hr l rfl)]
      rfl
  | cons b bs ih =>
    show (if TrimSpace b = [] then skipBlank (bs ++ rest) (j + 1) else j) = _
    rw [if_pos (hb b (List.mem_cons_self _ _)),
      ih (j + 1) (fun x hx => hb x (List.mem_cons_of_mem _ hx)), List.length_cons]
    omega

theorem optimaDescLoop_cons (lines : List (List Char)) (l0 : List Char)
    (rest : List (List Char)) (i : Nat) (descLines : List (List Char)) :
    optimaDescLoop lines (l0 :: rest) i descLines =
      if TrimSpace l0 = [] then optimaDescLoop lines rest (i + 1) descLines
      else
        if optimaAmountMatch (TrimSpace l0) ∧
            (lines[skipBlank rest (i + 1)]?).map TrimSpace = some "USD".data then
          ((optimaFindKGS lines (lines.drop (skipBlank rest (i + 1) + 1))
              (skipBlank rest (i + 1) + 1)).1, descLines,
            (optimaFindKGS lines (lines.drop (skipBlank rest (i + 1) + 1))
              (skipBlank rest (i + 1) + 1)).2)
        else if optimaAmountMatch (TrimSpace l0) ∧
            (lines[skipBlank rest (i + 1)]?).map TrimSpace = some "KGS".data then
          (skipBlank rest (i + 1) + 1, descLines, some (parseOptimaAmount (TrimSpace l0)))
        else if optimaIsBoilerplate (TrimSpace l0) then
          optimaDescLoop lines rest (i + 1) descLines
        else optimaDescLoop lines rest (i + 1) (descLines ++ [TrimSpace l0]) := rfl

theorem optimaDescLoop_descs (lines descs rest : List (List Char)) (i : Nat)
    (acc : List (List Char))
    (h : ∀ d ∈ descs, TrimSpace d ≠ [] ∧ optimaAmountMatch (TrimSpace d) = false ∧
      optimaIsBoilerplate (TrimSpace d) = false) :
    optimaDescLoop lines (descs ++ rest) i acc =
      optimaDescLoop lines rest (i + descs.length) (acc ++ descs.map TrimSpace) := by
  induction descs generalizing i acc with
  | nil => simp
  | cons d ds ih =>
    obtain ⟨h1, h2, h3⟩ := h d (List.mem_cons_self _ _)
    rw [List.cons_append, optimaDescLoop_cons, if_neg h1, h2, h3]
    simp only [Bool.false_eq_true, false_and, if_false]
    rw [ih (i + 1) _ (fun x hx => h x (List.mem_cons_of_mem _ hx))]
    simp only [List.length_cons, List.map_cons, List.append_assoc, List.singleton_append]
    congr 1
    omega

theorem optimaDescLoop_kgs (lines : List (List Char)) (amountLine : List Char)
    (blanks : List (List Char)) (kgsLine : List Char) (rest : List (List Char)) (i : Nat)
    (acc : List (List Char))
    (hne : TrimSpace amountLine ≠ []) (hm : optimaAmountMatch (TrimSpace amountLine) = true)
    (hb : ∀ b ∈ blanks, TrimSpace b = []) (hk : TrimSpace kgsLine = "KGS".data)
    (hget : lines[i + 1 + blanks.length]? = some kgsLine) :
    optimaDescLoop lines (amountLine :: (blanks ++ kgsLine :: rest)) i acc =
      (i + 1 + blanks.length + 1, acc, some (parseOptimaAmount (TrimSpace amountLine))) := by
  have hs : skipBlank (blanks ++ kgsLine :: rest) (i + 1) = i + 1 + blanks.length :=
    skipBlank_blanks blanks (kgsLine :: rest) (i + 1) hb (by
      intro l hl
      simp at hl
      subst hl
      rw [hk]
      decide)
  rw [optimaDescLoop_cons, if_neg hne, hs, hget, hm, Option.map_some', hk]
  simp only [true_and]
  rw [if_neg (by decide), if_pos trivial]

theorem optimaFindKGS_cons (lines : List (List Char)) (l0 : List Char)
    (rest : List (List Char)) (i : Nat) :
    optimaFindKGS lines (l0 :: rest) i =
      if TrimSpace l0 = [] then optimaFindKGS lines rest (i + 1)
      else if optimaAmountMatch (TrimSpace l0) then
        match lines[skipBlank rest (i + 1)]? with
        | some lk =>
          if TrimSpace lk = "KGS".data then
            (skipBlank rest (i + 1) + 1, some (parseOptimaAmount (TrimSpace l0)))
          else optimaFindKGS lines rest (i + 1)
        | none => optimaFindKGS lines rest (i + 1)
      else optimaFindKGS lines rest (i + 1) := rfl

theorem optimaFindKGS_hit (lines : List (List Char)) (amountLine : List Char)
    (blanks : List (List Char)) (kgsLine : List Char) (rest : List (List Char)) (i : Nat)
    (hne : TrimSpace amountLine ≠ []) (hm : optimaAmountMatch (TrimSpace amountLine) = true)
    (hb : ∀ b ∈ blanks, TrimSpace b = []) (hk : TrimSpace kgsLine = "KGS".data)
    (hget : lines[i + 1 + blanks.length]? = some kgsLine) :
    optimaFindKGS lines (amountLine :: (blanks ++ kgsLine :: rest)) i =
      (i + 1 + blanks.length + 1, some (parseOptimaAmount (TrimSpace amountLine))) := by
  have hs : skipBlank (blanks ++ kgsLine :: rest) (i + 1) = i + 1 + blanks.length :=
    skipBlank_blanks blanks (kgsLine :: rest) (i + 1) hb (by
      intro l hl
      simp at hl
      subst hl
      rw [hk]
      decide)
  rw [optimaFindKGS_cons, if_neg hne, if_pos hm, hs, hget]
  simp only []
  rw [if_pos hk]

theorem optimaDescLoop_usd (lines : List (List Char)) (amountLine : List Char)
    (blanks : List (List Char)) (usdLine : List Char) (rest : List (List Char)) (i : Nat)
    (acc : List (List Char))
    (hne : TrimSpace amountLine ≠ []) (hm : optimaAmountMatch (TrimSpace amountLine) = true)
    (hb : ∀ b ∈ blanks, TrimSpace b = []) (hk : TrimSpace usdLine = "USD".data)
    (hget : lines[i + 1 + blanks.length]? = some usdLine) :
    optimaDescLoop lines (amountLine :: (blanks ++ usdLine :: rest)) i acc =
      ((optimaFindKGS lines (lines.drop (i + 1 + blanks.length + 1))
          (i + 1 + blanks.length + 1)).1, acc,
        (optimaFindKGS lines (lines.drop (i + 1 + blanks.length + 1))
          (i + 1 + blanks.length + 1)).2) := by
  have hs : skipBlank (blanks ++ usdLine :: rest) (i + 1) = i + 1 + blanks.length :=
    skipBlank_blanks blanks (usdLine :: rest) (i + 1) hb (by
      intro l hl
      simp at hl
      subst hl
      rw [hk]
      decide)
  rw [optimaDescLoop_cons, if_neg hne, hs, hget, hm, Option.map_some', hk]
  simp only [true_and]
  rw [if_pos trivial]

theorem optimaSkipFee_fee (fee rest : List (List Char)) (i : Nat)
    (hf : ∀ f ∈ fee, TrimSpace f = "0".data ∨ TrimSpace f = "KGS".data ∨ TrimSpace f = [])
    (hr : ∀ l, rest.head? = some l →
      ¬ (TrimSpace l = "0".data ∨ TrimSpace l = "KGS".data ∨ TrimSpace l = [])) :
    optimaSkipFee (fee ++ rest) i = i + fee.length := by
  induction fee generalizing i with
  | nil =>
    cases rest with
    | nil => rfl
    | cons l ls =>
      show (if TrimSpace l = "0".data ∨ TrimSpace l = "KGS".data ∨ TrimSpace l = [] then
        optimaSkipFee ls (i + 1) else i) = i + 0
      rw [if_neg (hr l rfl)]
      rfl
  | cons f fs ih =>
    show (if TrimSpace f = "0".data ∨ TrimSpace f = "KGS".data ∨ TrimSpace f = [] then
      optimaSkipFee (fs ++ rest) (i + 1) else i) = _
    rw [if_pos (hf f (List.mem_cons_self _ _)),
      ih (i + 1) (fun x hx => hf x (List.mem_cons_of_mem _ hx)), List.length_cons]
    omega

theorem optimaBody_no_date (lines : List (List Char)) (i : Nat) (line : List Char)
    (h : optimaDateMatch line = false) : optimaBody lines i line = some (i + 1, []) := by
  unfold optimaBody
  rw [h]
  simp

theorem optimaBody_no_time (lines : List (List Char)) (i : Nat) (line l1 : List Char)
    (h : optimaDateMatch line = true) (hl : lines[i + 1]? = some l1)
    (ht : optimaTimeMatch (TrimSpace l1) = false) :
    optimaBody lines i line = some (i + 1, []) := by
  unfold optimaBody
  rw [h, hl]
  simp [ht]

theorem optimaBody_scan (lines : List (List Char)) (i : Nat)
    (d1 d2 m1 m2 y1 y2 y3 y4 h1 h2 n1 n2 : Char) (timeLine : List Char) (c : Nat)
    (texts : List (List Char)) (amt : ℚ)
    (hdig : [d1, d2, m1, m2, y1, y2, y3, y4, h1, h2, n1, n2].all Char.isDigit = true)
    (hvalid : 1 ≤ digitsValue [m1, m2] ∧ digitsValue [m1, m2] ≤ 12 ∧ 1 ≤ digitsValue [d1, d2] ∧
      digitsValue [d1, d2] ≤ daysIn (digitsValue [m1, m2]) (digitsValue [y1, y2, y3, y4]) ∧
      digitsValue [h1, h2] < 24 ∧ digitsValue [n1, n2] < 60)
    (htime : lines[i + 1]? = some timeLine)
    (hclock : TrimSpace timeLine = [h1, h2, ':', n1, n2])
    (hscan : optimaDescLoop lines (lines.drop (i + 2)) (i + 2) [] = (c, texts, some amt)) :
    optimaBody lines i [d1, d2, '.', m1, m2, '.', y1, y2, y3, y4] =
      some (optimaSkipFee (lines.drop c) c,
        [⟨dateTimeOfFields (digitsValue [y1, y2, y3, y4]) (digitsValue [m1, m2])
            (digitsValue [d1, d2]) (digitsValue [h1, h2]) (digitsValue [n1, n2]),
          String.mk (Join texts), amt, "KGS", OptimaParser.BankName, String.mk (Join texts)⟩]) := by
  have hdig' := hdig
  simp only [List.all_cons, List.all_nil, Bool.and_true, Bool.and_eq_true] at hdig'
  obtain ⟨a1, a2, a3, a4, a5, a6, a7, a8, a9, a10, a11, a12⟩ := hdig'
  have hD : optimaDateMatch [d1, d2, '.', m1, m2, '.', y1, y2, y3, y4] = true :=
    optimaDateMatch_shape _ _ _ _ _ _ _ _ (by simp [a1, a2, a3, a4, a5, a6, a7, a8])
  have hT : optimaTimeMatch [h1, h2, ':', n1, n2] = true :=
    optimaTimeMatch_shape _ _ _ _ (by simp [a9, a10, a11, a12])
  unfold optimaBody
  rw [hD, htime]
  simp only [hclock, hT, hscan, TrimSpace_date d1 d2 m1 m2 y1 y2 y3 y4 a1 a8, not_true_eq_false,
    if_false]
  have htp := timeParse_shape d1 d2 m1 m2 y1 y2 y3 y4 h1 h2 n1 n2 hdig
  rw [dateTimeOf_valid _ _ _ _ _ hvalid] at htp
  rw [htp]

theorem optimaLoop_done (lines : List (List Char)) (fuel i : Nat) (acc : List Transaction)
    (h : lines[i]? = none) : optimaLoop lines (fuel + 1) i acc = some acc := by
  rw [optimaLoop_succ, h]

theorem optimaLoop_step (lines : List (List Char)) (fuel i : Nat) (acc : List Transaction)
    (l : List Char) (i' : Nat) (found : List Transaction) (h : lines[i]? = some l)
    (hb : optimaBody lines i (TrimSpace l) = some (i', found)) :
    optimaLoop lines (fuel + 1) i acc = optimaLoop lines fuel i' (acc ++ found) := by
  rw [optimaLoop_succ, h]
  simp only []
  rw [hb]

theorem optimaLoop_skip (lines : List (List Char)) :
    ∀ (k i fuel : Nat) (acc : List Transaction),
      (∀ m, i ≤ m → m < i + k →
        ∃ l, lines[m]? = some l ∧ optimaBody lines m (TrimSpace l) = some (m + 1, [])) →
      optimaLoop lines (fuel + k) i acc = optimaLoop lines fuel (i + k) acc := by
  intro k
  induction k with
  | zero => intro i fuel acc _; rfl
  | succ k ih =>
    intro i fuel acc h
    obtain ⟨l, hl, hm⟩ := h i (le_refl _) (by omega)
    have e : fuel + (k + 1) = (fuel + k) + 1 := by omega
    rw [e, optimaLoop_step lines (fuel + k) i acc l (i + 1) [] hl hm,
      List.append_nil, ih (i + 1) fuel acc (fun m h1 h2 => h m (by omega) (by omega))]
    congr 1
    omega

theorem getElem?_of_append (A B : List (List Char)) (x : List Char) (n : Nat)
    (hn : n = A.length) : (A ++ x :: B)[n]? = some x := by
  subst hn
  rw [List.getElem?_append_right (le_refl _), Nat.sub_self]
  exact List.getElem?_cons_zero

theorem drop_of_append (A B : List (List Char)) (n : Nat) (hn : n = A.length) :
    (A ++ B).drop n = B := by
  subst hn
  exact List.drop_left' rfl

theorem parseOptimaAmount_groups (neg : Bool) (g : List Char) (gs : List (Char × List Char))
    (dot : Bool) (F : List Char) (hg : ∀ c ∈ g, c.isDigit = true)
    (hgs : ∀ p ∈ gs, p.1 = ' ' ∧ ∀ c ∈ p.2, c.isDigit = true)
    (hF : ∀ c ∈ F, c.isDigit = true) (hdot : dot = false → F = []) :
    parseOptimaAmount (signText neg none ++ groupsText g gs ++
        (if dot then '.' :: F else [])) = decimalValue neg (groupsDigits g gs) F := by
  have hB : ∀ c ∈ groupsText g gs, c.isDigit = true ∨ normChar c = ' ' := by
    intro c hc
    unfold groupsText at hc
    rw [List.mem_append, List.mem_flatMap] at hc
    rcases hc with hc | ⟨p, hp, hc⟩
    · exact Or.inl (hg c hc)
    · rw [List.mem_cons] at hc
      rcases hc with hc | hc
      · right
        rw [hc, (hgs p hp).1]
        rfl
      · exact Or.inl ((hgs p hp).2 c hc)
  have hfd : (groupsText g gs).filter Char.isDigit = groupsDigits g gs :=
    filter_digit_groupsText g gs hg (fun p hp => ⟨by rw [(hgs p hp).1]; rfl, (hgs p hp).2⟩)
  have key := parseOptimaAmount_value neg (groupsText g gs) F dot hB hF hdot
  rw [hfd] at key
  have hs : signText neg none = if neg then ['-'] else [] := by
    unfold signText
    cases neg <;> rfl
  rw [hs]
  exact key

theorem amountText_ne_nil (neg : Bool) (g : List Char) (gs : List (Char × List Char))
    (tail : List Char) (hne : g ≠ []) : signText neg none ++ groupsText g gs ++ tail ≠ [] := by
  intro h
  have h1 := (List.append_eq_nil.1 (List.append_eq_nil.1 h).1).2
  unfold groupsText at h1
  exact hne (List.append_eq_nil.1 h1).1

theorem date_not_fee (d1 d2 m1 m2 y1 y2 y3 y4 : Char) :
    ¬ ([d1, d2, '.', m1, m2, '.', y1, y2, y3, y4] = "0".data ∨
      [d1, d2, '.', m1, m2, '.', y1, y2, y3, y4] = "KGS".data ∨
      [d1, d2, '.', m1, m2, '.', y1, y2, y3, y4] = []) := by
  rintro (h | h | h) <;> · have := congrArg List.length h; simp at this

theorem optimaBody_block (pre descs blanks fee rest : List (List Char))
    (dateLine timeLine amountLine kgsLine : List Char)
    (d1 d2 m1 m2 y1 y2 y3 y4 h1 h2 n1 n2 : Char)
    (hdate : TrimSpace dateLine = [d1, d2, '.', m1, m2, '.', y1, y2, y3, y4])
    (hclock : TrimSpace timeLine = [h1, h2, ':', n1, n2])
    (hdig : [d1, d2, m1, m2, y1, y2, y3, y4, h1, h2, n1, n2].all Char.isDigit = true)
    (hvalid : 1 ≤ digitsValue [m1, m2] ∧ digitsValue [m1, m2] ≤ 12 ∧ 1 ≤ digitsValue [d1, d2] ∧
      digitsValue [d1, d2] ≤ daysIn (digitsValue [m1, m2]) (digitsValue [y1, y2, y3, y4]) ∧
      digitsValue [h1, h2] < 24 ∧ digitsValue [n1, n2] < 60)
    (hdescs : ∀ d ∈ descs, TrimSpace d ≠ [] ∧ optimaAmountMatch (TrimSpace d) = false ∧
      optimaIsBoilerplate (TrimSpace d) = false)
    (hne : TrimSpace amountLine ≠ []) (hm : optimaAmountMatch (TrimSpace amountLine) = true)
    (hb : ∀ b ∈ blanks, TrimSpace b = []) (hk : TrimSpace kgsLine = "KGS".data)
    (hf : ∀ f ∈ fee, TrimSpace f = "0".data ∨ TrimSpace f = "KGS".data ∨ TrimSpace f = [])
    (hr : ∀ l, rest.head? = some l →
      ¬ (TrimSpace l = "0".data ∨ TrimSpace l = "KGS".data ∨ TrimSpace l = [])) :
    optimaBody (pre ++ dateLine :: timeLine :: (descs ++ amountLine :: (blanks ++
        kgsLine :: (fee ++ rest)))) pre.length (TrimSpace dateLine) =
      some (pre.length + 2 + descs.length + 1 + blanks.length + 1 + fee.length,
        [⟨dateTimeOfFields (digitsValue [y1, y2, y3, y4]) (digitsValue [m1, m2])
            (digitsValue [d1, d2]) (digitsValue [h1, h2]) (digitsValue [n1, n2]),
          String.mk (Join (descs.map TrimSpace)), parseOptimaAmount (TrimSpace amountLine),
          "KGS", OptimaParser.BankName, String.mk (Join (descs.map TrimSpace))⟩]) := by
  have e1 : pre ++ dateLine :: timeLine :: (descs ++ amountLine :: (blanks ++
      kgsLine :: (fee ++ rest))) = (pre ++ [dateLine]) ++ timeLine :: (descs ++ amountLine ::
      (blanks ++ kgsLine :: (fee ++ rest))) := by simp
  have e2 : pre ++ dateLine :: timeLine :: (descs ++ amountLine :: (blanks ++
      kgsLine :: (fee ++ rest))) = (pre ++ [dateLine, timeLine]) ++ (descs ++ amountLine ::
      (blanks ++ kgsLine :: (fee ++ rest))) := by simp
  have e3 : pre ++ dateLine :: timeLine :: (descs ++ amountLine :: (blanks ++
      kgsLine :: (fee ++ rest))) = (pre ++ [dateLine, timeLine] ++ descs ++ [amountLine] ++
      blanks) ++ kgsLine :: (fee ++ rest) := by simp
  have e4 : pre ++ dateLine :: timeLine :: (descs ++ amountLine :: (blanks ++
      kgsLine :: (fee ++ rest))) = (pre ++ [dateLine, timeLine] ++ descs ++ [amountLine] ++
      blanks ++ [kgsLine]) ++ (fee ++ rest) := by simp
  generalize hL : pre ++ dateLine :: timeLine :: (descs ++ amountLine :: (blanks ++
      kgsLine :: (fee ++ rest))) = lines at e1 e2 e3 e4
  have htime : lines[pre.length + 1]? = some timeLine := by
    rw [e1]
    exact getElem?_of_append _ _ _ _ (by simp)
  have hdrop : lines.drop (pre.length + 2) = descs ++ amountLine :: (blanks ++
      kgsLine :: (fee ++ rest)) := by
    rw [e2]
    exact drop_of_append _ _ _ (by simp)
  have hget : lines[pre.length + 2 + descs.length + 1 + blanks.length]? = some kgsLine := by
    rw [e3]
    exact getElem?_of_append _ _ _ _ (by simp; omega)
  have hdrop2 : lines.drop (pre.length + 2 + descs.length + 1 + blanks.length + 1) =
      fee ++ rest := by
    rw [e4]
    exact drop_of_append _ _ _ (by simp; omega)
  have hscan : optimaDescLoop lines (lines.drop (pre.length + 2)) (pre.length + 2) [] =
      (pre.length + 2 + descs.length + 1 + blanks.length + 1, descs.map TrimSpace,
        some (parseOptimaAmount (TrimSpace amountLine))) := by
    rw [hdrop, optimaDescLoop_descs lines descs _ _ _ hdescs,
      optimaDescLoop_kgs lines amountLine blanks kgsLine (fee ++ rest) _ _ hne hm hb hk hget]
    rfl
  have key := optimaBody_scan lines pre.length d1 d2 m1 m2 y1 y2 y3 y4 h1 h2 n1 n2 timeLine _ _ _
    hdig hvalid htime hclock hscan
  rw [hdrop2, optimaSkipFee_fee fee rest _ hf hr, ← hdate] at key
  exact key

theorem optimaBody_block_usd (pre descs blanks1 blanks2 fee rest : List (List Char))
    (dateLine timeLine amountLine1 usdLine amountLine2 kgsLine : List Char)
    (d1 d2 m1 m2 y1 y2 y3 y4 h1 h2 n1 n2 : Char)
    (hdate : TrimSpace dateLine = [d1, d2, '.', m1, m2, '.', y1, y2, y3, y4])
    (hclock : TrimSpace timeLine = [h1, h2, ':', n1, n2])
    (hdig : [d1, d2, m1, m2, y1, y2, y3, y4, h1, h2, n1, n2].all Char.isDigit = true)
    (hvalid : 1 ≤ digitsValue [m1, m2] ∧ digitsValue [m1, m2] ≤ 12 ∧ 1 ≤ digitsValue [d1, d2] ∧
      digitsValue [d1, d2] ≤ daysIn (digitsValue [m1, m2]) (digitsValue [y1, y2, y3, y4]) ∧
      digitsValue [h1, h2] < 24 ∧ digitsValue [n1, n2] < 60)
    (hdescs : ∀ d ∈ descs, TrimSpace d ≠ [] ∧ optimaAmountMatch (TrimSpace d) = false ∧
      optimaIsBoilerplate (TrimSpace d) = false)
    (hne1 : TrimSpace amountLine1 ≠ [])
    (hm1 : optimaAmountMatch (TrimSpace amountLine1) = true)
    (hb1 : ∀ b ∈ blanks1, TrimSpace b = []) (hu : TrimSpace usdLine = "USD".data)
    (hne2 : TrimSpace amountLine2 ≠ [])
    (hm2 : optimaAmountMatch (TrimSpace amountLine2) = true)
    (hb2 : ∀ b ∈ blanks2, TrimSpace b = []) (hk : TrimSpace kgsLine = "KGS".data)
    (hf : ∀ f ∈ fee, TrimSpace f = "0".data ∨ TrimSpace f = "KGS".data ∨ TrimSpace f = [])
    (hr : ∀ l, rest.head? = some l →
      ¬ (TrimSpace l = "0".data ∨ TrimSpace l = "KGS".data ∨ TrimSpace l = [])) :
    optimaBody (pre ++ dateLine :: timeLine :: (descs ++ amountLine1 :: (blanks1 ++
        usdLine :: amountLine2 :: (blanks2 ++ kgsLine :: (fee ++ rest)))))
        pre.length (TrimSpace dateLine) =
      some (pre.length + 2 + descs.length + 1 + blanks1.length + 1 + 1 + blanks2.length + 1 +
          fee.length,
        [⟨dateTimeOfFields (digitsValue [y1, y2, y3, y4]) (digitsValue [m1, m2])
            (digitsValue [d1, d2]) (digitsValue [h1, h2]) (digitsValue [n1, n2]),
          String.mk (Join (descs.map TrimSpace)), parseOptimaAmount (TrimSpace amountLine2),
          "KGS", OptimaParser.BankName, String.mk (Join (descs.map TrimSpace))⟩]) := by
  have e1 : pre ++ dateLine :: timeLine :: (descs ++ amountLine1 :: (blanks1 ++
      usdLine :: amountLine2 :: (blanks2 ++ kgsLine :: (fee ++ rest)))) =
      (pre ++ [dateLine]) ++ timeLine :: (descs ++ amountLine1 :: (blanks1 ++
      usdLine :: amountLine2 :: (blanks2 ++ kgsLine :: (fee ++ rest)))) := by simp
  have e2 : pre ++ dateLine :: timeLine :: (descs ++ amountLine1 :: (blanks1 ++
      usdLine :: amountLine2 :: (blanks2 ++ kgsLine :: (fee ++ rest)))) =
      (pre ++ [dateLine, timeLine]) ++ (descs ++ amountLine1 :: (blanks1 ++
      usdLine :: amountLine2 :: (blanks2 ++ kgsLine :: (fee ++ rest)))) := by simp
  have e3 : pre ++ dateLine :: timeLine :: (descs ++ amountLine1 :: (blanks1 ++
      usdLine :: amountLine2 :: (blanks2 ++ kgsLine :: (fee ++ rest)))) =
      (pre ++ [dateLine, timeLine] ++ descs ++ [amountLine1] ++ blanks1) ++
      usdLine :: (amountLine2 :: (blanks2 ++ kgsLine :: (fee ++ rest))) := by simp
  have e4 : pre ++ dateLine :: timeLine :: (descs ++ amountLine1 :: (blanks1 ++
      usdLine :: amountLine2 :: (blanks2 ++ kgsLine :: (fee ++ rest)))) =
      (pre ++ [dateLine, timeLine] ++ descs ++ [amountLine1] ++ blanks1 ++ [usdLine]) ++
      (amountLine2 :: (blanks2 ++ kgsLine :: (fee ++ rest))) := by simp
  have e5 : pre ++ dateLine :: timeLine :: (descs ++ amountLine1 :: (blanks1 ++
      usdLine :: amountLine2 :: (blanks2 ++ kgsLine :: (fee ++ rest)))) =
      (pre ++ [dateLine, timeLine] ++ descs ++ [amountLine1] ++ blanks1 ++ [usdLine] ++
      [amountLine2] ++ blanks2) ++ kgsLine :: (fee ++ rest) := by simp
  have e6 : pre ++ dateLine :: timeLine :: (descs ++ amountLine1 :: (blanks1 ++
      usdLine :: amountLine2 :: (blanks2 ++ kgsLine :: (fee ++ rest)))) =
      (pre ++ [dateLine, timeLine] ++ descs ++ [amountLine1] ++ blanks1 ++ [usdLine] ++
      [amountLine2] ++ blanks2 ++ [kgsLine]) ++ (fee ++ rest) := by simp
  generalize hL : pre ++ dateLine :: timeLine :: (descs ++ amountLine1 :: (blanks1 ++
      usdLine :: amountLine2 :: (blanks2 ++ kgsLine :: (fee ++ rest)))) = lines
    at e1 e2 e3 e4 e5 e6
  have htime : lines[pre.length + 1]? = some timeLine := by
    rw [e1]
    exact getElem?_of_append _ _ _ _ (by simp)
  have hdrop : lines.drop (pre.length + 2) = descs ++ amountLine1 :: (blanks1 ++
      usdLine :: amountLine2 :: (blanks2 ++ kgsLine :: (fee ++ rest))) := by
    rw [e2]
    exact drop_of_append _ _ _ (by simp)
  have hget1 : lines[pre.length + 2 + descs.length + 1 + blanks1.length]? = some usdLine := by
    rw [e3]
    exact getElem?_of_append _ _ _ _ (by simp; omega)
  have hdrop1 : lines.drop (pre.length + 2 + descs.length + 1 + blanks1.length + 1) =
      amountLine2 :: (blanks2 ++ kgsLine :: (fee ++ rest)) := by
    rw [e4]
    exact drop_of_append _ _ _ (by simp; omega)
  have hget2 : lines[pre.length + 2 + descs.length + 1 + blanks1.length + 1 + 1 +
      blanks2.length]? = some kgsLine := by
    rw [e5]
    exact getElem?_of_append _ _ _ _ (by simp; omega)
  have hdrop2 : lines.drop (pre.length + 2 + descs.length + 1 + blanks1.length + 1 + 1 +
      blanks2.length + 1) = fee ++ rest := by
    rw [e6]
    exact drop_of_append _ _ _ (by simp; omega)
  have hscan : optimaDescLoop lines (lines.drop (pre.length + 2)) (pre.length + 2) [] =
      (pre.length + 2 + descs.length + 1 + blanks1.length + 1 + 1 + blanks2.length + 1,
        descs.map TrimSpace, some (parseOptimaAmount (TrimSpace amountLine2))) := by
    rw [hdrop, optimaDescLoop_descs lines descs _ _ _ hdescs,
      optimaDescLoop_usd lines amountLine1 blanks1 usdLine _ _ _ hne1 hm1 hb1 hu hget1,
      hdrop1, optimaFindKGS_hit lines amountLine2 blanks2 kgsLine (fee ++ rest) _ hne2 hm2 hb2 hk
        hget2]
    rfl
  have key := optimaBody_scan lines pre.length d1 d2 m1 m2 y1 y2 y3 y4 h1 h2 n1 n2 timeLine _ _ _
    hdig hvalid htime hclock hscan
  rw [hdrop2, optimaSkipFee_fee fee rest _ hf hr, ← hdate] at key
  exact key

theorem optimaLoop_single (lines : List (List Char)) (n : Nat) (l : List Char) (next : Nat)
    (found : List Transaction)
    (hskip : ∀ m, m < n →
      ∃ l, lines[m]? = some l ∧ optimaBody lines m (TrimSpace l) = some (m + 1, []))
    (hn : lines[n]? = some l)
    (hb : optimaBody lines n (TrimSpace l) = some (next, found))
    (hend : lines.length ≤ next) :
    optimaLoop lines (lines.length + 1) 0 [] = some found := by
  have hlt : n < lines.length := by
    by_contra hge
    rw [List.getElem?_eq_none (by omega)] at hn
    cases hn
  obtain ⟨f, hf⟩ : ∃ f, lines.length + 1 = (f + 1 + 1) + n := ⟨lines.length - n - 1, by omega⟩
  rw [hf, optimaLoop_skip lines n 0 (f + 1 + 1) [] (fun m _ h => hskip m (by omega)),
    Nat.zero_add, optimaLoop_step lines (f + 1) n [] l next found hn hb,
    optimaLoop_done lines f next _ (List.getElem?_eq_none hend), List.nil_append]

theorem groupsText_last_digit (g : List Char) (gs : List (Char × List Char))
    (hg : ∀ c ∈ g, c.isDigit = true)
    (hgs : ∀ p ∈ gs, p.2 ≠ [] ∧ ∀ c ∈ p.2, c.isDigit = true) :
    ∀ c, (groupsText g gs).getLast? = some c → c.isDigit = true := by
  intro c hc
  unfold groupsText at hc
  rcases List.eq_nil_or_concat gs with h | ⟨gs', p, h⟩
  · subst h
    rw [List.flatMap_nil, List.append_nil] at hc
    exact hg c (List.mem_of_mem_getLast? hc)
  · subst h
    obtain ⟨hp1, hp2⟩ := hgs p (by simp)
    rw [List.concat_eq_append, List.flatMap_append, List.flatMap_singleton, ← List.append_assoc,
      List.getLast?_append_of_ne_nil _ (List.cons_ne_nil _ _)] at hc
    have e : p.1 :: p.2 = [p.1] ++ p.2 := rfl
    rw [e, List.getLast?_append_of_ne_nil _ hp1] at hc
    exact hp2 c (List.mem_of_mem_getLast? hc)

theorem TrimSpace_amountText (b : OptimaBlock) (hw : b.WellFormed) :
    TrimSpace b.amountText = b.amountText := by
  obtain ⟨_, _, _, hne, hg, hgs, hF, hd1, _⟩ := hw
  apply TrimSpace_of_ends
  · intro c hc
    unfold OptimaBlock.amountText groupsText signText at hc
    cases hneg : b.neg
    · rw [hneg] at hc
      cases hgg : b.g with
      | nil => exact absurd hgg hne
      | cons x xs =>
        rw [hgg] at hc
        simp at hc
        subst hc
        exact isSpace_of_isDigit _ (hg _ (by rw [hgg]; exact List.mem_cons_self _ _))
    · rw [hneg] at hc
      simp at hc
      subst hc
      rfl
  · intro c hc
    unfold OptimaBlock.amountText at hc
    cases hdot : b.dot
    · rw [hdot] at hc
      simp only [Bool.false_eq_true, if_false, List.append_nil] at hc
      rw [List.getLast?_append_of_ne_nil _ (by
        unfold groupsText
        intro h
        exact hne (List.append_eq_nil.1 h).1)] at hc
      exact isSpace_of_isDigit _ (groupsText_last_digit b.g b.gs hg
        (fun p hp => ⟨(hgs p hp).2.1, (hgs p hp).2.2⟩) c hc)
    · rw [hdot] at hc
      simp only [if_true] at hc
      have e : '.' :: b.F = ['.'] ++ b.F := rfl
      rw [List.getLast?_append_of_ne_nil _ (List.cons_ne_nil _ _), e,
        List.getLast?_append_of_ne_nil _ (hd1 hdot)] at hc
      exact isSpace_of_isDigit _ (hF c (List.mem_of_mem_getLast? hc))

theorem TrimSpace_clock (h1 h2 n1 n2 : Char) (hh : h1.isDigit = true)
    (hn : n2.isDigit = true) : TrimSpace [h1, h2, ':', n1, n2] = [h1, h2, ':', n1, n2] := by
  apply TrimSpace_of_ends
  · intro c hc
    simp at hc
    subst hc
    exact isSpace_of_isDigit _ hh
  · intro c hc
    simp at hc
    subst hc
    exact isSpace_of_isDigit _ hn

theorem optimaBody_of_block (pre : List (List Char)) (b : OptimaBlock)
    (rest : List (List Char)) (hw : b.WellFormed)
    (hr : ∀ l, rest.head? = some l →
      ¬ (TrimSpace l = "0".data ∨ TrimSpace l = "KGS".data ∨ TrimSpace l = [])) :
    optimaBody (pre ++ (b.lines ++ rest)) pre.length
        (TrimSpace [b.d1, b.d2, '.', b.m1, b.m2, '.', b.y1, b.y2, b.y3, b.y4]) =
      some (pre.length + 7, [b.transaction]) := by
  have hw' := hw
  obtain ⟨hdig, hvalid, hdesc, hne, hg, hgs, hF, hd1, hd2⟩ := hw'
  have hdig' := hdig
  simp only [List.all_cons, List.all_nil, Bool.and_true, Bool.and_eq_true] at hdig'
  obtain ⟨a1, a2, a3, a4, a5, a6, a7, a8, a9, a10, a11, a12⟩ := hdig'
  have hA := TrimSpace_amountText b hw
  have hgs' : ∀ p ∈ b.gs, p.1 = ' ' ∧ ∀ c ∈ p.2, c.isDigit = true :=
    fun p hp => ⟨(hgs p hp).1, (hgs p hp).2.2⟩
  have key := optimaBody_block pre [b.desc] [] ["0".data, "KGS".data] rest
    [b.d1, b.d2, '.', b.m1, b.m2, '.', b.y1, b.y2, b.y3, b.y4] [b.h1, b.h2, ':', b.n1, b.n2]
    b.amountText "KGS".data b.d1 b.d2 b.m1 b.m2 b.y1 b.y2 b.y3 b.y4 b.h1 b.h2 b.n1 b.n2
    (TrimSpace_date _ _ _ _ _ _ _ _ a1 a8) (TrimSpace_clock _ _ _ _ a9 a12) hdig hvalid
    (by
      intro d hd
      rw [List.mem_singleton] at hd
      subst hd
      exact hdesc)
    (by
      rw [hA]
      exact amountText_ne_nil _ _ _ _ hne)
    (by
      rw [hA]
      exact optimaAmountMatch_shape b.neg b.g b.gs b.dot b.F hne hg hgs' hF hd1)
    (by intro x hx; cases hx) (by decide)
    (by
      intro f hf
      simp only [List.mem_cons, List.mem_singleton, List.not_mem_nil, or_false] at hf
      rcases hf with h | h <;> subst h
      · exact Or.inl (by decide)
      · exact Or.inr (Or.inl (by decide)))
    hr
  have hval : parseOptimaAmount (TrimSpace b.amountText) =
      decimalValue b.neg (groupsDigits b.g b.gs) b.F := by
    rw [hA]
    exact parseOptimaAmount_groups b.neg b.g b.gs b.dot b.F hg hgs' hF hd2
  have e1 : Join ([b.desc].map TrimSpace) = TrimSpace b.desc := by
    simp [Join, List.intercalate]
  rw [hval, e1] at key
  exact key

theorem block_head_not_fee (bs : List OptimaBlock) (tail : List (List Char))
    (hw : ∀ b ∈ bs, b.WellFormed)
    (ht : ∀ l, tail.head? = some l →
      ¬ (TrimSpace l = "0".data ∨ TrimSpace l = "KGS".data ∨ TrimSpace l = [])) :
    ∀ l, (bs.flatMap OptimaBlock.lines ++ tail).head? = some l →
      ¬ (TrimSpace l = "0".data ∨ TrimSpace l = "KGS".data ∨ TrimSpace l = []) := by
  intro l hl
  cases bs with
  | nil => exact ht l hl
  | cons b bs' =>
    obtain ⟨hdig, _⟩ := hw b (List.mem_cons_self _ _)
    simp only [List.all_cons, List.all_nil, Bool.and_true, Bool.and_eq_true] at hdig
    obtain ⟨a1, _, _, _, _, _, _, a8, _⟩ := hdig
    simp only [List.flatMap_cons, OptimaBlock.lines, List.cons_append, List.head?_cons,
      Option.some.injEq] at hl
    subst hl
    rw [TrimSpace_date _ _ _ _ _ _ _ _ a1 a8]
    exact date_not_fee _ _ _ _ _ _ _ _

theorem optimaLoop_blocks (blocks : List OptimaBlock) :
    ∀ (pre : List (List Char)) (acc : List Transaction) (fuel : Nat),
      (∀ b ∈ blocks, b.WellFormed) → blocks.length < fuel →
      optimaLoop (pre ++ blocks.flatMap OptimaBlock.lines) fuel pre.length acc =
        some (acc ++ blocks.map OptimaBlock.transaction) := by
  induction blocks with
  | nil =>
    intro pre acc fuel _ hf
    obtain ⟨f, rfl⟩ : ∃ f, fuel = f + 1 := ⟨fuel - 1, by omega⟩
    rw [optimaLoop_done _ f _ _ (List.getElem?_eq_none (by simp))]
    simp
  | cons b bs ih =>
    intro pre acc fuel hw hf
    obtain ⟨f, rfl⟩ : ∃ f, fuel = f + 1 := ⟨fuel - 1, by omega⟩
    have hwb := hw b (List.mem_cons_self _ _)
    have hws : ∀ x ∈ bs, x.WellFormed := fun x hx => hw x (List.mem_cons_of_mem _ hx)
    have hbody := optimaBody_of_block pre b (bs.flatMap OptimaBlock.lines) hwb (by
      have := block_head_not_fee bs [] hws (by intro l hl; cases hl)
      simpa using this)
    have hget : (pre ++ (b.lines ++ bs.flatMap OptimaBlock.lines))[pre.length]? =
        some [b.d1, b.d2, '.', b.m1, b.m2, '.', b.y1, b.y2, b.y3, b.y4] := by
      exact getElem?_of_append pre _ _ _ rfl
    have hih := ih (pre ++ b.lines) (acc ++ [b.transaction]) f hws
      (by simp only [List.length_cons] at hf; omega)
    have hlen : (pre ++ b.lines).length = pre.length + 7 := by
      simp [OptimaBlock.lines]
    rw [hlen, List.append_assoc] at hih
    rw [List.flatMap_cons, optimaLoop_step _ f pre.length acc _ _ _ hget hbody, hih]
    simp

/-! ## Lemmas on fuel and on the completeness of the finder -/

theorem Parse_optima_single (content : String) (lines : List (List Char)) (n : Nat)
    (l : List Char) (next : Nat) (found : List Transaction)
    (hlines : Split (normalizeSpaces content.data) = lines)
    (hskip : ∀ m, m < n →
      ∃ l, lines[m]? = some l ∧ optimaBody lines m (TrimSpace l) = some (m + 1, []))
    (hn : lines[n]? = some l)
    (hb : optimaBody lines n (TrimSpace l) = some (next, found))
    (hend : lines.length ≤ next) :
    OptimaParser.Parse content = some (found, none) := by
  unfold OptimaParser.Parse
  simp only [hlines]
  rw [optimaLoop_single lines n l next found hskip hn hb hend]
  rfl

theorem optima_headers_skip (headers rest : List (List Char))
    (hh : ∀ h ∈ headers, optimaDateMatch (TrimSpace h) = false) :
    ∀ m, m < headers.length → ∃ l, (headers ++ rest)[m]? = some l ∧
      optimaBody (headers ++ rest) m (TrimSpace l) = some (m + 1, []) := by
  intro m hm
  refine ⟨headers[m], ?_, optimaBody_no_date _ _ _ (hh _ (List.getElem_mem _))⟩
  rw [List.getElem?_append_left hm]
  exact List.getElem?_eq_getElem hm

theorem mbankLoop_fuel (lines : List (List Char)) :
    ∀ (f1 f2 i : Nat) (acc : List Transaction), lines.length - i < f1 →
      lines.length - i < f2 → mbankLoop lines f1 i acc = mbankLoop lines f2 i acc := by
  intro f1
  induction f1 with
  | zero => intro f2 i acc h; omega
  | succ n ih =>
    intro f2 i acc h1 h2
    obtain ⟨m, rfl⟩ : ∃ m, f2 = m + 1 := ⟨f2 - 1, by omega⟩
    cases hl : lines[i]? with
    | none => rw [mbankLoop_done _ _ _ _ hl, mbankLoop_done _ _ _ _ hl]
    | some l =>
      have hlt : i < lines.length := by
        by_contra hge
        rw [List.getElem?_eq_none (by omega)] at hl
        cases hl
      obtain ⟨i', found, hb, hle, _⟩ := mbankBody_spec lines i (TrimSpace l)
      rw [mbankLoop_step _ _ _ _ _ _ _ hl hb, mbankLoop_step _ _ _ _ _ _ _ hl hb]
      exact ih m (i' + 1) _ (by omega) (by omega)

theorem optimaLoop_fuel (lines : List (List Char)) :
    ∀ (f1 f2 i : Nat) (acc : List Transaction), lines.length - i < f1 →
      lines.length - i < f2 → optimaLoop lines f1 i acc = optimaLoop lines f2 i acc := by
  intro f1
  induction f1 with
  | zero => intro f2 i acc h; omega
  | succ n ih =>
    intro f2 i acc h1 h2
    obtain ⟨m, rfl⟩ : ∃ m, f2 = m + 1 := ⟨f2 - 1, by omega⟩
    cases hl : lines[i]? with
    | none => rw [optimaLoop_done _ _ _ _ hl, optimaLoop_done _ _ _ _ hl]
    | some l =>
      have hlt : i < lines.length := by
        by_contra hge
        rw [List.getElem?_eq_none (by omega)] at hl
        cases hl
      cases hb : optimaBody lines i (TrimSpace l) with
      | none =>
        rw [optimaLoop_succ, optimaLoop_succ, hl]
        simp only [hb]
      | some r =>
        obtain ⟨i', found⟩ := r
        have hlt' := (optimaBody_spec lines i _ _ hb).1
        rw [optimaLoop_step _ _ _ _ _ _ _ hl hb, optimaLoop_step _ _ _ _ _ _ _ hl hb]
        exact ih m i' _ (by simp only at hlt'; omega) (by simp only at hlt'; omega)

theorem cell_subset_FindDuplicates (ts : List Transaction) (mt : Int) (ma : ℚ) (i j : Nat)
    (hij : i < j) (hj : j < (deduplicateTransactions ts).length) :
    ∀ m ∈ cell mt ma (deduplicateTransactions ts) i j, m ∈ FindDuplicates ts mt ma := by
  intro m hm
  rw [FindDuplicates_eq]
  simp only [List.mem_flatMap, List.mem_range, List.mem_range'_1]
  exact ⟨i, by omega, j, ⟨by omega, by omega⟩, hm⟩

theorem pair_reported (ts : List Transaction) (mt : Int) (ma : ℚ) (a b : Transaction)
    (i j : Nat) (hij : i < j) (hi : (deduplicateTransactions ts)[i]? = some a)
    (hj : (deduplicateTransactions ts)[j]? = some b)
    (hbank : a.Bank ≠ b.Bank) (hcur : a.Currency = b.Currency)
    (hneg : a.Amount < 0 ∧ b.Amount < 0) (ht : |a.DateTime - b.DateTime| ≤ mt)
    (ham : |(|a.Amount| - |b.Amount|)| ≤ ma) :
    (⟨a, b, timeDiffOf a b, |(|a.Amount| - |b.Amount|)|⟩ : DuplicateMatch) ∈
      FindDuplicates ts mt ma := by
  have hjl : j < (deduplicateTransactions ts).length := by
    by_contra hge
    rw [List.getElem?_eq_none (by omega)] at hj
    cases hj
  apply cell_subset_FindDuplicates ts mt ma i j hij hjl
  unfold cell
  rw [hi, hj]
  simp only []
  rw [pairStep_eq, if_pos ⟨hbank, hcur, hneg, le_trans (timeDiffOf_le a b) ht, ham⟩]
  simp

/-! ## The claims on Optima records, totality and completeness -/

/-- C21: Variant B record extraction. The lines of the space-normalised text are
header lines that are not bare dates, then a bare date line `DD.MM.YYYY` (valid
date), a bare time line `HH:MM`, description lines (none blank, amount-shaped,
a boilerplate token or containing `/6`), an amount line (optional minus sign,
digit groups separated by single spaces, optional period and fraction digits),
blank lines, a `KGS` line and possibly fee lines (`0`, `KGS` or blank). Then
`OptimaParser.Parse` returns exactly one transaction: its timestamp is that date
and minute, its description the trimmed description lines joined by single
spaces, its amount the value of the amount line. -/
theorem C21_optima_record_extraction (content : String)
    (headers descs blanks fee : List (List Char))
    (dateLine timeLine amountLine kgsLine : List Char)
    (d1 d2 m1 m2 y1 y2 y3 y4 h1 h2 n1 n2 : Char) (neg : Bool) (g : List Char)
    (gs : List (Char × List Char)) (dot : Bool) (F : List Char)
    (hlines : Split (normalizeSpaces content.data) =
      headers ++ dateLine :: timeLine :: (descs ++ amountLine :: (blanks ++ kgsLine :: fee)))
    (hheaders : ∀ h ∈ headers, optimaDateMatch (TrimSpace h) = false)
    (hdate : TrimSpace dateLine = [d1, d2, '.', m1, m2, '.', y1, y2, y3, y4])
    (hclock : TrimSpace timeLine = [h1, h2, ':', n1, n2])
    (hdig : [d1, d2, m1, m2, y1, y2, y3, y4, h1, h2, n1, n2].all Char.isDigit = true)
    (hvalid : 1 ≤ digitsValue [m1, m2] ∧ digitsValue [m1, m2] ≤ 12 ∧ 1 ≤ digitsValue [d1, d2] ∧
      digitsValue [d1, d2] ≤ daysIn (digitsValue [m1, m2]) (digitsValue [y1, y2, y3, y4]) ∧
      digitsValue [h1, h2] < 24 ∧ digitsValue [n1, n2] < 60)
    (hdescs : ∀ d ∈ descs, TrimSpace d ≠ [] ∧ optimaAmountMatch (TrimSpace d) = false ∧
      optimaIsBoilerplate (TrimSpace d) = false)
    (hamount : TrimSpace amountLine =
      signText neg none ++ groupsText g gs ++ (if dot then '.' :: F else []))
    (hne : g ≠ []) (hg : ∀ c ∈ g, c.isDigit = true)
    (hgs : ∀ p ∈ gs, p.1 = ' ' ∧ ∀ c ∈ p.2, c.isDigit = true)
    (hF : ∀ c ∈ F, c.isDigit = true) (hdot : dot = true → F ≠ [])
    (hnodot : dot = false → F = [])
    (hb : ∀ b ∈ blanks, TrimSpace b = []) (hk : TrimSpace kgsLine = "KGS".data)
    (hf : ∀ f ∈ fee, TrimSpace f = "0".data ∨ TrimSpace f = "KGS".data ∨ TrimSpace f = []) :
    OptimaParser.Parse content =
      some ([⟨dateTimeOfFields (digitsValue [y1, y2, y3, y4]) (digitsValue [m1, m2])
          (digitsValue [d1, d2]) (digitsValue [h1, h2]) (digitsValue [n1, n2]),
        String.mk (Join (descs.map TrimSpace)), decimalValue neg (groupsDigits g gs) F, "KGS",
        "Optima Bank", String.mk (Join (descs.map TrimSpace))⟩], none) := by
  have hbody := optimaBody_block headers descs blanks fee [] dateLine timeLine amountLine kgsLine
    d1 d2 m1 m2 y1 y2 y3 y4 h1 h2 n1 n2 hdate hclock hdig hvalid hdescs
    (by rw [hamount]; exact amountText_ne_nil _ _ _ _ hne)
    (by rw [hamount]; exact optimaAmountMatch_shape neg g gs dot F hne hg hgs hF hdot)
    hb hk hf (by intro l hl; cases hl)
  rw [hamount, parseOptimaAmount_groups neg g gs dot F hg hgs hF hnodot,
    List.append_nil] at hbody
  exact Parse_optima_single content _ headers.length dateLine _ _ hlines
    (optima_headers_skip headers _ hheaders) (getElem?_of_append _ _ _ _ rfl) hbody
    (by simp only [List.length_append, List.length_cons]; omega)

/-- Witness of C21 on the test "single transaction". -/
theorem C21_witness :
    OptimaParser.Parse
        "Optima Bank Statement\n15.01.2025\n10:30\nPayment to merchant\n-1 500.00\nKGS\n0\nKGS" =
      some ([⟨dateTimeOfFields 2025 1 15 10 30, "Payment to merchant", -1500, "KGS",
        "Optima Bank", "Payment to merchant"⟩], none) :=
  (C21_optima_record_extraction
    "Optima Bank Statement\n15.01.2025\n10:30\nPayment to merchant\n-1 500.00\nKGS\n0\nKGS"
    ["Optima Bank Statement".data] ["Payment to merchant".data] [] ["0".data, "KGS".data]
    "15.01.2025".data "10:30".data "-1 500.00".data "KGS".data
    '1' '5' '0' '1' '2' '0' '2' '5' '1' '0' '3' '0' true ['1'] [(' ', ['5', '0', '0'])] true
    ['0', '0']
    (by decide!) (by decide!) (by decide!) (by decide!) (by decide) (by decide) (by decide!)
    (by decide!) (by decide) (by decide) (by decide) (by decide) (by decide) (by decide)
    (by decide) (by decide!) (by decide!)).trans (by decide!)

/-- C22: Variant B foreign-currency skip. For a block made of a bare date line, a
bare time line, description lines, an amount line followed by `USD`, then an
amount line followed by `KGS`, `OptimaParser.Parse` returns exactly one
transaction: its amount is the value of the second amount line, its currency
`KGS`, its description the join of the description lines only. -/
theorem C22_optima_foreign_currency (content : String)
    (headers descs blanks1 blanks2 fee : List (List Char))
    (dateLine timeLine amountLine1 usdLine amountLine2 kgsLine : List Char)
    (d1 d2 m1 m2 y1 y2 y3 y4 h1 h2 n1 n2 : Char) (neg : Bool) (g : List Char)
    (gs : List (Char × List Char)) (dot : Bool) (F : List Char)
    (hlines : Split (normalizeSpaces content.data) =
      headers ++ dateLine :: timeLine :: (descs ++ amountLine1 :: (blanks1 ++
        usdLine :: amountLine2 :: (blanks2 ++ kgsLine :: fee))))
    (hheaders : ∀ h ∈ headers, optimaDateMatch (TrimSpace h) = false)
    (hdate : TrimSpace dateLine = [d1, d2, '.', m1, m2, '.', y1, y2, y3, y4])
    (hclock : TrimSpace timeLine = [h1, h2, ':', n1, n2])
    (hdig : [d1, d2, m1, m2, y1, y2, y3, y4, h1, h2, n1, n2].all Char.isDigit = true)
    (hvalid : 1 ≤ digitsValue [m1, m2] ∧ digitsValue [m1, m2] ≤ 12 ∧ 1 ≤ digitsValue [d1, d2] ∧
      digitsValue [d1, d2] ≤ daysIn (digitsValue [m1, m2]) (digitsValue [y1, y2, y3, y4]) ∧
      digitsValue [h1, h2] < 24 ∧ digitsValue [n1, n2] < 60)
    (hdescs : ∀ d ∈ descs, TrimSpace d ≠ [] ∧ optimaAmountMatch (TrimSpace d) = false ∧
      optimaIsBoilerplate (TrimSpace d) = false)
    (hne1 : TrimSpace amountLine1 ≠ [])
    (hm1 : optimaAmountMatch (TrimSpace amountLine1) = true)
    (hb1 : ∀ b ∈ blanks1, TrimSpace b = []) (hu : TrimSpace usdLine = "USD".data)
    (hamount : TrimSpace amountLine2 =
      signText neg none ++ groupsText g gs ++ (if dot then '.' :: F else []))
    (hne : g ≠ []) (hg : ∀ c ∈ g, c.isDigit = true)
    (hgs : ∀ p ∈ gs, p.1 = ' ' ∧ ∀ c ∈ p.2, c.isDigit = true)
    (hF : ∀ c ∈ F, c.isDigit = true) (hdot : dot = true → F ≠ [])
    (hnodot : dot = false → F = [])
    (hb2 : ∀ b ∈ blanks2, TrimSpace b = []) (hk : TrimSpace kgsLine = "KGS".data)
    (hf : ∀ f ∈ fee, TrimSpace f = "0".data ∨ TrimSpace f = "KGS".data ∨ TrimSpace f = []) :
    OptimaParser.Parse content =
      some ([⟨dateTimeOfFields (digitsValue [y1, y2, y3, y4]) (digitsValue [m1, m2])
          (digitsValue [d1, d2]) (digitsValue [h1, h2]) (digitsValue [n1, n2]),
        String.mk (Join (descs.map TrimSpace)), decimalValue neg (groupsDigits g gs) F, "KGS",
        "Optima Bank", String.mk (Join (descs.map TrimSpace))⟩], none) := by
  have hbody := optimaBody_block_usd headers descs blanks1 blanks2 fee [] dateLine timeLine
    amountLine1 usdLine amountLine2 kgsLine d1 d2 m1 m2 y1 y2 y3 y4 h1 h2 n1 n2 hdate hclock hdig
    hvalid hdescs hne1 hm1 hb1 hu
    (by rw [hamount]; exact amountText_ne_nil _ _ _ _ hne)
    (by rw [hamount]; exact optimaAmountMatch_shape neg g gs dot F hne hg hgs hF hdot)
    hb2 hk hf (by intro l hl; cases hl)
  rw [hamount, parseOptimaAmount_groups neg g gs dot F hg hgs hF hnodot,
    List.append_nil] at hbody
  exact Parse_optima_single content _ headers.length dateLine _ _ hlines
    (optima_headers_skip headers _ hheaders) (getElem?_of_append _ _ _ _ rfl) hbody
    (by simp only [List.length_append, List.length_cons]; omega)

/-- Witness of C22 on a transfer of 20 USD booked as 1740 KGS. -/
theorem C22_witness :
    OptimaParser.Parse "15.01.2025\n10:30\nCard payment\n-20.00\nUSD\n-1 740.00\nKGS" =
      some ([⟨dateTimeOfFields 2025 1 15 10 30, "Card payment", -1740, "KGS",
        "Optima Bank", "Card payment"⟩], none) :=
  (C22_optima_foreign_currency
    "15.01.2025\n10:30\nCard payment\n-20.00\nUSD\n-1 740.00\nKGS"
    [] ["Card payment".data] [] [] []
    "15.01.2025".data "10:30".data "-20.00".data "USD".data "-1 740.00".data "KGS".data
    '1' '5' '0' '1' '2' '0' '2' '5' '1' '0' '3' '0' true ['1'] [(' ', ['7', '4', '0'])] true
    ['0', '0']
    (by decide!) (by decide) (by decide!) (by decide!) (by decide) (by decide) (by decide!)
    (by decide!) (by decide!) (by decide) (by decide!)
    (by decide!) (by decide) (by decide) (by decide) (by decide) (by decide) (by decide)
    (by decide) (by decide!) (by decide)).trans (by decide!)

/-- C23: Variant B date-line guard. In the body of the main loop a bare date
line whose next line is not a bare `HH:MM` time line starts no record and moves
the cursor to the line right after it (and a bare date line that is the last
line ends the scan). For the lines `[date1, date2, time, description, amount,
KGS]` the result is exactly one transaction, timestamped `date2` and `time`. -/
theorem C23_optima_date_guard (content : String)
    (firstDate dateLine timeLine descLine amountLine kgsLine : List Char)
    (d1 d2 m1 m2 y1 y2 y3 y4 h1 h2 n1 n2 : Char) (neg : Bool) (g : List Char)
    (gs : List (Char × List Char)) (dot : Bool) (F : List Char)
    (hlines : Split (normalizeSpaces content.data) =
      [firstDate, dateLine, timeLine, descLine, amountLine, kgsLine])
    (hfirst : optimaDateMatch (TrimSpace firstDate) = true)
    (hdate : TrimSpace dateLine = [d1, d2, '.', m1, m2, '.', y1, y2, y3, y4])
    (hclock : TrimSpace timeLine = [h1, h2, ':', n1, n2])
    (hdig : [d1, d2, m1, m2, y1, y2, y3, y4, h1, h2, n1, n2].all Char.isDigit = true)
    (hvalid : 1 ≤ digitsValue [m1, m2] ∧ digitsValue [m1, m2] ≤ 12 ∧ 1 ≤ digitsValue [d1, d2] ∧
      digitsValue [d1, d2] ≤ daysIn (digitsValue [m1, m2]) (digitsValue [y1, y2, y3, y4]) ∧
      digitsValue [h1, h2] < 24 ∧ digitsValue [n1, n2] < 60)
    (hdesc : TrimSpace descLine ≠ [] ∧ optimaAmountMatch (TrimSpace descLine) = false ∧
      optimaIsBoilerplate (TrimSpace descLine) = false)
    (hamount : TrimSpace amountLine =
      signText neg none ++ groupsText g gs ++ (if dot then '.' :: F else []))
    (hne : g ≠ []) (hg : ∀ c ∈ g, c.isDigit = true)
    (hgs : ∀ p ∈ gs, p.1 = ' ' ∧ ∀ c ∈ p.2, c.isDigit = true)
    (hF : ∀ c ∈ F, c.isDigit = true) (hdot : dot = true → F ≠ [])
    (hnodot : dot = false → F = [])
    (hk : TrimSpace kgsLine = "KGS".data) :
    (∀ (lines : List (List Char)) (i : Nat) (line l1 : List Char),
      optimaDateMatch line = true → lines[i + 1]? = some l1 →
      optimaTimeMatch (TrimSpace l1) = false → optimaBody lines i line = some (i + 1, [])) ∧
    (∀ (lines : List (List Char)) (i : Nat) (line : List Char),
      optimaDateMatch line = true → lines[i + 1]? = none → optimaBody lines i line = none) ∧
    OptimaParser.Parse content =
      some ([⟨dateTimeOfFields (digitsValue [y1, y2, y3, y4]) (digitsValue [m1, m2])
          (digitsValue [d1, d2]) (digitsValue [h1, h2]) (digitsValue [n1, n2]),
        String.mk (TrimSpace descLine), decimalValue neg (groupsDigits g gs) F, "KGS",
        "Optima Bank", String.mk (TrimSpace descLine)⟩], none) := by
  refine ⟨fun lines i line l1 h1 h2 h3 => optimaBody_no_time lines i line l1 h1 h2 h3, ?_, ?_⟩
  · intro lines i line h1 h2
    unfold optimaBody
    rw [h1, h2]
    simp
  have hbody := optimaBody_block [firstDate] [descLine] [] [] [] dateLine timeLine amountLine
    kgsLine d1 d2 m1 m2 y1 y2 y3 y4 h1 h2 n1 n2 hdate hclock hdig hvalid
    (by
      intro d hd
      rw [List.mem_singleton] at hd
      subst hd
      exact hdesc)
    (by rw [hamount]; exact amountText_ne_nil _ _ _ _ hne)
    (by rw [hamount]; exact optimaAmountMatch_shape neg g gs dot F hne hg hgs hF hdot)
    (by intro x hx; cases hx) hk (by intro x hx; cases hx) (by intro l hl; cases hl)
  have e1 : Join ([descLine].map TrimSpace) = TrimSpace descLine := by
    simp [Join, List.intercalate]
  rw [hamount, parseOptimaAmount_groups neg g gs dot F hg hgs hF hnodot, e1] at hbody
  refine Parse_optima_single content _ 1 dateLine _ _ hlines ?_ rfl hbody (by simp)
  intro m hm
  obtain rfl : m = 0 := by omega
  refine ⟨firstDate, rfl, optimaBody_no_time _ 0 _ dateLine hfirst rfl ?_⟩
  rw [hdate]
  exact optimaTimeMatch_date _ _ _ _ _ _ _ _

/-- Witness of C23 on two date lines followed by the rest of a block. -/
theorem C23_witness :
    OptimaParser.Parse "14.01.2025\n15.01.2025\n10:30\nPayment\n-500.00\nKGS" =
      some ([⟨dateTimeOfFields 2025 1 15 10 30, "Payment", -500, "KGS", "Optima Bank",
        "Payment"⟩], none) :=
  ((C23_optima_date_guard "14.01.2025\n15.01.2025\n10:30\nPayment\n-500.00\nKGS"
    "14.01.2025".data "15.01.2025".data "10:30".data "Payment".data "-500.00".data "KGS".data
    '1' '5' '0' '1' '2' '0' '2' '5' '1' '0' '3' '0' true ['5', '0', '0'] [] true ['0', '0']
    (by decide!) (by decide!) (by decide!) (by decide!) (by decide) (by decide) (by decide!)
    (by decide!) (by decide) (by decide) (by decide) (by decide) (by decide) (by decide)
    (by decide!)).2.2).trans (by decide!)

/-- C24 (evaluation at the failing input): for the lines `[date1, time1, descA,
date2, time2, descB, amount, KGS]` the parser returns one transaction that
carries the timestamp of the first record and the amount of the second; its
description runs over the date and time lines of the second record. The second
record alone yields the transaction the claim expects. -/
theorem C24_first_record_takes_amount :
    OptimaParser.Parse
        "15.01.2025\n10:30\nFirst payment\n16.01.2025\n14:45\nSecond payment\n-2 000.00\nKGS" =
      some ([⟨dateTimeOfFields 2025 1 15 10 30,
        "First payment 16.01.2025 14:45 Second payment", -2000, "KGS", "Optima Bank",
        "First payment 16.01.2025 14:45 Second payment"⟩], none) ∧
    OptimaParser.Parse "16.01.2025\n14:45\nSecond payment\n-2 000.00\nKGS" =
      some ([⟨dateTimeOfFields 2025 1 16 14 45, "Second payment", -2000, "KGS", "Optima Bank",
        "Second payment"⟩], none) ∧
    dateTimeOfFields 2025 1 15 10 30 ≠ dateTimeOfFields 2025 1 16 14 45 := by
  decide!

/-- C25: for every input text, every transaction returned by `MbankParser.Parse`
has currency `KGS` and bank `Mbank`, and every transaction returned by
`OptimaParser.Parse` has currency `KGS` and bank `Optima Bank`; each bank name
is the value of the parser's `BankName`. -/
theorem C25_fixed_bank_and_currency (content : String) :
    (∃ ts, MbankParser.Parse content = some (ts, none) ∧
      ∀ t ∈ ts, t.Currency = "KGS" ∧ t.Bank = "Mbank" ∧ t.Bank = MbankParser.BankName) ∧
    (∃ ts, OptimaParser.Parse content = some (ts, none) ∧
      ∀ t ∈ ts, t.Currency = "KGS" ∧ t.Bank = "Optima Bank" ∧
        t.Bank = OptimaParser.BankName) := by
  constructor
  · apply Parse_mbank_spec content
    intro lines i line i' found hb t ht
    obtain ⟨i'', found', hb', _, hall⟩ := mbankBody_spec lines i line
    rw [hb] at hb'
    injection hb' with hb'
    injection hb' with _ h2
    subst h2
    exact ⟨(hall t ht).2.1, (hall t ht).2.2, (hall t ht).2.2⟩
  · apply Parse_optima_spec content
    intro lines i line r hb t ht
    have := (optimaBody_spec lines i line r hb).2 t ht
    exact ⟨this.1, this.2, this.2⟩

/-- C26: Variant B multi-record scan with fee blocks. When the lines of the
space-normalised text are header lines that are not bare dates followed by the
lines of well-formed blocks (date, time, description, amount, `KGS`, `0`, `KGS`),
`OptimaParser.Parse` returns exactly one transaction for each block, in block
order, each with the timestamp, description and amount of its block. -/
theorem C26_optima_multi_record (content : String) (headers : List (List Char))
    (blocks : List OptimaBlock)
    (hlines : Split (normalizeSpaces content.data) =
      headers ++ blocks.flatMap OptimaBlock.lines)
    (hheaders : ∀ h ∈ headers, optimaDateMatch (TrimSpace h) = false)
    (hblocks : ∀ b ∈ blocks, b.WellFormed) :
    OptimaParser.Parse content = some (blocks.map OptimaBlock.transaction, none) := by
  have hskip := optima_headers_skip headers (blocks.flatMap OptimaBlock.lines) hheaders
  have hlen : (headers ++ blocks.flatMap OptimaBlock.lines).length + 1 =
      ((blocks.flatMap OptimaBlock.lines).length + 1) + headers.length := by
    rw [List.length_append]
    omega
  have hfuel : blocks.length < (blocks.flatMap OptimaBlock.lines).length + 1 := by
    have : ∀ bs : List OptimaBlock, bs.length ≤ (bs.flatMap OptimaBlock.lines).length := by
      intro bs
      induction bs with
      | nil => simp
      | cons b bs ih =>
        simp only [List.flatMap_cons, List.length_append, List.length_cons, OptimaBlock.lines]
        simp only [List.length_nil]
        omega
    have := this blocks
    omega
  unfold OptimaParser.Parse
  simp only [hlines]
  rw [hlen, optimaLoop_skip _ headers.length 0 _ [] (fun m _ h => hskip m (by omega)),
    Nat.zero_add, optimaLoop_blocks blocks headers [] _ hblocks hfuel]
  rfl

/-- Witness of C26 on the test "multiple transactions". -/
theorem C26_witness :
    OptimaParser.Parse
        "Optima Bank Statement\n15.01.2025\n10:30\nFirst payment\n-1 000.00\nKGS\n0\nKGS\n15.01.2025\n14:45\nSecond payment\n-2 000.00\nKGS\n0\nKGS" =
      some ([⟨dateTimeOfFields 2025 1 15 10 30, "First payment", -1000, "KGS", "Optima Bank",
          "First payment"⟩,
        ⟨dateTimeOfFields 2025 1 15 14 45, "Second payment", -2000, "KGS", "Optima Bank",
          "Second payment"⟩], none) :=
  (C26_optima_multi_record
    "Optima Bank Statement\n15.01.2025\n10:30\nFirst payment\n-1 000.00\nKGS\n0\nKGS\n15.01.2025\n14:45\nSecond payment\n-2 000.00\nKGS\n0\nKGS"
    ["Optima Bank Statement".data] exBlocks (by decide!) (by decide!)
    (by
      intro b hb
      simp only [exBlocks, List.mem_cons, List.mem_singleton, List.not_mem_nil, or_false] at hb
      rcases hb with h | h <;> subst h <;>
        exact ⟨by decide, by decide, by decide!, by decide, by decide, by decide, by decide,
          by decide, by decide⟩)).trans (by decide!)

/-- C27: both scanners are total. For every input both `Parse` methods return a
list and a nil error; every iteration of either main loop moves the cursor
forward, so the loops end within one iteration for each line, and more fuel
does not change their result; the cursors returned by the inner loops are never
behind the cursors they start from; the slice bound of the Mbank description,
the last index of the matched amount, exists and lies within the text. -/
theorem C27_scanners_total (content : String) (lines : List (List Char)) (i : Nat)
    (line : List Char) :
    (∃ ts, MbankParser.Parse content = some (ts, none)) ∧
    (∃ ts, OptimaParser.Parse content = some (ts, none)) ∧
    (∃ i' found, mbankBody lines i line = some (i', found) ∧ i < i' + 1) ∧
    (∀ r, optimaBody lines i line = some r → i < r.1) ∧
    (∀ fuel, lines.length < fuel →
      mbankLoop lines fuel 0 [] = mbankLoop lines (lines.length + 1) 0 []) ∧
    (∀ fuel, lines.length < fuel →
      optimaLoop lines fuel 0 [] = optimaLoop lines (lines.length + 1) 0 []) ∧
    (∀ rest j fullText, i ≤ j → i ≤ (mbankLookAhead rest j fullText i).2) ∧
    (∀ rest, i ≤ skipBlank rest i) ∧
    (∀ rest, i ≤ (optimaFindKGS lines rest i).1) ∧
    (∀ rest descLines, i ≤ (optimaDescLoop lines rest i descLines).1) ∧
    (∀ rest, i ≤ optimaSkipFee rest i) ∧
    (∀ text m, findAmount text = some m →
      ∃ idx, LastIndex text m = some idx ∧ idx ≤ text.length) := by
  refine ⟨?_, ?_, ?_, ?_, ?_, ?_, ?_, ?_, ?_, ?_, ?_, ?_⟩
  · obtain ⟨ts, h, _⟩ := Parse_mbank_spec content (fun _ => True) (by intros; trivial)
    exact ⟨ts, h⟩
  · obtain ⟨ts, h, _⟩ := Parse_optima_spec content (fun _ => True) (by intros; trivial)
    exact ⟨ts, h⟩
  · obtain ⟨i', found, h, hle, _⟩ := mbankBody_spec lines i line
    exact ⟨i', found, h, by omega⟩
  · intro r hr
    exact (optimaBody_spec lines i line r hr).1
  · intro fuel hf
    exact mbankLoop_fuel lines fuel _ 0 [] (by omega) (by omega)
  · intro fuel hf
    exact optimaLoop_fuel lines fuel _ 0 [] (by omega) (by omega)
  · intro rest j fullText hj
    exact mbankLookAhead_cursor rest j fullText i hj
  · intro rest
    exact skipBlank_cursor rest i
  · intro rest
    exact optimaFindKGS_cursor lines rest i
  · intro rest descLines
    exact optimaDescLoop_cursor lines rest i descLines
  · intro rest
    exact optimaSkipFee_cursor rest i
  · intro text m hm
    obtain ⟨p, hp⟩ := findAmount_suffix hm
    refine ⟨p.length, ?_, ?_⟩
    · rw [hp]
      exact LastIndex_of_suffix p m
    · rw [hp, List.length_append]
      omega

/-- Counterexample to C28 as stated: a KGS debit of Mbank and a KGS debit of
Optima Bank at the same time and of the same amount satisfy the five conditions,
yet no match is returned when a USD debit of Mbank with the same minute and
amount precedes them: the pre-pass keeps the USD debit and drops the KGS one.
Likewise, with zero tolerances, a debit half a minute earlier in the same
minute takes the place of the one that matches. -/
theorem C28_counterexample :
    isDuplicatePair oneMinute 1 exDebit exNew ∧
    FindDuplicates [exDollar, exDebit, exNew] oneMinute 1 = [] ∧
    deduplicateTransactions [exDollar, exDebit, exNew] = [exDollar, exNew] ∧
    isDuplicatePair 0 0 exDebitLater exOptimaLater ∧
    FindDuplicates [exDebit, exDebitLater, exOptimaLater] 0 0 = [] := by
  decide!

/-- C28 (amended): completeness of `FindDuplicates` against its raw input. If any
two input transactions with the same pre-pass key also have the same currency,
timestamp and amount, and the input contains two transactions that satisfy the
five conditions, then `FindDuplicates` returns a match, made of the first
transactions of the input that have the keys of those two. -/
theorem C28_completeness (ts : List Transaction) (maxTimeDiff : Int) (maxAmountDiff : ℚ)
    (a b : Transaction) (ha : a ∈ ts) (hb : b ∈ ts)
    (hpair : isDuplicatePair maxTimeDiff maxAmountDiff a b)
    (hkey : ∀ x ∈ ts, ∀ y ∈ ts, key x = key y →
      x.Currency = y.Currency ∧ x.DateTime = y.DateTime ∧ x.Amount = y.Amount) :
    ∃ m ∈ FindDuplicates ts maxTimeDiff maxAmountDiff,
      (key m.Transaction1 = key a ∧ key m.Transaction2 = key b) ∨
      (key m.Transaction1 = key b ∧ key m.Transaction2 = key a) := by
  obtain ⟨hbank, hcur, hneg, ht, ham⟩ := hpair
  obtain ⟨a', ha', hka⟩ := dedup_covers ts a ha
  obtain ⟨b', hb', hkb⟩ := dedup_covers ts b hb
  obtain ⟨ca, ta, aa⟩ := hkey a' (mem_of_mem_dedup ha') a ha hka
  obtain ⟨cb, tb, ab⟩ := hkey b' (mem_of_mem_dedup hb') b hb hkb
  have hba : a'.Bank = a.Bank := ((key_eq_iff a' a).1 hka).1
  have hbb : b'.Bank = b.Bank := ((key_eq_iff b' b).1 hkb).1
  have hbank' : a'.Bank ≠ b'.Bank := by rw [hba, hbb]; exact hbank
  obtain ⟨i, hi⟩ := List.mem_iff_getElem?.1 ha'
  obtain ⟨j, hj⟩ := List.mem_iff_getElem?.1 hb'
  have hij : i ≠ j := by
    intro h
    subst h
    rw [hi] at hj
    injection hj with hj
    exact hbank' (by rw [hj])
  rcases Nat.lt_or_gt_of_ne hij with h | h
  · refine ⟨_, pair_reported ts maxTimeDiff maxAmountDiff a' b' i j h hi hj hbank'
      (by rw [ca, cb]; exact hcur) (by rw [aa, ab]; exact hneg) (by rw [ta, tb]; exact ht)
      (by rw [aa, ab]; exact ham), Or.inl ⟨hka, hkb⟩⟩
  · refine ⟨_, pair_reported ts maxTimeDiff maxAmountDiff b' a' j i h hj hi hbank'.symm
      (by rw [ca, cb]; exact hcur.symm) (by rw [aa, ab]; exact ⟨hneg.2, hneg.1⟩)
      (by rw [ta, tb, abs_sub_comm]; exact ht)
      (by rw [aa, ab, abs_sub_comm]; exact ham), Or.inr ⟨hkb, hka⟩⟩

/-- Witness of C28 on a debit of Optima Bank and a debit of Mbank five som
apart. -/
theorem C28_witness :
    ∃ m ∈ FindDuplicates [exNew, exFive] oneMinute 5,
      (key m.Transaction1 = key exNew ∧ key m.Transaction2 = key exFive) ∨
      (key m.Transaction1 = key exFive ∧ key m.Transaction2 = key exNew) :=
  C28_completeness [exNew, exFive] oneMinute 5 exNew exFive (by decide) (by decide)
    (by decide!) (by decide!)

/-! ## Lemmas on the arithmetic of `float64` and on the finder over it -/

theorem F64_abs_round (s : Bool) (q : ℚ) : F64.abs (F64.round s q) = F64.round false q := by
  unfold F64.round
  cases F64.roundMag q <;> rfl

theorem F64_roundMag_zero : F64.roundMag 0 = some 0 := by
  unfold F64.roundMag
  rw [if_pos rfl]

theorem F64_amountDiff_finite (s t : Bool) (a b : ℚ) :
    F64.abs (F64.sub (F64.abs (F64.finite s a)) (F64.abs (F64.finite t b))) =
      magnitudeDiff (F64.finite s a) (F64.finite t b) := by
  unfold magnitudeDiff
  show F64.abs (F64.sub (F64.finite false a) (F64.finite false b)) = F64.round false |a - b|
  simp only [F64.sub]
  by_cases h : a = 0 ∧ b = 0
  · rw [if_pos h, h.1, h.2]
    simp only [sub_zero, abs_zero]
    unfold F64.round
    rw [F64_roundMag_zero]
    rfl
  · rw [if_neg h]
    unfold F64.ofRat
    rw [F64_abs_round]
    rfl

theorem F64_not_nan_round (s : Bool) (q : ℚ) : F64.round s q ≠ F64.nan := by
  unfold F64.round
  cases F64.roundMag q <;> simp

theorem F64_not_lt_iff_le (x y : F64) (hx : x ≠ F64.nan) (hy : y ≠ F64.nan) :
    F64.lt y x = false ↔ F64.le x y = true := by
  cases x with
  | nan => exact absurd rfl hx
  | inf s =>
    cases y with
    | nan => exact absurd rfl hy
    | inf t => cases s <;> cases t <;> decide
    | finite t b => cases s <;> simp [F64.lt, F64.le]
  | finite s a =>
    cases y with
    | nan => exact absurd rfl hy
    | inf t => cases t <;> simp [F64.lt, F64.le]
    | finite t b => simp [F64.lt, F64.le]

theorem F64_lt_of_not_ge (x : F64) (hx : x ≠ F64.nan) :
    F64.ge x F64.zero = false ↔ F64.lt x F64.zero = true := by
  unfold F64.ge
  cases x with
  | nan => exact absurd rfl hx
  | inf s => cases s <;> simp [F64.lt, F64.le, F64.zero]
  | finite s a => simp [F64.lt, F64.le, F64.zero]

theorem F64_finite_ne_nan {x : F64} (h : x.isFinite = true) : x ≠ F64.nan := by
  intro e
  rw [e] at h
  cases h

theorem renderFixed2_inj (s t : Bool) (h k : Nat)
    (e : (if s then ['-'] else []) ++ decDigits (h / 100) ++ '.' :: padDigits 2 (h % 100) =
      (if t then ['-'] else []) ++ decDigits (k / 100) ++ '.' :: padDigits 2 (k % 100)) :
    s = t ∧ h = k := by
  have lx := length_padDigits_two (h % 100) (Nat.mod_lt _ (by norm_num))
  have ly := length_padDigits_two (k % 100) (Nat.mod_lt _ (by norm_num))
  obtain ⟨h1, h2⟩ := List.append_inj' e (by simp [lx, ly])
  have hF := padDigits_injective 2 (List.cons_injective h2)
  cases s <;> cases t
  · simp only [Bool.false_eq_true, if_false, List.nil_append] at h1
    have := decDigits_injective h1
    exact ⟨rfl, by omega⟩
  · simp only [Bool.false_eq_true, if_false, if_true, List.nil_append,
      List.singleton_append] at h1
    exact absurd h1.symm (minus_cons_ne_decDigits _ _)
  · simp only [Bool.false_eq_true, if_false, if_true, List.nil_append,
      List.singleton_append] at h1
    exact absurd h1 (minus_cons_ne_decDigits _ _)
  · simp only [if_true, List.singleton_append] at h1
    have := decDigits_injective (List.cons_injective h1)
    exact ⟨rfl, by omega⟩

theorem dot_mem_formatFloat2_finite (s : Bool) (m : ℚ) :
    '.' ∈ (formatFloat2 (F64.finite s m)).data := by
  simp only [formatFloat2]
  simp

theorem formatFloat2_eq_iff (x y : F64) :
    formatFloat2 x = formatFloat2 y ↔ F64.round2 x = F64.round2 y := by
  cases x with
  | finite s a =>
    cases y with
    | finite t b =>
      constructor
      · intro h
        simp only [formatFloat2] at h
        have h := congrArg String.data h
        simp only [] at h
        obtain ⟨h1, h2⟩ := renderFixed2_inj s t _ _ h
        simp only [F64.round2]
        rw [h1, h2]
      · intro h
        simp only [F64.round2] at h
        injection h with h1 h2
        have h3 : (hundredths a : ℚ) = (hundredths b : ℚ) := by linarith
        have h4 : hundredths a = hundredths b := by exact_mod_cast h3
        simp only [formatFloat2]
        rw [h1, h4]
    | inf t =>
      constructor
      · intro h
        have hd := dot_mem_formatFloat2_finite s a
        rw [h] at hd
        cases t <;> exact absurd hd (by decide)
      · intro h
        cases h
    | nan =>
      constructor
      · intro h
        have hd := dot_mem_formatFloat2_finite s a
        rw [h] at hd
        exact absurd hd (by decide)
      · intro h
        cases h
  | inf s =>
    cases y with
    | finite t b =>
      constructor
      · intro h
        have hd := dot_mem_formatFloat2_finite t b
        rw [← h] at hd
        cases s <;> exact absurd hd (by decide)
      · intro h
        cases h
    | inf t => cases s <;> cases t <;> decide
    | nan => cases s <;> decide
  | nan =>
    cases y with
    | finite t b =>
      constructor
      · intro h
        have hd := dot_mem_formatFloat2_finite t b
        rw [← h] at hd
        exact absurd hd (by decide)
      · intro h
        cases h
    | inf t => cases t <;> decide
    | nan => decide

theorem bar_not_mem_formatFloat2 (x : F64) : '|' ∉ (formatFloat2 x).data := by
  cases x with
  | finite s m =>
    simp only [formatFloat2]
    simp only [List.mem_append, List.mem_cons, not_or]
    refine ⟨⟨?_, ?_⟩, by decide, ?_⟩
    · cases s <;> simp
    · intro h
      exact isDigitChar_ne_of_not_digit (isDigitChar_decDigits _ _ h) (by decide) rfl
    · intro h
      exact isDigitChar_ne_of_not_digit (isDigitChar_padDigits _ _ _ h) (by decide) rfl
  | inf s => cases s <;> decide
  | nan => decide

theorem key_eq_iff64 (a b : IEEE.Transaction) :
    IEEE.key a = IEEE.key b ↔ (a.Bank = b.Bank ∧ a.DateTime.Format = b.DateTime.Format ∧
      formatFloat2 a.Amount = formatFloat2 b.Amount) := by
  constructor
  · intro h
    unfold IEEE.key at h
    have h := congrArg String.data h
    simp only [String.data_append] at h
    simp only [List.append_assoc, List.singleton_append] at h
    rw [← List.append_assoc, ← List.append_assoc (b.Bank.data)] at h
    obtain ⟨h1, h2⟩ := split_at_last (bar_not_mem_formatFloat2 _) (bar_not_mem_formatFloat2 _) h
    obtain ⟨h3, h4⟩ := split_at_last (bar_not_mem_formatMinute _) (bar_not_mem_formatMinute _) h1
    exact ⟨String.ext h3, String.ext h4, String.ext h2⟩
  · rintro ⟨h1, h2, h3⟩
    unfold IEEE.key
    rw [h1, h2, h3]

theorem key_eq_iff_signedKey64 (a b : IEEE.Transaction) :
    IEEE.key a = IEEE.key b ↔ IEEE.signedKey a = IEEE.signedKey b := by
  rw [key_eq_iff64, formatFloat2_eq_iff]
  unfold IEEE.Time.Format
  rw [formatMinute_eq_iff]
  unfold IEEE.signedKey
  simp only [Prod.mk.injEq, truncateMinute_eq_iff]

theorem mem_seen_foldl64 (ts : List IEEE.Transaction) (st : List String × List IEEE.Transaction) (k : String) :
    k ∈ (ts.foldl IEEE.dedupStep st).1 ↔ k ∈ st.1 ∨ ∃ u ∈ ts, IEEE.key u = k := by
  induction ts generalizing st with
  | nil => simp
  | cons t ts ih =>
    rw [List.foldl_cons, ih]
    unfold IEEE.dedupStep
    by_cases h : IEEE.key t ∈ st.1
    · simp only [h, if_true, List.mem_cons, exists_eq_or_imp]
      constructor
      · rintro (h1 | h1)
        · exact Or.inl h1
        · exact Or.inr (Or.inr h1)
      · rintro (h1 | h1 | h1)
        · exact Or.inl h1
        · exact Or.inl (h1 ▸ h)
        · exact Or.inr h1
    · simp only [h, if_false, List.mem_cons, exists_eq_or_imp]
      constructor
      · rintro ((h1 | h1) | h1)
        · exact Or.inr (Or.inl h1.symm)
        · exact Or.inl h1
        · exact Or.inr (Or.inr h1)
      · rintro (h1 | h1 | h1)
        · exact Or.inl (Or.inr h1)
        · exact Or.inl (Or.inl h1.symm)
        · exact Or.inr h1

theorem dedup_nil64 : IEEE.deduplicateTransactions [] = [] := rfl

theorem dedupStep_snd64 (st : List String × List IEEE.Transaction) (t : IEEE.Transaction) :
    (IEEE.dedupStep st t).2 = st.2 ++ (if IEEE.key t ∈ st.1 then [] else [t]) := by
  unfold IEEE.dedupStep
  split_ifs <;> simp

theorem dedup_concat64 (ts : List IEEE.Transaction) (t : IEEE.Transaction) :
    IEEE.deduplicateTransactions (ts ++ [t]) =
      IEEE.deduplicateTransactions ts ++ (if ∀ u ∈ ts, IEEE.key u ≠ IEEE.key t then [t] else []) := by
  unfold IEEE.deduplicateTransactions
  rw [List.foldl_append, List.foldl_cons, List.foldl_nil, dedupStep_snd64]
  have hs := mem_seen_foldl64 ts ([], []) (IEEE.key t)
  simp only [List.not_mem_nil, false_or] at hs
  congr 1
  by_cases h : ∀ u ∈ ts, IEEE.key u ≠ IEEE.key t
  · have h1 : ¬ IEEE.key t ∈ (ts.foldl IEEE.dedupStep ([], [])).1 := by
      rw [hs]; rintro ⟨u, hu, hk⟩; exact h u hu hk
    rw [if_neg h1, if_pos h]
  · have h1 : IEEE.key t ∈ (ts.foldl IEEE.dedupStep ([], [])).1 := by
      rw [hs]; push_neg at h; exact h
    rw [if_pos h1, if_neg h]

theorem firstOccurrences_concat64 {κ : Type} [DecidableEq κ] (K : IEEE.Transaction → κ)
    (ts : List IEEE.Transaction) (t : IEEE.Transaction) :
    IEEE.firstOccurrences K (ts ++ [t]) =
      IEEE.firstOccurrences K ts ++ (if ∀ u ∈ ts, K u ≠ K t then [t] else []) := by
  unfold IEEE.firstOccurrences
  rw [List.length_append, List.length_singleton, List.range_succ, List.filterMap_append]
  congr 1
  · apply List.filterMap_congr
    intro i hi
    rw [List.mem_range] at hi
    rw [List.getElem?_append_left hi, List.take_append_of_le_length (le_of_lt hi)]
  · simp only [List.filterMap_cons, List.filterMap_nil, List.getElem?_concat_length,
      List.take_left]
    split_ifs <;> rfl

theorem dedup_eq_firstOccurrences64 (ts : List IEEE.Transaction) :
    IEEE.deduplicateTransactions ts = IEEE.firstOccurrences IEEE.key ts := by
  induction ts using List.reverseRecOn with
  | nil => rfl
  | append_singleton ts t ih => rw [dedup_concat64, firstOccurrences_concat64, ih]

theorem firstOccurrences_congr64 {κ κ' : Type} [DecidableEq κ] [DecidableEq κ']
    (K : IEEE.Transaction → κ) (K' : IEEE.Transaction → κ')
    (h : ∀ a b, K a = K b ↔ K' a = K' b) (ts : List IEEE.Transaction) :
    IEEE.firstOccurrences K ts = IEEE.firstOccurrences K' ts := by
  induction ts using List.reverseRecOn with
  | nil => rfl
  | append_singleton ts t ih =>
    rw [firstOccurrences_concat64, firstOccurrences_concat64, ih]
    congr 1
    have : (∀ u ∈ ts, K u ≠ K t) ↔ (∀ u ∈ ts, K' u ≠ K' t) := by
      constructor
      · intro h1 u hu hk; exact h1 u hu ((h u t).2 hk)
      · intro h1 u hu hk; exact h1 u hu ((h u t).1 hk)
    by_cases h2 : ∀ u ∈ ts, K u ≠ K t
    · rw [if_pos h2, if_pos (this.1 h2)]
    · rw [if_neg h2, if_neg (fun h3 => h2 (this.2 h3))]

theorem dedup_sublist64 (ts : List IEEE.Transaction) :
    (IEEE.deduplicateTransactions ts).Sublist ts := by
  induction ts using List.reverseRecOn with
  | nil => exact List.Sublist.refl _
  | append_singleton ts t ih =>
    rw [dedup_concat64]
    apply List.Sublist.append ih
    split_ifs
    · exact List.Sublist.refl _
    · exact List.nil_sublist _

theorem mem_of_mem_dedup64 {ts : List IEEE.Transaction} {t : IEEE.Transaction}
    (h : t ∈ IEEE.deduplicateTransactions ts) : t ∈ ts :=
  (dedup_sublist64 ts).subset h

theorem dedup_covers64 (ts : List IEEE.Transaction) :
    ∀ t ∈ ts, ∃ u ∈ IEEE.deduplicateTransactions ts, IEEE.key u = IEEE.key t := by
  induction ts using List.reverseRecOn with
  | nil => simp
  | append_singleton ts t ih =>
    intro x hx
    rw [dedup_concat64]
    rw [List.mem_append, List.mem_singleton] at hx
    rcases hx with hx | hx
    · obtain ⟨u, hu, hk⟩ := ih x hx
      exact ⟨u, List.mem_append_left _ hu, hk⟩
    · subst hx
      by_cases h : ∀ u ∈ ts, IEEE.key u ≠ IEEE.key x
      · rw [if_pos h]; exact ⟨x, by simp, rfl⟩
      · rw [if_neg h]
        push_neg at h
        obtain ⟨v, hv, hvk⟩ := h
        obtain ⟨u, hu, hk⟩ := ih v hv
        exact ⟨u, List.mem_append_left _ hu, hk.trans hvk⟩

theorem dedup_pairwise64 (ts : List IEEE.Transaction) :
    (IEEE.deduplicateTransactions ts).Pairwise (fun a b => IEEE.key a ≠ IEEE.key b) := by
  induction ts using List.reverseRecOn with
  | nil => exact List.Pairwise.nil
  | append_singleton ts t ih =>
    rw [dedup_concat64, List.pairwise_append]
    refine ⟨ih, ?_, ?_⟩
    · split_ifs
      · exact List.pairwise_singleton _ _
      · exact List.Pairwise.nil
    · intro a ha b hb
      split_ifs at hb with h
      · rw [List.mem_singleton] at hb
        subst hb
        exact h a (mem_of_mem_dedup64 ha)
      · simp at hb

theorem dedup_of_pairwise64 (l : List IEEE.Transaction)
    (h : l.Pairwise (fun a b => IEEE.key a ≠ IEEE.key b)) : IEEE.deduplicateTransactions l = l := by
  induction l using List.reverseRecOn with
  | nil => rfl
  | append_singleton l t ih =>
    rw [List.pairwise_append] at h
    rw [dedup_concat64, ih h.1, if_pos]
    intro u hu
    exact h.2.2 u hu t (List.mem_singleton_self t)

theorem dedup_idem64 (ts : List IEEE.Transaction) :
    IEEE.deduplicateTransactions (IEEE.deduplicateTransactions ts) = IEEE.deduplicateTransactions ts :=
  dedup_of_pairwise64 _ (dedup_pairwise64 ts)

theorem pairStep_eq64 (mt : Int) (ma : F64) (acc : List IEEE.DuplicateMatch)
    (a b : IEEE.Transaction) :
    IEEE.pairStep mt ma acc a b = acc ++
      (if a.Bank ≠ b.Bank ∧ a.Currency = b.Currency ∧
          (F64.ge a.Amount F64.zero = false ∧ F64.ge b.Amount F64.zero = false) ∧
          IEEE.timeDiffOf a b ≤ mt ∧
          F64.gt (F64.abs (F64.sub (F64.abs a.Amount) (F64.abs b.Amount))) ma = false
       then [⟨a, b, IEEE.timeDiffOf a b,
          F64.abs (F64.sub (F64.abs a.Amount) (F64.abs b.Amount))⟩] else []) := by
  unfold IEEE.pairStep IEEE.timeDiffOf
  by_cases h1 : a.Bank = b.Bank
  · simp [h1]
  by_cases h2 : a.Currency = b.Currency
  swap
  · simp [h1, h2]
  by_cases h3 : (F64.ge a.Amount F64.zero || F64.ge b.Amount F64.zero) = true
  · have : ¬ (F64.ge a.Amount F64.zero = false ∧ F64.ge b.Amount F64.zero = false) := by
      rintro ⟨h4, h5⟩
      rw [h4, h5] at h3
      cases h3
    simp only [h1, h2, h3, this, if_true, if_false, ne_eq, not_false_eq_true, not_true_eq_false,
      true_and, false_and, and_false, List.append_nil]
  have h3' : F64.ge a.Amount F64.zero = false ∧ F64.ge b.Amount F64.zero = false := by
    rw [Bool.or_eq_true, not_or] at h3
    exact ⟨Bool.eq_false_iff.2 h3.1, Bool.eq_false_iff.2 h3.2⟩
  simp only [h1, h2, h3, h3', if_false, ne_eq, not_false_eq_true, not_true_eq_false,
    true_and, and_self, gt_iff_lt, ← not_le]
  split_ifs <;> first | rfl | (exfalso; simp_all; done) | simp_all

theorem innerLoop_eq64 (mt : Int) (ma : F64) (d : List IEEE.Transaction) (i : Nat)
    (acc : List IEEE.DuplicateMatch) :
    IEEE.innerLoop mt ma d i acc =
      acc ++ (List.range' (i + 1) (d.length - (i + 1))).flatMap (IEEE.cell mt ma d i) := by
  unfold IEEE.innerLoop
  rw [← foldl_append_flatMap]
  congr 1
  funext acc j
  unfold IEEE.cell
  cases d[i]? <;> cases d[j]? <;> simp
  rw [pairStep_eq64 mt ma acc, pairStep_eq64 mt ma []]
  simp

theorem FindDuplicates_eq64 (ts : List IEEE.Transaction) (mt : Int) (ma : F64) :
    IEEE.FindDuplicates ts mt ma =
      (List.range (IEEE.deduplicateTransactions ts).length).flatMap fun i =>
        (List.range' (i + 1) ((IEEE.deduplicateTransactions ts).length - (i + 1))).flatMap
          (IEEE.cell mt ma (IEEE.deduplicateTransactions ts) i) := by
  unfold IEEE.FindDuplicates
  simp only [innerLoop_eq64]
  rw [foldl_append_flatMap, List.nil_append]

theorem timeDiffOf_eq64 (a b : IEEE.Transaction)
    (h : |a.DateTime.ns - b.DateTime.ns| ≤ maxDuration) :
    IEEE.timeDiffOf a b = |a.DateTime.ns - b.DateTime.ns| := by
  unfold IEEE.timeDiffOf IEEE.Time.Sub Sub wrap64
  unfold maxDuration at h
  unfold minDuration maxDuration
  rcases abs_cases (a.DateTime.ns - b.DateTime.ns) with ⟨h1, h2⟩ | ⟨h1, h2⟩ <;>
    rw [h1] at h ⊢ <;> norm_num at h ⊢ <;> split_ifs <;> omega

theorem timeDiffOf_le64 (a b : IEEE.Transaction) :
    IEEE.timeDiffOf a b ≤ |a.DateTime.ns - b.DateTime.ns| := by
  unfold IEEE.timeDiffOf IEEE.Time.Sub Sub wrap64
  unfold minDuration maxDuration
  rcases abs_cases (a.DateTime.ns - b.DateTime.ns) with ⟨h1, h2⟩ | ⟨h1, h2⟩ <;> rw [h1] <;>
    norm_num <;> split_ifs <;> omega

theorem pairStep_finite64 (mt : Int) (ma : F64) (a b : IEEE.Transaction)
    (ha : a.Amount.isFinite = true) (hb : b.Amount.isFinite = true) (hma : ma ≠ F64.nan) :
    IEEE.pairStep mt ma [] a b =
      (if a.Bank ≠ b.Bank ∧ a.Currency = b.Currency ∧
          (F64.lt a.Amount F64.zero = true ∧ F64.lt b.Amount F64.zero = true) ∧
          IEEE.timeDiffOf a b ≤ mt ∧
          F64.le (magnitudeDiff a.Amount b.Amount) ma = true
       then [⟨a, b, IEEE.timeDiffOf a b, magnitudeDiff a.Amount b.Amount⟩] else []) := by
  rw [pairStep_eq64, List.nil_append]
  have e : F64.abs (F64.sub (F64.abs a.Amount) (F64.abs b.Amount)) =
      magnitudeDiff a.Amount b.Amount := by
    cases hx : a.Amount with
    | finite s x =>
      cases hy : b.Amount with
      | finite t y => exact F64_amountDiff_finite s t x y
      | inf t => rw [hy] at hb; cases hb
      | nan => rw [hy] at hb; cases hb
    | inf s => rw [hx] at ha; cases ha
    | nan => rw [hx] at ha; cases ha
  have g : F64.gt (magnitudeDiff a.Amount b.Amount) ma = false ↔
      F64.le (magnitudeDiff a.Amount b.Amount) ma = true :=
    F64_not_lt_iff_le _ _ (F64_not_nan_round _ _) hma
  simp only [e, g, F64_lt_of_not_ge _ (F64_finite_ne_nan ha),
    F64_lt_of_not_ge _ (F64_finite_ne_nan hb)]

theorem cell_eq_spec64 (mt : Int) (ma : F64) (d : List IEEE.Transaction) (i j : Nat)
    (h : ∀ a ∈ d, ∀ b ∈ d, |a.DateTime.ns - b.DateTime.ns| ≤ maxDuration)
    (hf : ∀ a ∈ d, a.Amount.isFinite = true) (hma : ma ≠ F64.nan) :
    IEEE.cell mt ma d i j =
      (match d[i]?, d[j]? with
        | some t1, some t2 =>
          if IEEE.isDuplicatePair mt ma t1 t2 then
            some (⟨t1, t2, |t1.DateTime.ns - t2.DateTime.ns|,
              magnitudeDiff t1.Amount t2.Amount⟩ : IEEE.DuplicateMatch)
          else none
        | _, _ => none).toList := by
  unfold IEEE.cell
  cases hi : d[i]? with
  | none => rfl
  | some a =>
    cases hj : d[j]? with
    | none => rfl
    | some b =>
      have ha : a ∈ d := List.getElem?_mem hi
      have hb : b ∈ d := List.getElem?_mem hj
      simp only [pairStep_finite64 mt ma a b (hf a ha) (hf b hb) hma, IEEE.isDuplicatePair,
        timeDiffOf_eq64 a b (h a ha b hb)]
      split_ifs <;> rfl

theorem FindDuplicates_eq_spec64 (ts : List IEEE.Transaction) (mt : Int) (ma : F64)
    (h : ∀ a ∈ IEEE.deduplicateTransactions ts, ∀ b ∈ IEEE.deduplicateTransactions ts,
      |a.DateTime.ns - b.DateTime.ns| ≤ maxDuration)
    (hf : ∀ a ∈ IEEE.deduplicateTransactions ts, a.Amount.isFinite = true)
    (hma : ma ≠ F64.nan) :
    IEEE.FindDuplicates ts mt ma = IEEE.specMatches (IEEE.deduplicateTransactions ts) mt ma := by
  rw [FindDuplicates_eq64]
  unfold IEEE.specMatches orderedPairs
  rw [List.filterMap_flatMap]
  apply List.flatMap_congr
  intro i _
  rw [List.filterMap_map, filter_lt_range, List.filterMap_eq_flatMap_toList]
  apply List.flatMap_congr
  intro j _
  rw [cell_eq_spec64 mt ma _ i j h hf hma]
  rfl

theorem key_ne_of_bank_ne64 {a b : IEEE.Transaction} (h : a.Bank ≠ b.Bank) :
    IEEE.key a ≠ IEEE.key b :=
  fun hk => h ((key_eq_iff64 a b).1 hk).1

theorem dedup_pair_of_key_ne64 {a b : IEEE.Transaction} (h : IEEE.key a ≠ IEEE.key b) :
    IEEE.deduplicateTransactions [a, b] = [a, b] :=
  dedup_of_pairwise64 _ (by simp [h])

theorem FindDuplicates_pair64 (mt : Int) (ma : F64) {a b : IEEE.Transaction}
    (h : a.Bank ≠ b.Bank) :
    IEEE.FindDuplicates [a, b] mt ma = IEEE.pairStep mt ma [] a b := by
  rw [FindDuplicates_eq64, dedup_pair_of_key_ne64 (key_ne_of_bank_ne64 h)]
  simp [List.range_succ, IEEE.cell, List.range']

/-! ## Lemmas on the rounding to `float64` -/

theorem log2Nat_spec (fuel n : Nat) (h : n ≤ fuel) (hn : 0 < n) :
    2 ^ F64.log2Nat fuel n ≤ n ∧ n < 2 ^ (F64.log2Nat fuel n + 1) := by
  induction fuel generalizing n with
  | zero => omega
  | succ f ih =>
    unfold F64.log2Nat
    split_ifs with h2
    · constructor
      · simpa using hn
      · simpa using h2
    · obtain ⟨h3, h4⟩ := ih (n / 2) (by omega) (by omega)
      have e1 : 2 ^ (F64.log2Nat f (n / 2) + 1) = 2 ^ F64.log2Nat f (n / 2) * 2 := pow_succ _ _
      have e2 : 2 ^ (F64.log2Nat f (n / 2) + 1 + 1) = 2 ^ F64.log2Nat f (n / 2) * 2 * 2 := by
        rw [pow_succ, pow_succ]
      rw [e1] at h4
      rw [e1, e2]
      generalize 2 ^ F64.log2Nat f (n / 2) = p at *
      constructor <;> omega

theorem log2Floor_spec (q : ℚ) (hq : 0 < q) :
    (2 : ℚ) ^ F64.log2Floor q ≤ q ∧ q < (2 : ℚ) ^ (F64.log2Floor q + 1) := by
  have hnum : 0 < q.num := Rat.num_pos.2 hq
  have hden : 0 < q.den := q.den_pos
  have hna : 0 < q.num.natAbs := Int.natAbs_pos.2 (ne_of_gt hnum)
  obtain ⟨a1, a2⟩ := log2Nat_spec q.num.natAbs q.num.natAbs (le_refl _) hna
  obtain ⟨d1, d2⟩ := log2Nat_spec q.den q.den (le_refl _) hden
  have hqe : q = (q.num.natAbs : ℚ) / (q.den : ℚ) := by
    have e : ((q.num.natAbs : Int) : ℚ) = (q.num : ℚ) := by
      rw [Int.natAbs_of_nonneg (le_of_lt hnum)]
    rw [Int.cast_natCast] at e
    rw [e]
    exact (Rat.num_div_den q).symm
  set la := F64.log2Nat q.num.natAbs q.num.natAbs with hla
  set ld := F64.log2Nat q.den q.den with hld
  have A1 : (2 : ℚ) ^ la ≤ (q.num.natAbs : ℚ) := by exact_mod_cast a1
  have A2 : (q.num.natAbs : ℚ) < (2 : ℚ) ^ (la + 1) := by exact_mod_cast a2
  have D1 : (2 : ℚ) ^ ld ≤ (q.den : ℚ) := by exact_mod_cast d1
  have D2 : (q.den : ℚ) < (2 : ℚ) ^ (ld + 1) := by exact_mod_cast d2
  have hdq : (0 : ℚ) < (q.den : ℚ) := by exact_mod_cast hden
  have two : (2 : ℚ) ≠ 0 := by norm_num
  have lo : (2 : ℚ) ^ ((la : Int) - (ld : Int) - 1) ≤ q := by
    have e : (2 : ℚ) ^ ((la : Int) - (ld : Int) - 1) = (2 : ℚ) ^ la / (2 : ℚ) ^ (ld + 1) := by
      have : (la : Int) - (ld : Int) - 1 = (la : Int) - ((ld + 1 : Nat) : Int) := by
        push_cast; ring
      rw [this, zpow_sub₀ two, zpow_natCast, zpow_natCast]
    rw [e, hqe]
    have p1 : (0 : ℚ) < (2 : ℚ) ^ (ld + 1) := by positivity
    rw [div_le_div_iff₀ p1 hdq]
    calc (2 : ℚ) ^ la * (q.den : ℚ) ≤ (q.num.natAbs : ℚ) * (q.den : ℚ) :=
          mul_le_mul_of_nonneg_right A1 (le_of_lt hdq)
      _ ≤ (q.num.natAbs : ℚ) * (2 : ℚ) ^ (ld + 1) :=
          mul_le_mul_of_nonneg_left (le_of_lt D2) (by positivity)
  have hi : q < (2 : ℚ) ^ ((la : Int) - (ld : Int) + 1) := by
    have e : (2 : ℚ) ^ ((la : Int) - (ld : Int) + 1) = (2 : ℚ) ^ (la + 1) / (2 : ℚ) ^ ld := by
      have : (la : Int) - (ld : Int) + 1 = ((la + 1 : Nat) : Int) - (ld : Int) := by
        push_cast; ring
      rw [this, zpow_sub₀ two, zpow_natCast, zpow_natCast]
    rw [e]
    have p1 : (0 : ℚ) < (2 : ℚ) ^ ld := by positivity
    conv_lhs => rw [hqe]
    rw [div_lt_div_iff₀ hdq p1]
    calc (q.num.natAbs : ℚ) * (2 : ℚ) ^ ld < (2 : ℚ) ^ (la + 1) * (2 : ℚ) ^ ld :=
          mul_lt_mul_of_pos_right A2 p1
      _ ≤ (2 : ℚ) ^ (la + 1) * (q.den : ℚ) :=
          mul_le_mul_of_nonneg_left D1 (by positivity)
  unfold F64.log2Floor
  simp only [← hla, ← hld]
  split_ifs with h
  · exact ⟨h, hi⟩
  · refine ⟨lo, ?_⟩
    rw [sub_add_cancel]
    exact lt_of_not_le h

theorem roundHalfEven_error (x : ℚ) : |(roundHalfEven x : ℚ) - x| ≤ 1 / 2 := by
  unfold roundHalfEven
  have h1 := Int.floor_le x
  have h2 := Int.lt_floor_add_one x
  simp only []
  split_ifs with a b c
  · rw [abs_le]; constructor <;> linarith
  · rw [abs_le]; push_cast; constructor <;> linarith
  · have : x - ⌊x⌋ = 1 / 2 := le_antisymm (not_lt.1 b) (not_lt.1 a)
    rw [abs_le]; constructor <;> linarith
  · have : x - ⌊x⌋ = 1 / 2 := le_antisymm (not_lt.1 b) (not_lt.1 a)
    rw [abs_le]; push_cast; constructor <;> linarith

theorem roundHalfEven_natCast (n : Nat) : roundHalfEven (n : ℚ) = (n : Int) := by
  unfold roundHalfEven
  have : ⌊(n : ℚ)⌋ = (n : Int) := Int.floor_natCast n
  simp only [this]
  rw [if_pos]
  push_cast
  norm_num

theorem F64_roundMag_exact (m : Nat) (j : Int) (hm : m < 2 ^ 53) (hj : -1074 ≤ j)
    (hlt : (m : ℚ) * (2 : ℚ) ^ j < (2 : ℚ) ^ (1024 : Int)) :
    F64.roundMag ((m : ℚ) * (2 : ℚ) ^ j) = some ((m : ℚ) * (2 : ℚ) ^ j) := by
  have two : (2 : ℚ) ≠ 0 := by norm_num
  have hj0 : (0 : ℚ) < (2 : ℚ) ^ j := by positivity
  unfold F64.roundMag
  by_cases h0 : (m : ℚ) * (2 : ℚ) ^ j = 0
  · rw [if_pos h0, h0]
  rw [if_neg h0]
  simp only []
  have hq : 0 < (m : ℚ) * (2 : ℚ) ^ j :=
    lt_of_le_of_ne (by positivity) (Ne.symm h0)
  set q := (m : ℚ) * (2 : ℚ) ^ j with hqd
  set e := max (F64.log2Floor q) (-1022) with he
  have hle : e - 52 ≤ j := by
    rcases max_cases (F64.log2Floor q) (-1022) with ⟨hm', _⟩ | ⟨hm', _⟩
    · rw [he, hm']
      have l1 := (log2Floor_spec q hq).1
      have l2 : q < (2 : ℚ) ^ (53 + j) := by
        rw [zpow_add₀ two, hqd]
        apply mul_lt_mul_of_pos_right _ hj0
        have : (m : ℚ) < (2 : ℚ) ^ (53 : ℕ) := by exact_mod_cast hm
        rw [← zpow_natCast] at this
        exact this
      have l3 : (2 : ℚ) ^ F64.log2Floor q < (2 : ℚ) ^ (53 + j) := lt_of_le_of_lt l1 l2
      have l4 := (zpow_lt_zpow_iff_right₀ (by norm_num : (1 : ℚ) < 2)).1 l3
      omega
    · rw [he, hm']
      omega
  obtain ⟨k, hk⟩ := Int.eq_ofNat_of_zero_le (sub_nonneg.2 hle)
  have hdiv : q / (2 : ℚ) ^ (e - 52) = ((m * 2 ^ k : Nat) : ℚ) := by
    have : j = (e - 52) + (k : Int) := by omega
    rw [hqd, this, zpow_add₀ two, zpow_natCast]
    have hu : (2 : ℚ) ^ (e - 52) ≠ 0 := by positivity
    field_simp
    ring
  rw [hdiv, roundHalfEven_natCast]
  have hr : (((m * 2 ^ k : Nat) : Int) : ℚ) * (2 : ℚ) ^ (e - 52) = q := by
    have hu : (2 : ℚ) ^ (e - 52) ≠ 0 := by positivity
    have : (((m * 2 ^ k : Nat) : Int) : ℚ) = q / (2 : ℚ) ^ (e - 52) := by
      rw [hdiv]; norm_cast
    rw [this]
    field_simp
  rw [hr, if_pos hlt]

theorem roundHalfEven_nearest (x : ℚ) (k : Int) :
    |(roundHalfEven x : ℚ) - x| ≤ |(k : ℚ) - x| := by
  have h := roundHalfEven_error x
  by_cases hk : k = roundHalfEven x
  · rw [hk]
  · have h1 : (1 : ℚ) ≤ |(k : ℚ) - (roundHalfEven x : ℚ)| := by
      have : (1 : Int) ≤ |k - roundHalfEven x| := Int.one_le_abs (sub_ne_zero.2 hk)
      exact_mod_cast this
    have h2 : |(k : ℚ) - (roundHalfEven x : ℚ)| ≤
        |(k : ℚ) - x| + |(roundHalfEven x : ℚ) - x| := by
      have := abs_sub_le (k : ℚ) x (roundHalfEven x : ℚ)
      rwa [abs_sub_comm x] at this
    linarith

theorem roundHalfEven_bounds (x : ℚ) (n : Int) (h0 : 0 ≤ x) (hn : x < n) :
    0 ≤ roundHalfEven x ∧ roundHalfEven x ≤ n := by
  have h := abs_le.1 (roundHalfEven_error x)
  constructor
  · have : (-1 : ℚ) < (roundHalfEven x : ℚ) := by linarith [h.1]
    have : (-1 : Int) < roundHalfEven x := by exact_mod_cast this
    omega
  · have : (roundHalfEven x : ℚ) < (n : ℚ) + 1 := by linarith [h.2]
    have : roundHalfEven x < n + 1 := by exact_mod_cast this
    omega

theorem F64_roundMag_form (q : ℚ) (hq : 0 < q) :
    ∃ (e : Int) (N : Nat), -1022 ≤ e ∧ N ≤ 2 ^ 53 ∧ (e = -1022 ∨ (2 : ℚ) ^ e ≤ q) ∧
      (∀ k : Int, |(N : ℚ) * (2 : ℚ) ^ (e - 52) - q| ≤ |(k : ℚ) * (2 : ℚ) ^ (e - 52) - q|) ∧
      |(N : ℚ) * (2 : ℚ) ^ (e - 52) - q| ≤ (2 : ℚ) ^ (e - 53) ∧
      F64.roundMag q = (if (N : ℚ) * (2 : ℚ) ^ (e - 52) < (2 : ℚ) ^ (1024 : Int)
        then some ((N : ℚ) * (2 : ℚ) ^ (e - 52)) else none) := by
  have two : (2 : ℚ) ≠ 0 := by norm_num
  set e := max (F64.log2Floor q) (-1022) with he
  have hu : (0 : ℚ) < (2 : ℚ) ^ (e - 52) := by positivity
  have hlf := log2Floor_spec q hq
  have hx0 : 0 ≤ q / (2 : ℚ) ^ (e - 52) := by positivity
  have hx1 : q / (2 : ℚ) ^ (e - 52) < ((2 ^ 53 : Nat) : Int) := by
    rw [div_lt_iff₀ hu]
    have h1 : q < (2 : ℚ) ^ (e + 1) :=
      lt_of_lt_of_le hlf.2 (zpow_le_zpow_right₀ (by norm_num) (by
        have := le_max_left (F64.log2Floor q) (-1022)
        omega))
    have h2 : (((2 ^ 53 : Nat) : Int) : ℚ) * (2 : ℚ) ^ (e - 52) = (2 : ℚ) ^ (e + 1) := by
      have : e + 1 = (53 : Int) + (e - 52) := by ring
      rw [this, zpow_add₀ two]
      norm_num
    rw [h2]
    exact h1
  obtain ⟨b0, b1⟩ := roundHalfEven_bounds _ _ hx0 hx1
  obtain ⟨N, hN⟩ := Int.eq_ofNat_of_zero_le b0
  have hNq : (roundHalfEven (q / (2 : ℚ) ^ (e - 52)) : ℚ) = (N : ℚ) := by
    rw [hN]; norm_cast
  refine ⟨e, N, le_max_right _ _, ?_, ?_, ?_, ?_, ?_⟩
  · rw [hN] at b1
    exact_mod_cast b1
  · rcases max_cases (F64.log2Floor q) (-1022) with ⟨hm, _⟩ | ⟨hm, _⟩
    · right
      rw [he, hm]
      exact hlf.1
    · left
      rw [he, hm]
  · intro k
    have e1 : ∀ z : ℚ, z * (2 : ℚ) ^ (e - 52) - q =
        (z - q / (2 : ℚ) ^ (e - 52)) * (2 : ℚ) ^ (e - 52) := by
      intro z
      field_simp
    rw [e1, e1, abs_mul, abs_mul, ← hNq]
    exact mul_le_mul_of_nonneg_right (roundHalfEven_nearest _ k) (abs_nonneg _)
  · have e1 : (N : ℚ) * (2 : ℚ) ^ (e - 52) - q =
        ((N : ℚ) - q / (2 : ℚ) ^ (e - 52)) * (2 : ℚ) ^ (e - 52) := by
      field_simp
    rw [e1, abs_mul, abs_of_pos hu, ← hNq]
    have e2 : (2 : ℚ) ^ (e - 53) = 1 / 2 * (2 : ℚ) ^ (e - 52) := by
      have : e - 52 = (e - 53) + 1 := by ring
      rw [this, zpow_add₀ two]
      ring
    rw [e2]
    exact mul_le_mul_of_nonneg_right (roundHalfEven_error _) (le_of_lt hu)
  · unfold F64.roundMag
    rw [if_neg (ne_of_gt hq)]
    simp only [← he, hNq]

theorem F64_roundMag_nearest (q r : ℚ) (hq : 0 ≤ q) (h : F64.roundMag q = some r) :
    IsF64Mag r ∧ ∀ y, IsF64Mag y → |r - q| ≤ |y - q| := by
  have two : (2 : ℚ) ≠ 0 := by norm_num
  rcases eq_or_lt_of_le hq with h0 | hpos
  · rw [← h0, F64_roundMag_zero] at h
    injection h with h
    rw [← h, ← h0]
    refine ⟨⟨0, 0, by norm_num, by norm_num, by norm_num, by positivity⟩, ?_⟩
    intro y _
    simp
  obtain ⟨e, N, he, hN, hnorm, hnear, _, hval⟩ := F64_roundMag_form q hpos
  rw [hval] at h
  split_ifs at h with hlt
  injection h with h
  rw [← h]
  constructor
  · rcases Nat.lt_or_ge N (2 ^ 53) with hN1 | hN1
    · exact ⟨N, e - 52, hN1, by omega, rfl, hlt⟩
    · have hNe : N = 2 ^ 53 := le_antisymm hN hN1
      refine ⟨2 ^ 52, e - 51, by norm_num, by omega, ?_, hlt⟩
      rw [hNe]
      have : e - 51 = (e - 52) + 1 := by ring
      rw [this, zpow_add₀ two]
      push_cast
      ring
  · rintro y ⟨m, j, hm, hj, hy, _⟩
    by_cases hje : e - 52 ≤ j
    · obtain ⟨k, hk⟩ := Int.eq_ofNat_of_zero_le (sub_nonneg.2 hje)
      have hyk : y = (((m * 2 ^ k : Nat) : Int) : ℚ) * (2 : ℚ) ^ (e - 52) := by
        have : j = (k : Int) + (e - 52) := by omega
        rw [hy, this, zpow_add₀ two, zpow_natCast]
        push_cast
        ring
      rw [hyk]
      exact hnear _
    · have hje : j ≤ e - 53 := by omega
      have hen : (2 : ℚ) ^ e ≤ q := by
        rcases hnorm with h1 | h1
        · omega
        · exact h1
      have hylt : y < (2 : ℚ) ^ e := by
        have h1 : (m : ℚ) < (2 : ℚ) ^ (53 : Int) := by
          have : (m : ℚ) < (2 : ℚ) ^ (53 : ℕ) := by exact_mod_cast hm
          rw [← zpow_natCast] at this
          exact this
        have h2 : (2 : ℚ) ^ j ≤ (2 : ℚ) ^ (e - 53) := zpow_le_zpow_right₀ (by norm_num) hje
        have h3 : (0 : ℚ) < (2 : ℚ) ^ j := by positivity
        have h4 : (2 : ℚ) ^ (53 : Int) * (2 : ℚ) ^ (e - 53) = (2 : ℚ) ^ e := by
          rw [← zpow_add₀ two]
          congr 1
          ring
        rw [hy, ← h4]
        calc (m : ℚ) * (2 : ℚ) ^ j < (2 : ℚ) ^ (53 : Int) * (2 : ℚ) ^ j :=
              mul_lt_mul_of_pos_right h1 h3
          _ ≤ (2 : ℚ) ^ (53 : Int) * (2 : ℚ) ^ (e - 53) :=
              mul_le_mul_of_nonneg_left h2 (by positivity)
      have hp : (2 : ℚ) ^ e = (((2 ^ 52 : Nat) : Int) : ℚ) * (2 : ℚ) ^ (e - 52) := by
        have : e = (52 : Int) + (e - 52) := by ring
        conv_lhs => rw [this, zpow_add₀ two]
        norm_num
      have h5 := hnear ((2 ^ 52 : Nat) : Int)
      rw [← hp] at h5
      have h6 : |(2 : ℚ) ^ e - q| = q - (2 : ℚ) ^ e := by
        rw [abs_sub_comm, abs_of_nonneg (sub_nonneg.2 hen)]
      have h7 : |y - q| = q - y := by
        rw [abs_sub_comm, abs_of_nonneg (by linarith)]
      rw [h6] at h5
      rw [h7]
      linarith

theorem F64_roundMag_overflow (q : ℚ) (hq : 0 ≤ q) (h : F64.roundMag q = none) :
    (2 : ℚ) ^ (1024 : Int) - (2 : ℚ) ^ (970 : Int) ≤ q := by
  rcases eq_or_lt_of_le hq with h0 | hpos
  · rw [← h0, F64_roundMag_zero] at h
    cases h
  obtain ⟨e, N, he, hN, hnorm, _, herr, hval⟩ := F64_roundMag_form q hpos
  rw [hval] at h
  split_ifs at h with hlt
  have hge : (2 : ℚ) ^ (1024 : Int) ≤ (N : ℚ) * (2 : ℚ) ^ (e - 52) := not_lt.1 hlt
  have hp : (0 : ℚ) < (2 : ℚ) ^ (970 : Int) := by positivity
  by_cases h1 : e ≤ 1023
  · have h2 : (2 : ℚ) ^ (e - 53) ≤ (2 : ℚ) ^ (970 : Int) :=
      zpow_le_zpow_right₀ (by norm_num) (by omega)
    have h3 := (abs_le.1 herr).2
    linarith
  · have h2 : (2 : ℚ) ^ (1024 : Int) ≤ (2 : ℚ) ^ e :=
      zpow_le_zpow_right₀ (by norm_num) (by omega)
    rcases hnorm with h3 | h3
    · omega
    · linarith

/-! ## Lemmas on the amount parsers over `float64` -/

theorem parseUnsigned_decimal_some (D F : List Char) (dot : Bool)
    (hD : ∀ c ∈ D, c.isDigit = true) (hF : ∀ c ∈ F, c.isDigit = true)
    (hdot : dot = false → F = []) (hne : D ≠ [] ∨ F ≠ []) :
    parseUnsigned (D ++ (if dot then '.' :: F else [])) =
      some ((digitsValue D : ℚ) + (digitsValue F : ℚ) / 10 ^ F.length) := by
  have hstop : ∀ c, (if dot then '.' :: F else []).head? = some c → c.isDigit = false := by
    intro c hc
    cases dot
    · simp at hc
    · simp at hc
      subst hc
      decide
  obtain ⟨htake, hdrop⟩ := takeWhile_append_stop hD hstop
  unfold parseUnsigned
  simp only [htake, hdrop]
  cases dot
  · have hF0 := hdot rfl
    have hD0 : D ≠ [] := hne.resolve_right (fun h => h hF0)
    simp only [Bool.false_eq_true, if_false, hF0]
    rw [if_neg hD0]
    simp [digitsValue]
  · have hall : F.all Char.isDigit = true := List.all_eq_true.2 hF
    simp only [if_true, hall, true_and]
    rw [if_pos]
    rintro ⟨h1, h2⟩
    rcases hne with h | h
    · exact h h1
    · exact h h2

theorem ParseFloat_of_head64 (s : List Char)
    (h : ∀ c, s.head? = some c → c ≠ '-' ∧ c ≠ '+') :
    IEEE.ParseFloat s =
      (match parseUnsigned s with
        | some q => F64.round false q
        | none => F64.zero) := by
  unfold IEEE.ParseFloat
  split
  · exact absurd rfl (h '-' rfl).1
  · exact absurd rfl (h '+' rfl).2
  · rfl

theorem ParseFloat_decimal64 (neg : Bool) (D F : List Char) (dot : Bool)
    (hD : ∀ c ∈ D, c.isDigit = true) (hF : ∀ c ∈ F, c.isDigit = true)
    (hdot : dot = false → F = []) (hne : D ≠ [] ∨ F ≠ []) :
    IEEE.ParseFloat ((if neg then ['-'] else []) ++ D ++ (if dot then '.' :: F else [])) =
      F64.round neg (decimalValue false D F) := by
  have hv : decimalValue false D F =
      (digitsValue D : ℚ) + (digitsValue F : ℚ) / 10 ^ F.length := by
    unfold decimalValue
    simp
  rw [hv]
  cases neg
  · simp only [Bool.false_eq_true, if_false, List.nil_append]
    rw [ParseFloat_of_head64, parseUnsigned_decimal_some D F dot hD hF hdot hne]
    intro c hc
    have hcd : c.isDigit = true ∨ c = '.' := by
      cases D with
      | nil =>
        cases dot
        · simp at hc
        · simp at hc
          exact Or.inr hc.symm
      | cons d ds =>
        simp at hc
        subst hc
        exact Or.inl (hD _ (List.mem_cons_self _ _))
    rcases hcd with h | h
    · exact ⟨isDigit_ne_of_not_digit h (by decide), isDigit_ne_of_not_digit h (by decide)⟩
    · subst h
      exact ⟨by decide, by decide⟩
  · simp only [if_true, List.singleton_append, List.cons_append, List.append_assoc,
      List.nil_append]
    have : IEEE.ParseFloat ('-' :: (D ++ if dot = true then '.' :: F else [])) =
        (match parseUnsigned (D ++ if dot = true then '.' :: F else []) with
          | some q => F64.round true q
          | none => F64.zero) := rfl
    rw [this, parseUnsigned_decimal_some D F dot hD hF hdot hne]

theorem parseMbankAmount_value64 (neg : Bool) (lead B : List Char) (e1 e2 : Char)
    (hB : ∀ c ∈ B, c.isDigit = true ∨ c = ' ')
    (hlead : ∀ c ∈ lead, reSpace c = true)
    (hneg : neg = true → ∀ c ∈ lead, c = ' ')
    (he1 : e1.isDigit = true) (he2 : e2.isDigit = true) :
    IEEE.parseMbankAmount ((if neg then ['-'] else []) ++ lead ++ B ++ [',', e1, e2]) =
      F64.round neg (decimalValue false (B.filter Char.isDigit) [e1, e2]) := by
  have hBd : ∀ c ∈ B.filter Char.isDigit, c.isDigit = true := fun c hc =>
    (List.mem_filter.1 hc).2
  have hE : ∀ c ∈ [e1, e2], c.isDigit = true := by
    intro c hc
    simp only [List.mem_cons, List.mem_singleton, List.not_mem_nil, or_false] at hc
    rcases hc with h | h <;> subst h <;> assumption
  -- step 1: the ordinary spaces are removed
  have h1 : ReplaceAll ((if neg then ['-'] else []) ++ lead ++ B ++ [',', e1, e2]) [' '] [] =
      (if neg then ['-'] else []) ++ lead.filter (fun c => c ≠ ' ') ++
        B.filter Char.isDigit ++ [',', e1, e2] := by
    rw [ReplaceAll_remove]
    simp only [List.filter_append, filter_space_eq_filter_digit B hB]
    congr 1
    · congr 2
      cases neg <;> rfl
    · have a1 := isDigit_ne_space e1 he1
      have a2 := isDigit_ne_space e2 he2
      simp [List.filter_cons, a1, a2]
  -- step 2: the comma becomes a period
  have hnc : ',' ∉ (if neg then ['-'] else []) ++ lead.filter (fun c => c ≠ ' ') ++
      B.filter Char.isDigit := by
    simp only [List.mem_append, not_or]
    refine ⟨⟨?_, ?_⟩, ?_⟩
    · cases neg <;> simp
    · intro hm
      have := hlead _ (List.mem_filter.1 hm).1
      revert this
      decide
    · intro hm
      exact isDigit_ne_comma _ (hBd _ hm) rfl
  have h2 : ReplaceAll ((if neg then ['-'] else []) ++ lead.filter (fun c => c ≠ ' ') ++
      B.filter Char.isDigit ++ [',', e1, e2]) [','] ['.'] =
      (if neg then ['-'] else []) ++ lead.filter (fun c => c ≠ ' ') ++
        B.filter Char.isDigit ++ ['.', e1, e2] := by
    rw [ReplaceAll_map, List.map_append, map_comma_of_not_mem _ hnc]
    have a1 := isDigit_ne_comma e1 he1
    have a2 := isDigit_ne_comma e2 he2
    simp [a1, a2]
  -- step 3: the leading white space is trimmed
  have hns : ∀ c ∈ (if neg then ['-'] else []) ++ (B.filter Char.isDigit ++ ['.', e1, e2]),
      isSpace c = false := by
    intro c hc
    simp only [List.mem_append, List.mem_cons, List.mem_singleton, List.not_mem_nil,
      or_false] at hc
    rcases hc with hc | hc | hc | hc | hc
    · cases neg
      · simp at hc
      · simp at hc; subst hc; rfl
    · exact isSpace_of_isDigit c (hBd c hc)
    · subst hc; rfl
    · subst hc; exact isSpace_of_isDigit _ he1
    · subst hc; exact isSpace_of_isDigit _ he2
  have h3 : TrimSpace ((if neg then ['-'] else []) ++ lead.filter (fun c => c ≠ ' ') ++
      B.filter Char.isDigit ++ ['.', e1, e2]) =
      (if neg then ['-'] else []) ++ (B.filter Char.isDigit ++ ['.', e1, e2]) := by
    cases neg
    · simp only [Bool.false_eq_true, if_false, List.nil_append, List.append_assoc]
      apply TrimSpace_lead
      · intro c hc
        exact isSpace_of_reSpace c (hlead c (List.mem_filter.1 hc).1)
      · intro c hc
        exact hns c (by simpa using hc)
    · have hl : lead.filter (fun c => c ≠ ' ') = [] := by
        rw [List.filter_eq_nil_iff]
        intro c hc
        simp [hneg rfl c hc]
      rw [hl, List.append_nil, List.append_assoc]
      exact TrimSpace_of_no_space _ hns
  -- step 4: no "- " is left to collapse
  have h4 : ReplaceAll ((if neg then ['-'] else []) ++ (B.filter Char.isDigit ++ ['.', e1, e2]))
      ['-', ' '] ['-'] =
      (if neg then ['-'] else []) ++ (B.filter Char.isDigit ++ ['.', e1, e2]) := by
    apply replaceAllAux_pair_of_not_mem
    intro hm
    have := hns _ hm
    revert this
    decide
  unfold IEEE.parseMbankAmount
  simp only [h1, h2, h3, h4]
  rw [← List.append_assoc]
  exact ParseFloat_decimal64 neg _ [e1, e2] true hBd hE (by simp) (Or.inr (by simp))

theorem parseOptimaAmount_value64 (neg : Bool) (B F : List Char) (dot : Bool)
    (hB : ∀ c ∈ B, c.isDigit = true ∨ normChar c = ' ')
    (hF : ∀ c ∈ F, c.isDigit = true) (hdot : dot = false → F = [])
    (hne : B.filter Char.isDigit ≠ [] ∨ F ≠ []) :
    IEEE.parseOptimaAmount
        ((if neg then ['-'] else []) ++ B ++ (if dot then '.' :: F else [])) =
      F64.round neg (decimalValue false (B.filter Char.isDigit) F) := by
  have hBd : ∀ c ∈ B.filter Char.isDigit, c.isDigit = true := fun c hc =>
    (List.mem_filter.1 hc).2
  have hFn : F.map normChar = F := by
    conv_rhs => rw [← List.map_id F]
    exact List.map_congr_left fun c hc => isDigit_normChar c (hF c hc)
  have hFs : F.filter (fun c => c ≠ ' ') = F := by
    rw [List.filter_eq_self]
    intro c hc
    simpa using isDigit_ne_space c (hF c hc)
  have h1 : ReplaceAll (normalizeSpaces
      ((if neg then ['-'] else []) ++ B ++ (if dot then '.' :: F else []))) [' '] [] =
      (if neg then ['-'] else []) ++ B.filter Char.isDigit ++
        (if dot then '.' :: F else []) := by
    rw [ReplaceAll_remove, normalizeSpaces_eq_map]
    simp only [List.map_append, List.filter_append, filter_map_normChar B hB]
    congr 1
    · congr 1
      cases neg <;> rfl
    · cases dot
      · rfl
      · simp only [if_true, List.map_cons, hFn, List.filter_cons, hFs]
        rfl
  have hns : ∀ c ∈ (if neg then ['-'] else []) ++ B.filter Char.isDigit ++
      (if dot then '.' :: F else []), isSpace c = false := by
    intro c hc
    simp only [List.mem_append] at hc
    rcases hc with (hc | hc) | hc
    · cases neg
      · simp at hc
      · simp at hc; subst hc; rfl
    · exact isSpace_of_isDigit c (hBd c hc)
    · cases dot
      · simp at hc
      · simp only [if_true, List.mem_cons] at hc
        rcases hc with hc | hc
        · subst hc; rfl
        · exact isSpace_of_isDigit c (hF c hc)
  unfold IEEE.parseOptimaAmount
  simp only [h1, TrimSpace_of_no_space _ hns]
  exact ParseFloat_decimal64 neg _ F dot hBd hF hdot hne

theorem F64_round_nearest (neg : Bool) (v : ℚ) (hv : 0 ≤ v) :
    IsNearestF64 neg v (F64.round neg v) := by
  unfold F64.round
  cases h : F64.roundMag v with
  | some r =>
    obtain ⟨h1, h2⟩ := F64_roundMag_nearest v r hv h
    exact Or.inl ⟨r, rfl, h1, h2⟩
  | none => exact Or.inr ⟨rfl, F64_roundMag_overflow v hv h⟩

theorem decimalValue_nonneg (D F : List Char) : 0 ≤ decimalValue false D F := by
  unfold decimalValue
  simp only [Bool.false_eq_true, if_false, one_mul]
  positivity

theorem groupsDigits_ne_nil (g : List Char) (gs : List (Char × List Char)) (h : g ≠ []) :
    groupsDigits g gs ≠ [] := by
  unfold groupsDigits
  intro e
  exact h (List.append_eq_nil.1 e).1

/-! ## The claims on amounts as `float64` -/

/-- C1 (amended): for every transaction list and tolerances, with
`d = deduplicateTransactions ts`, if every two timestamps of `d` differ by at most
the largest `time.Duration`, every amount of `d` is finite and `maxAmountDiff` is
not NaN, then `FindDuplicates` returns exactly the list, in increasing `(i, j)`
order with `i < j` over `d`, of one match for each index pair that satisfies the
five conditions, the fifth being taken on the `float64` nearest to the absolute
difference of the magnitudes; each match carries the absolute time delta and that
`float64`. -/
theorem C1_findDuplicates_characterisation (ts : List IEEE.Transaction) (maxTimeDiff : Int)
    (maxAmountDiff : F64)
    (h : ∀ a ∈ IEEE.deduplicateTransactions ts, ∀ b ∈ IEEE.deduplicateTransactions ts,
      |a.DateTime.ns - b.DateTime.ns| ≤ maxDuration)
    (hf : ∀ a ∈ IEEE.deduplicateTransactions ts, a.Amount.isFinite = true)
    (hma : maxAmountDiff ≠ F64.nan) :
    IEEE.FindDuplicates ts maxTimeDiff maxAmountDiff =
      IEEE.specMatches (IEEE.deduplicateTransactions ts) maxTimeDiff maxAmountDiff :=
  FindDuplicates_eq_spec64 ts maxTimeDiff maxAmountDiff h hf hma

/-- Witness of C1 on the four debits of the test "multiple potential
duplicates": the two cross-bank pairs are reported, in index order. -/
theorem C1_witness :
    (∀ a ∈ IEEE.deduplicateTransactions IEEE.exMultiple,
      ∀ b ∈ IEEE.deduplicateTransactions IEEE.exMultiple,
      |a.DateTime.ns - b.DateTime.ns| ≤ maxDuration) ∧
    (∀ a ∈ IEEE.deduplicateTransactions IEEE.exMultiple, a.Amount.isFinite = true) ∧
    IEEE.FindDuplicates IEEE.exMultiple oneMinute (F64.finite false 1) =
      IEEE.specMatches (IEEE.deduplicateTransactions IEEE.exMultiple) oneMinute
        (F64.finite false 1) ∧
    (IEEE.specMatches (IEEE.deduplicateTransactions IEEE.exMultiple) oneMinute
        (F64.finite false 1)).map
      (fun m => (m.Transaction1.Bank, m.Transaction1.Amount, m.Transaction2.Bank,
        m.Transaction2.Amount, m.TimeDiff, m.AmountDiff)) =
      [("BankA", F64.finite true 100, "BankB", F64.finite true 100, 0, F64.finite false 0),
       ("BankA", F64.finite true 200, "BankB", F64.finite true 200, 0, F64.finite false 0)] :=
  ⟨by decide!, by decide!,
    C1_findDuplicates_characterisation IEEE.exMultiple oneMinute (F64.finite false 1)
      (by decide!) (by decide!) (by decide),
    by decide!⟩

/-- Counterexample to C1 as stated. First, with the largest `time.Duration` as
the time tolerance, a debit of 2025 and a debit of 1700 (325 years apart, more
than the tolerance) are reported as a match, because `Sub` saturates at the
tolerance. Second, a numeral of 310 digits parses to minus infinity, and two
debits of minus infinity are reported with `AmountDiff` NaN although the
difference of their magnitudes, NaN, is not at most the tolerance. -/
theorem C1_counterexample :
    IEEE.FindDuplicates [IEEE.exNew, IEEE.exOld] maxDuration (F64.finite false 1) =
      [⟨IEEE.exNew, IEEE.exOld, maxDuration, F64.finite false 0⟩] ∧
    maxDuration < |IEEE.exNew.DateTime.ns - IEEE.exOld.DateTime.ns| ∧
    IEEE.parseOptimaAmount IEEE.hugeNumeral = F64.inf true ∧
    IEEE.FindDuplicates
        [IEEE.debit "Mbank" (F64.inf true), IEEE.debit "Optima Bank" (F64.inf true)]
        oneMinute (F64.finite false 1) =
      [⟨IEEE.debit "Mbank" (F64.inf true), IEEE.debit "Optima Bank" (F64.inf true), 0,
        F64.nan⟩] ∧
    F64.abs (F64.sub (F64.abs (F64.inf true)) (F64.abs (F64.inf true))) = F64.nan ∧
    F64.le F64.nan (F64.finite false 1) = false := by
  decide!

/-- Counterexample to C2 as stated: the amount lines `-0.00` and `0.00` parse to
the two zeros of `float64`, which are equal as numbers; two records of one bank in
one minute with these amounts share the key (bank, minute, rounded amount), yet
the pre-pass keeps both, because their rendered keys end in `-0.00` and `0.00`.
The same holds for the amounts -0.001 and 0.001, which both round to zero. -/
theorem C2_counterexample :
    IEEE.parseOptimaAmount "-0.00".data = F64.finite true 0 ∧
    IEEE.parseOptimaAmount "0.00".data = F64.finite false 0 ∧
    F64.beq (F64.finite true 0) (F64.finite false 0) = true ∧
    IEEE.specKey (IEEE.debit "Optima Bank" (F64.finite true 0)) =
      IEEE.specKey (IEEE.debit "Optima Bank" (F64.finite false 0)) ∧
    IEEE.firstOccurrences IEEE.specKey
        [IEEE.debit "Optima Bank" (F64.finite true 0),
         IEEE.debit "Optima Bank" (F64.finite false 0)] =
      [IEEE.debit "Optima Bank" (F64.finite true 0)] ∧
    IEEE.deduplicateTransactions
        [IEEE.debit "Optima Bank" (F64.finite true 0),
         IEEE.debit "Optima Bank" (F64.finite false 0)] =
      [IEEE.debit "Optima Bank" (F64.finite true 0),
       IEEE.debit "Optima Bank" (F64.finite false 0)] ∧
    IEEE.key (IEEE.debit "Optima Bank" (F64.finite true 0)) =
      "Optima Bank|2025-01-15 10:30|-0.00" ∧
    IEEE.key (IEEE.debit "Optima Bank" (F64.finite false 0)) =
      "Optima Bank|2025-01-15 10:30|0.00" ∧
    IEEE.specKey (IEEE.debit "BankA" (IEEE.parseOptimaAmount "-0.001".data)) =
      IEEE.specKey (IEEE.debit "BankA" (IEEE.parseOptimaAmount "0.001".data)) ∧
    IEEE.deduplicateTransactions
        [IEEE.debit "BankA" (IEEE.parseOptimaAmount "-0.001".data),
         IEEE.debit "BankA" (IEEE.parseOptimaAmount "0.001".data)] =
      [IEEE.debit "BankA" (IEEE.parseOptimaAmount "-0.001".data),
       IEEE.debit "BankA" (IEEE.parseOptimaAmount "0.001".data)] := by
  decide!

/-- C2 (amended): the pre-pass keeps exactly the first occurrence of each key,
where the key is (bank, wall clock of the timestamp in its own Location
truncated to the minute, amount rounded to two decimals together with its sign
bit): the element at position `i` survives if and only if no earlier position
has the same key; the result has pairwise distinct keys and covers every key of
the input; two identical records followed by a record with another key reduce
to two, and records of different banks are both kept. -/
theorem C2_dedup_keeps_first_occurrences (ts : List IEEE.Transaction)
    (a b c : IEEE.Transaction) :
    IEEE.deduplicateTransactions ts = IEEE.firstOccurrences IEEE.signedKey ts ∧
    ((IEEE.deduplicateTransactions ts).map IEEE.signedKey).Nodup ∧
    (∀ t ∈ ts, ∃ u ∈ IEEE.deduplicateTransactions ts, IEEE.signedKey u = IEEE.signedKey t) ∧
    (IEEE.signedKey c ≠ IEEE.signedKey a → IEEE.deduplicateTransactions [a, a, c] = [a, c]) ∧
    (a.Bank ≠ b.Bank → IEEE.deduplicateTransactions [a, b] = [a, b]) := by
  refine ⟨?_, ?_, ?_, ?_, ?_⟩
  · rw [dedup_eq_firstOccurrences64]
    exact firstOccurrences_congr64 IEEE.key IEEE.signedKey key_eq_iff_signedKey64 ts
  · rw [List.Nodup, List.pairwise_map]
    exact (dedup_pairwise64 ts).imp (fun h e => h ((key_eq_iff_signedKey64 _ _).2 e))
  · intro t ht
    obtain ⟨u, hu, hk⟩ := dedup_covers64 ts t ht
    exact ⟨u, hu, (key_eq_iff_signedKey64 _ _).1 hk⟩
  · intro h
    have hk : IEEE.key c ≠ IEEE.key a := fun e => h ((key_eq_iff_signedKey64 _ _).1 e)
    have e1 : IEEE.deduplicateTransactions [a, a] = [a] := by
      have := dedup_concat64 [a] a
      rw [dedup_of_pairwise64 [a] (List.pairwise_singleton _ _)] at this
      simpa using this
    have e2 := dedup_concat64 [a, a] c
    rw [e1, if_pos] at e2
    · exact e2
    · intro u hu
      simp only [List.mem_cons, List.mem_singleton, List.not_mem_nil, or_false, or_self] at hu
      rw [hu]
      exact fun e => hk e.symm
  · intro h
    exact dedup_pair_of_key_ne64 (key_ne_of_bank_ne64 h)

/-- C8 (amended): for two debits of different banks with finite amounts, the
same currency and timestamps within the time tolerance, and a tolerance that is
not NaN, `FindDuplicates` reports the pair if and only if the `float64` nearest to
the absolute difference of the magnitudes is at most `maxAmountDiff` (a
difference equal to the tolerance is included, a larger one excluded), and the
match carries that `float64`; it is the exact difference whenever that is a
`float64`; amounts -100.00 and -100.50 with tolerance 1.0 give exactly one match
with `AmountDiff` 0.50, amounts -100.00 and -105.00 give none. -/
theorem C8_amount_boundary_inclusive (a b : IEEE.Transaction) (maxTimeDiff : Int)
    (maxAmountDiff : F64) (hbank : a.Bank ≠ b.Bank) (hcur : a.Currency = b.Currency)
    (ha : F64.lt a.Amount F64.zero = true) (hb : F64.lt b.Amount F64.zero = true)
    (hfa : a.Amount.isFinite = true) (hfb : b.Amount.isFinite = true)
    (hma : maxAmountDiff ≠ F64.nan)
    (htime : |a.DateTime.ns - b.DateTime.ns| ≤ maxTimeDiff) :
    (F64.le (magnitudeDiff a.Amount b.Amount) maxAmountDiff = true →
      IEEE.FindDuplicates [a, b] maxTimeDiff maxAmountDiff =
        [⟨a, b, IEEE.timeDiffOf a b, magnitudeDiff a.Amount b.Amount⟩]) ∧
    (F64.le (magnitudeDiff a.Amount b.Amount) maxAmountDiff = false →
      IEEE.FindDuplicates [a, b] maxTimeDiff maxAmountDiff = []) ∧
    IsNearestF64 false |a.Amount.mag - b.Amount.mag| (magnitudeDiff a.Amount b.Amount) ∧
    (IsF64Mag |a.Amount.mag - b.Amount.mag| →
      magnitudeDiff a.Amount b.Amount = F64.finite false |a.Amount.mag - b.Amount.mag|) ∧
    (a.Amount = F64.finite true 100 → b.Amount = F64.finite true (201 / 2) →
      maxAmountDiff = F64.finite false 1 →
      IEEE.FindDuplicates [a, b] maxTimeDiff maxAmountDiff =
        [⟨a, b, IEEE.timeDiffOf a b, F64.finite false (1 / 2)⟩]) ∧
    (a.Amount = F64.finite true 100 → b.Amount = F64.finite true 105 →
      maxAmountDiff = F64.finite false 1 →
      IEEE.FindDuplicates [a, b] maxTimeDiff maxAmountDiff = []) := by
  have hstep := pairStep_finite64 maxTimeDiff maxAmountDiff a b hfa hfb hma
  have htd : IEEE.timeDiffOf a b ≤ maxTimeDiff := le_trans (timeDiffOf_le64 a b) htime
  have hpos : F64.le (magnitudeDiff a.Amount b.Amount) maxAmountDiff = true →
      IEEE.FindDuplicates [a, b] maxTimeDiff maxAmountDiff =
        [⟨a, b, IEEE.timeDiffOf a b, magnitudeDiff a.Amount b.Amount⟩] := by
    intro hle
    rw [FindDuplicates_pair64 _ _ hbank, hstep, if_pos ⟨hbank, hcur, ⟨ha, hb⟩, htd, hle⟩]
  have hneg : F64.le (magnitudeDiff a.Amount b.Amount) maxAmountDiff = false →
      IEEE.FindDuplicates [a, b] maxTimeDiff maxAmountDiff = [] := by
    intro hle
    rw [FindDuplicates_pair64 _ _ hbank, hstep, if_neg]
    rintro ⟨_, _, _, _, h5⟩
    rw [hle] at h5
    cases h5
  refine ⟨hpos, hneg, F64_round_nearest false _ (abs_nonneg _), ?_, fun h1 h2 h3 => ?_,
    fun h1 h2 h3 => ?_⟩
  · rintro ⟨m, j, hm, hj, hy, hlt⟩
    unfold magnitudeDiff F64.round
    rw [hy] at hlt ⊢
    rw [F64_roundMag_exact m j hm hj hlt]
  · have e : magnitudeDiff a.Amount b.Amount = F64.finite false (1 / 2) := by
      rw [h1, h2]
      decide!
    have := hpos (by rw [h1, h2, h3]; decide!)
    rw [e] at this
    exact this
  · apply hneg
    rw [h1, h2, h3]
    decide!

/-- Witness of C8 on the inputs of the test-suite: amounts -100 and -100.5 thirty
seconds apart match with `AmountDiff` 1/2, amounts -100 and -105 do not match. -/
theorem C8_witness :
    IEEE.FindDuplicates [IEEE.exNew, IEEE.exHalf] oneMinute (F64.finite false 1) =
      [⟨IEEE.exNew, IEEE.exHalf, 30 * nsPerSecond, F64.finite false (1 / 2)⟩] ∧
    IEEE.FindDuplicates [IEEE.exNew, IEEE.exFive] oneMinute (F64.finite false 1) = [] :=
  ⟨((C8_amount_boundary_inclusive IEEE.exNew IEEE.exHalf oneMinute (F64.finite false 1)
      (by decide!) (by decide!) (by decide!) (by decide!) (by decide!) (by decide!)
      (by decide) (by decide!)).2.2.2.2.1 rfl rfl rfl).trans (by decide!),
    (C8_amount_boundary_inclusive IEEE.exNew IEEE.exFive oneMinute (F64.finite false 1)
      (by decide!) (by decide!) (by decide!) (by decide!) (by decide!) (by decide!)
      (by decide) (by decide!)).2.2.2.2.2 rfl rfl rfl⟩

/-- Counterexample to C8 as stated: the amounts -9007199254740994 and -1 are
`float64` values whose magnitudes differ by 9007199254740993, more than the
tolerance 9007199254740992, yet the pair is reported, with `AmountDiff`
9007199254740992: the subtraction rounds the difference to the tolerance. -/
theorem C8_counterexample :
    IEEE.parseOptimaAmount "-9007199254740994.00".data = F64.finite true 9007199254740994 ∧
    IEEE.parseOptimaAmount "-1.00".data = F64.finite true 1 ∧
    IEEE.FindDuplicates
        [IEEE.debit "Optima Bank" (F64.finite true 9007199254740994),
         IEEE.debit "Mbank" (F64.finite true 1)]
        oneMinute (F64.finite false 9007199254740992) =
      [⟨IEEE.debit "Optima Bank" (F64.finite true 9007199254740994),
        IEEE.debit "Mbank" (F64.finite true 1), 0, F64.finite false 9007199254740992⟩] ∧
    (9007199254740992 : ℚ) <
      |(F64.finite true 9007199254740994).mag - (F64.finite true 1).mag| := by
  decide!

/-- C11 (amended): for every string made of an optional minus sign (optionally
followed by one space), groups of decimal digits separated by single ordinary
spaces, a comma and exactly two digits, `parseMbankAmount` returns the `float64`
nearest to the decimal value those digits denote (ties to the even significand),
with the sign bit set when there is a minus sign, and an infinity when the
value is beyond the range of `float64`; `"- 1 018,00"` gives -1018,
`"1 234 567,89"` gives the `float64` nearest to 1234567.89, `"-100,00"` and
`"- 100,00"` both give -100. -/
theorem C11_parseMbankAmount_value (neg sp : Bool) (g : List Char)
    (gs : List (Char × List Char)) (e1 e2 : Char)
    (hg : ∀ c ∈ g, c.isDigit = true)
    (hgs : ∀ p ∈ gs, p.1 = ' ' ∧ ∀ c ∈ p.2, c.isDigit = true)
    (he1 : e1.isDigit = true) (he2 : e2.isDigit = true) :
    IEEE.parseMbankAmount (signText neg (if sp then some ' ' else none) ++ groupsText g gs ++
        [',', e1, e2]) = F64.round neg (decimalValue false (groupsDigits g gs) [e1, e2]) ∧
    IsNearestF64 neg (decimalValue false (groupsDigits g gs) [e1, e2])
      (IEEE.parseMbankAmount (signText neg (if sp then some ' ' else none) ++
        groupsText g gs ++ [',', e1, e2])) ∧
    IEEE.parseMbankAmount "- 1 018,00".data = F64.finite true 1018 ∧
    IEEE.parseMbankAmount "1 234 567,89".data =
      F64.finite false (5302428712241725 / 4294967296) ∧
    IEEE.parseMbankAmount "-100,00".data = F64.finite true 100 ∧
    IEEE.parseMbankAmount "- 100,00".data = F64.finite true 100 := by
  have main : IEEE.parseMbankAmount (signText neg (if sp then some ' ' else none) ++
      groupsText g gs ++ [',', e1, e2]) =
      F64.round neg (decimalValue false (groupsDigits g gs) [e1, e2]) := by
    have hB : ∀ c ∈ groupsText g gs, c.isDigit = true ∨ c = ' ' := by
      intro c hc
      unfold groupsText at hc
      rw [List.mem_append, List.mem_flatMap] at hc
      rcases hc with hc | ⟨p, hp, hc⟩
      · exact Or.inl (hg c hc)
      · rw [List.mem_cons] at hc
        rcases hc with hc | hc
        · exact Or.inr (hc ▸ (hgs p hp).1)
        · exact Or.inl ((hgs p hp).2 c hc)
    have hfd : (groupsText g gs).filter Char.isDigit = groupsDigits g gs :=
      filter_digit_groupsText g gs hg (fun p hp => ⟨by rw [(hgs p hp).1]; rfl, (hgs p hp).2⟩)
    have key := parseMbankAmount_value64 neg (if neg ∧ sp then [' '] else []) (groupsText g gs)
      e1 e2 hB (by intro c hc; split_ifs at hc <;> simp at hc; subst hc; rfl)
      (by intro _ c hc; split_ifs at hc <;> simp at hc; exact hc) he1 he2
    rw [hfd] at key
    rw [← key]
    congr 2
    unfold signText
    cases neg <;> cases sp <;> rfl
  refine ⟨main, ?_, by decide!, by decide!, by decide!, by decide!⟩
  rw [main]
  exact F64_round_nearest neg _ (decimalValue_nonneg _ _)

/-- Witness of C11 on `"- 1 018,00"`. -/
theorem C11_witness :
    IEEE.parseMbankAmount "- 1 018,00".data =
      F64.round true (decimalValue false "1018".data "00".data) ∧
    F64.round true (decimalValue false "1018".data "00".data) = F64.finite true 1018 :=
  ⟨(C11_parseMbankAmount_value true true ['1'] [(' ', ['0', '1', '8'])] '0' '0'
      (by decide) (by decide) rfl rfl).1, by decide!⟩

/-- Counterexample to C11 as stated: `"9 007 199 254 740 993,00"` denotes
9007199254740993, and `parseMbankAmount` returns 9007199254740992; a numeral of
310 digits gives minus infinity. -/
theorem C11_counterexample :
    IEEE.parseMbankAmount "9 007 199 254 740 993,00".data =
      F64.finite false 9007199254740992 ∧
    decimalValue false "9007199254740993".data "00".data = 9007199254740993 ∧
    IEEE.parseMbankAmount (IEEE.hugeNumeral ++ ",00".data) = F64.inf true := by
  decide!

/-- C12: `parseMbankAmount` at the failing input: `"1\u00a0018,00"`, and the same
text with a figure space or a narrow no-break space as the separator, parses to
0, the value of a malformed numeral, while `"1 018,00"` with the ordinary space
gives 1018 and the routine of the Optima parser gives 1018 for the three special
separators. -/
theorem C12_special_space_parses_to_zero :
    IEEE.parseMbankAmount "1\u00a0018,00".data = F64.zero ∧
    IEEE.parseMbankAmount "1\u2007018,00".data = F64.zero ∧
    IEEE.parseMbankAmount "1\u202f018,00".data = F64.zero ∧
    IEEE.parseMbankAmount "1 018,00".data = F64.finite false 1018 ∧
    IEEE.parseOptimaAmount "1\u00a0018.00".data = F64.finite false 1018 ∧
    IEEE.parseOptimaAmount "1\u2007018.00".data = F64.finite false 1018 ∧
    IEEE.parseOptimaAmount "1\u202f018.00".data = F64.finite false 1018 := by
  decide!

/-- C13 (amended): for every string made of an optional minus sign, groups of
decimal digits (the first not empty) separated by single spaces that may each be
an ordinary space, U+00A0, U+2007 or U+202F, and an optional period followed by
digits, `parseOptimaAmount` returns the `float64` nearest to the decimal value
those digits denote (ties to the even significand), with the sign bit set when
there is a minus sign, and an infinity when the value is beyond the range of
`float64`; `"-1 965.84"` gives the `float64` nearest to -1965.84, `"1 234 567.89"`
the one nearest to 1234567.89 and `"1\u00a0000.00"` gives 1000. -/
theorem C13_parseOptimaAmount_value (neg : Bool) (g : List Char)
    (gs : List (Char × List Char)) (dot : Bool) (F : List Char)
    (hg : ∀ c ∈ g, c.isDigit = true) (hne : g ≠ [])
    (hgs : ∀ p ∈ gs, (p.1 = ' ' ∨ p.1 = '\u00a0' ∨ p.1 = '\u2007' ∨ p.1 = '\u202f') ∧
      ∀ c ∈ p.2, c.isDigit = true)
    (hF : ∀ c ∈ F, c.isDigit = true) (hdot : dot = false → F = []) :
    IEEE.parseOptimaAmount (signText neg none ++ groupsText g gs ++
        (if dot then '.' :: F else [])) =
      F64.round neg (decimalValue false (groupsDigits g gs) F) ∧
    IsNearestF64 neg (decimalValue false (groupsDigits g gs) F)
      (IEEE.parseOptimaAmount (signText neg none ++ groupsText g gs ++
        (if dot then '.' :: F else []))) ∧
    IEEE.parseOptimaAmount "-1 965.84".data =
      F64.finite true (8645855753388687 / 4398046511104) ∧
    IEEE.parseOptimaAmount "1 234 567.89".data =
      F64.finite false (5302428712241725 / 4294967296) ∧
    IEEE.parseOptimaAmount "1\u00a0000.00".data = F64.finite false 1000 := by
  have main : IEEE.parseOptimaAmount (signText neg none ++ groupsText g gs ++
      (if dot then '.' :: F else [])) =
      F64.round neg (decimalValue false (groupsDigits g gs) F) := by
    have hsep : ∀ c : Char, (c = ' ' ∨ c = '\u00a0' ∨ c = '\u2007' ∨ c = '\u202f') →
        c.isDigit = false ∧ normChar c = ' ' := by
      rintro c (h | h | h | h) <;> subst h <;> decide
    have hB : ∀ c ∈ groupsText g gs, c.isDigit = true ∨ normChar c = ' ' := by
      intro c hc
      unfold groupsText at hc
      rw [List.mem_append, List.mem_flatMap] at hc
      rcases hc with hc | ⟨p, hp, hc⟩
      · exact Or.inl (hg c hc)
      · rw [List.mem_cons] at hc
        rcases hc with hc | hc
        · exact Or.inr (hc ▸ (hsep _ (hgs p hp).1).2)
        · exact Or.inl ((hgs p hp).2 c hc)
    have hfd : (groupsText g gs).filter Char.isDigit = groupsDigits g gs :=
      filter_digit_groupsText g gs hg (fun p hp => ⟨(hsep _ (hgs p hp).1).1, (hgs p hp).2⟩)
    have key := parseOptimaAmount_value64 neg (groupsText g gs) F dot hB hF hdot
      (Or.inl (by rw [hfd]; exact groupsDigits_ne_nil g gs hne))
    rw [hfd] at key
    have hs : signText neg none = if neg then ['-'] else [] := by
      unfold signText
      cases neg <;> rfl
    rw [hs]
    exact key
  refine ⟨main, ?_, by decide!, by decide!, by decide!⟩
  rw [main]
  exact F64_round_nearest neg _ (decimalValue_nonneg _ _)

/-- Witness of C13 on `"1\u00a0000.00"`. -/
theorem C13_witness :
    IEEE.parseOptimaAmount "1\u00a0000.00".data =
      F64.round false (decimalValue false "1000".data "00".data) ∧
    F64.round false (decimalValue false "1000".data "00".data) = F64.finite false 1000 :=
  ⟨(C13_parseOptimaAmount_value false ['1'] [('\u00a0', ['0', '0', '0'])] true ['0', '0']
      (by decide) (by decide) (by decide) (by decide) (by decide)).1, by decide!⟩

/-- Counterexample to C13 as stated: `"9 007 199 254 740 993"` denotes
9007199254740993, and `parseOptimaAmount` returns 9007199254740992; a numeral of
310 digits gives minus infinity. -/
theorem C13_counterexample :
    IEEE.parseOptimaAmount "9 007 199 254 740 993".data =
      F64.finite false 9007199254740992 ∧
    decimalValue false "9007199254740993".data [] = 9007199254740993 ∧
    IEEE.parseOptimaAmount IEEE.hugeNumeral = F64.inf true := by
  decide!

/-- C17: `OptimaParser.Parse` at the failing input: a block whose amount line
reads `0.00` before a `KGS` line yields a transaction with amount zero, and so
does a block whose amount line is a malformed numeral (digits around a tab);
the amount routine gives `+0` for both lines. -/
theorem C17_optima_emits_zero_amount :
    OptimaParser.Parse "24.12.2025\n12:02\nPayment\n0.00\nKGS" =
      some ([⟨dateTimeOfFields 2025 12 24 12 2, "Payment", 0, "KGS", "Optima Bank",
        "Payment"⟩], none) ∧
    OptimaParser.Parse "24.12.2025\n12:02\nPayment\n1\t000.00\nKGS" =
      some ([⟨dateTimeOfFields 2025 12 24 12 2, "Payment", 0, "KGS", "Optima Bank",
        "Payment"⟩], none) ∧
    IEEE.parseOptimaAmount "0.00".data = F64.zero ∧
    IEEE.parseOptimaAmount "1\t000.00".data = F64.zero ∧
    MbankParser.Parse "24.12.2025 10:00 Payment 0,00" = some ([], none) := by
  decide!

end Dupay
